import Mathlib

/-!
Verification of the NBSP binary-structure library (layout planner,
scalar codec, recursive structure codec, live-view engine).

The TypeScript source is embedded shallowly:

* JavaScript numbers are modelled by `NBSP.JsNum` (an exact rational for
  every finite double, plus `nan` / `inf` / `negInf`); runtime values that
  flow through the codec (numbers, bigints, arrays, plain objects,
  `undefined`) are modelled by `NBSP.Val`.
* A Node `Buffer` is a `List ℕ` of bytes; the built-in
  `readIntLE/writeUIntBE/...` methods are modelled byte-for-byte by the
  `natToBytesLE` / two's-complement helpers below, and the float methods by
  an explicit IEEE-754 round-to-nearest-even encoder (`fpEnc` / `fpDecode`),
  which is the documented behaviour of the Node primitives the source calls.
* A thrown JavaScript exception is modelled by returning the error in an
  `Option NBSP.Err` next to the (unchanged or partially updated) buffer,
  matching the mutation order of the source: validation happens before any
  byte is stored.
-/

namespace NBSP

/-- The 18 scalar wire types of `type.ts` (`enum DataType`). -/
inductive DataType where
  | INT8 | UINT8
  | INT16LE | INT16BE | UINT16LE | UINT16BE
  | INT32LE | INT32BE | UINT32LE | UINT32BE
  | INT64LE | INT64BE | UINT64LE | UINT64BE
  | FLOAT32LE | FLOAT32BE | FLOAT64LE | FLOAT64BE
deriving DecidableEq

/-- A JavaScript `number`: every finite double is an exact rational, and the
three non-finite values are explicit. -/
inductive JsNum where
  | finite (q : ℚ)
  | nan
  | inf
  | negInf
deriving DecidableEq

/-- A JavaScript runtime value as seen by the codec: a `number`, a `bigint`
(returned by the 64-bit buffer reads), an array, a plain object (association
list of own properties), or `undefined`. -/
inductive Val where
  | num (n : JsNum)
  | big (i : ℤ)
  | arrv (l : List Val)
  | obj (fields : List (String × Val))
  | undef

/-- The error conditions the source throws (`new Error(...)` /
`RangeError`), as structured data so a statement can talk about exactly
which pieces of information the message carries. -/
inductive Err where
  /-- `"${type}: value is not an integer"` — names only the type. -/
  | notInteger (t : String)
  /-- `"${type}: value ${value} out of range [${min}, ${max}]"`. -/
  | outOfRange (t : String) (v lo hi : ℚ)
  /-- `"${type}: value is not finite"`. -/
  | notFinite (t : String)
  /-- the `RangeError` thrown by the JavaScript `BigInt(value)` conversion
  itself (names the value, but neither the DataType nor its bounds). -/
  | bigintConvert (t : String)
  /-- `"Invalid type"` (default branch of the scalar codec). -/
  | invalidType
  /-- `RangeError("Invalid array length")` from `writeArray`. -/
  | invalidArrayLength
  /-- `"Invalid buffer size"` from `from` / `toJson`. -/
  | invalidBufferSize
  /-- `"Duplicate name"` from `alignFields`. -/
  | duplicateName
  /-- `"Invalid byte"` from `bytesToHex`. -/
  | invalidByte
  /-- a Node `ERR_OUT_OF_RANGE` from a buffer read/write beyond the end. -/
  | bufferBounds
  /-- a JavaScript `TypeError` (e.g. `arr.length` on a non-array). -/
  | typeError
deriving DecidableEq

instance {e a : Type} [DecidableEq e] [DecidableEq a] : DecidableEq (Except e a)
  | .ok x, .ok y =>
    match decEq x y with
    | .isTrue h => .isTrue (h ▸ rfl)
    | .isFalse h => .isFalse fun hh => h (by cases hh; rfl)
  | .error x, .error y =>
    match decEq x y with
    | .isTrue h => .isTrue (h ▸ rfl)
    | .isFalse h => .isFalse fun hh => h (by cases hh; rfl)
  | .ok _, .error _ => .isFalse (by intro h; cases h)
  | .error _, .ok _ => .isFalse (by intro h; cases h)

/-- `Number.isInteger(v)`: true exactly for finite doubles with no
fractional part. -/
def isIntegerNum : Val → Bool
  | .num (.finite q) => q.den = 1
  | _ => false

/-- `Number.isFinite(v)` (note: false on bigints and non-numbers). -/
def isFiniteNum : Val → Bool
  | .num (.finite _) => true
  | _ => false

/-- The rational carried by a value known to be a finite number
(only ever used after `isIntegerNum` / `isFiniteNum` has succeeded). -/
def numVal : Val → ℚ
  | .num (.finite q) => q
  | _ => 0

/-- `assertInteger(value, min, max, type)` from `memory.ts`: first the
`Number.isInteger` check (throwing a message that names only the type),
then the range check (throwing a message with type, value and bounds). -/
def assertInteger (value : Val) (min max : ℚ) (t : String) : Option Err :=
  if ¬ isIntegerNum value then some (.notInteger t)
  else if numVal value < min ∨ max < numVal value then
    some (.outOfRange t (numVal value) min max)
  else none

/-- `assertFinite(value, type)` from `memory.ts`. -/
def assertFinite (value : Val) (t : String) : Option Err :=
  if ¬ isFiniteNum value then some (.notFinite t) else none

/-- The JavaScript `BigInt(value)` conversion: exact on integers and on
bigints, and a thrown `RangeError` on fractional or non-finite numbers. -/
def jsBigInt (value : Val) (t : String) : Except Err ℤ :=
  match value with
  | .big i => .ok i
  | .num (.finite q) => if q.den = 1 then .ok q.num else .error (.bigintConvert t)
  | _ => .error (.bigintConvert t)

/-- `assertBigIntRange(value, min, max, type)` from `memory.ts`. -/
def assertBigIntRange (value min max : ℤ) (t : String) : Option Err :=
  if value < min ∨ max < value then
    some (.outOfRange t (value : ℚ) (min : ℚ) (max : ℚ))
  else none

/-- Little-endian byte decomposition of a natural number into `k` bytes
(the byte pattern Node's `writeUIntLE`-family stores). -/
def natToBytesLE : ℕ → ℕ → List ℕ
  | _, 0 => []
  | n, k + 1 => n % 256 :: natToBytesLE (n / 256) k

/-- Reassemble a little-endian byte list into a natural number. -/
def bytesToNatLE : List ℕ → ℕ
  | [] => 0
  | b :: bs => b + 256 * bytesToNatLE bs

/-- Big-endian variants (most significant byte first). -/
def natToBytesBE (n k : ℕ) : List ℕ := (natToBytesLE n k).reverse

/-- Reassemble a big-endian byte list. -/
def bytesToNatBE (bs : List ℕ) : ℕ := bytesToNatLE bs.reverse

/-- Two's-complement pattern of an integer in `bits` bits. -/
def intToNat2c (v : ℤ) (bits : ℕ) : ℕ := (v % ((2 : ℤ) ^ bits)).toNat

/-- Signed interpretation of a `bits`-bit pattern. -/
def natToInt2c (n : ℕ) (bits : ℕ) : ℤ :=
  if n < 2 ^ (bits - 1) then (n : ℤ) else (n : ℤ) - 2 ^ bits

/-- Replace the bytes `[off, off + bs.length)` of a buffer. -/
def writeBytes (buf : List ℕ) (off : ℕ) (bs : List ℕ) : List ℕ :=
  buf.take off ++ bs ++ buf.drop (off + bs.length)

/-- The `k` bytes of the buffer starting at `off`. -/
def readBytes (buf : List ℕ) (off k : ℕ) : List ℕ := (buf.drop off).take k

/-- A bounds-checked byte store, modelling that every Node buffer write
throws `ERR_OUT_OF_RANGE` (leaving the buffer untouched) when the target
range does not fit. -/
def storeBytes (buf : List ℕ) (off : ℕ) (bs : List ℕ) : List ℕ × Option Err :=
  if off + bs.length ≤ buf.length then (writeBytes buf off bs, none)
  else (buf, some .bufferBounds)

/-- A bounds-checked byte load (Node buffer reads also throw when the
requested range does not fit). -/
def loadBytes (buf : List ℕ) (off k : ℕ) : Except Err (List ℕ) :=
  if off + k ≤ buf.length then .ok (readBytes buf off k) else .error .bufferBounds

/-!  IEEE-754 binary floating point, parametrised by the number of
fraction bits `fb`, exponent-field bits `eb` and minimal normal exponent
`emin` (`fb = 23, eb = 8, emin = -126` for float32 and
`fb = 52, eb = 11, emin = -1022` for float64).  This models the Node
`writeFloatLE` / `readDoubleBE` / ... primitives the source calls:
a finite value is rounded to the nearest representable value
(ties to even) and stored as sign / biased-exponent / fraction bits. -/

/-- Round a rational to the nearest integer, ties to even. -/
def rne (q : ℚ) : ℤ :=
  if q - ⌊q⌋ < 1 / 2 then ⌊q⌋
  else if 1 / 2 < q - ⌊q⌋ then ⌊q⌋ + 1
  else if ⌊q⌋ % 2 = 0 then ⌊q⌋ else ⌊q⌋ + 1

/-- Exponent of the binade a value is rounded in (clamped below at `emin`,
where the subnormal range begins). -/
def fpE (emin : ℤ) (q : ℚ) : ℤ := max (Int.log 2 |q|) emin

/-- Rounded significand: the magnitude scaled into `[0, 2^(fb+1)]` and
rounded to an integer, ties to even. -/
def fpM (fb : ℕ) (emin : ℤ) (q : ℚ) : ℤ :=
  rne (|q| * (2 : ℚ) ^ ((fb : ℤ) - fpE emin q))

/-- The nearest representable floating-point value of a rational (the value
a Node float write stores, for inputs below the overflow threshold). -/
def fpRound (fb : ℕ) (emin : ℤ) (q : ℚ) : ℚ :=
  if q = 0 then 0
  else (if q < 0 then -1 else 1) * (fpM fb emin q : ℚ) * (2 : ℚ) ^ (fpE emin q - fb)

/-- Magnitude bits (biased exponent field next to the fraction field) of the
rounded value. -/
def fpEncMag (fb : ℕ) (emin : ℤ) (q : ℚ) : ℕ :=
  if q = 0 then 0
  else if (fpM fb emin q).toNat < 2 ^ fb then (fpM fb emin q).toNat
  else (fpE emin q - emin + 1).toNat * 2 ^ fb + ((fpM fb emin q).toNat - 2 ^ fb)

/-- Full bit pattern stored for a finite value: sign bit on top of the
magnitude bits. -/
def fpEnc (fb eb : ℕ) (emin : ℤ) (q : ℚ) : ℕ :=
  (if q < 0 then 2 ^ (fb + eb) else 0) + fpEncMag fb emin q

/-- Decode a stored bit pattern back into a JavaScript number (NaN and the
infinities come from an all-ones exponent field). -/
def fpDecode (fb eb : ℕ) (emin : ℤ) (n : ℕ) : JsNum :=
  let sign : ℚ := if n / 2 ^ (fb + eb) % 2 = 1 then -1 else 1
  let mag := n % 2 ^ (fb + eb)
  let E := mag / 2 ^ fb
  let F := mag % 2 ^ fb
  if E = 2 ^ eb - 1 then
    if F = 0 then (if 0 < sign then .inf else .negInf) else .nan
  else if E = 0 then .finite (sign * (F : ℚ) * (2 : ℚ) ^ (emin - fb))
  else .finite (sign * ((2 ^ fb + F : ℕ) : ℚ) * (2 : ℚ) ^ (emin - (fb : ℤ) + (E - 1)))

/-- Largest finite value of the format (`(2^(fb+1) - 1) · 2^(emax - fb)`
with `emax = emin + 2^eb - 3`). -/
def maxFin (fb eb : ℕ) (emin : ℤ) : ℚ :=
  ((2 ^ (fb + 1) - 1 : ℕ) : ℚ) * (2 : ℚ) ^ (emin + (2 ^ eb : ℕ) - 3 - fb)

/-- A rational is (exactly) a finite IEEE-754 double — the set of values a
JavaScript `number` variable can hold. -/
def isRepF64 (q : ℚ) : Prop :=
  fpRound 52 (-1022) q = q ∧ |q| ≤ maxFin 52 11 (-1022)

instance (q : ℚ) : Decidable (isRepF64 q) := by unfold isRepF64; infer_instance

/-- A per-field transformer pair (`PropertyTransformer` in
`transformer.ts`): ordered lists of input and output converters. -/
structure PropTrans where
  input : Option (List (Val → Val)) := none
  output : Option (List (Val → Val)) := none

/-- `applyTransform(transformer, v)`: identity when the list is absent or
empty, otherwise the left-to-right composition. -/
def applyTransform (transformer : Option (List (Val → Val))) (v : Val) : Val :=
  match transformer with
  | some l => if l.length ≠ 0 then l.foldl (fun a f => f a) v else v
  | none => v

mutual
/-- A field type (`Type` in `type.ts`): a scalar `DataType`, a fixed-length
array `[elementType, length]`, or a nested structure (represented by its
already-built constructor: resolved field map, transformer table and
precomputed total size, exactly the static data `structure()` attaches). -/
inductive Ty where
  | scalar (dt : DataType)
  | arr (elem : Ty) (len : ℕ)
  | strct (sc : StructCtor)

/-- The static face of a structure class (`StructureConstructor`):
`fields`, `transform` and `size`. -/
inductive StructCtor where
  | mk (fields : List (String × AlignedData)) (transform : List (String × PropTrans)) (size : ℕ)

/-- `AlignedData` from `type.ts`: resolved `type`, `offset`, `size`. -/
inductive AlignedData where
  | mk (type : Ty) (offset : ℕ) (size : ℕ)
end

def StructCtor.fields : StructCtor → List (String × AlignedData)
  | .mk f _ _ => f

def StructCtor.transform : StructCtor → List (String × PropTrans)
  | .mk _ t _ => t

def StructCtor.size : StructCtor → ℕ
  | .mk _ _ s => s

def AlignedData.type : AlignedData → Ty
  | .mk t _ _ => t

def AlignedData.offset : AlignedData → ℕ
  | .mk _ o _ => o

def AlignedData.size : AlignedData → ℕ
  | .mk _ _ s => s

/-- `isStructureDataType` (`typeof t === "function"`). -/
def isStructureDataType : Ty → Bool
  | .strct _ => true
  | _ => false

/-- `isArrayDataType` (`Array.isArray(t)`). -/
def isArrayDataType : Ty → Bool
  | .arr _ _ => true
  | _ => false

/-- Fixed byte width of a scalar type (`getDataTypeSize`). -/
def getDataTypeSize : DataType → ℕ
  | .INT8 | .UINT8 => 1
  | .INT16LE | .INT16BE | .UINT16LE | .UINT16BE => 2
  | .INT32LE | .INT32BE | .UINT32LE | .UINT32BE => 4
  | .INT64LE | .INT64BE | .UINT64LE | .UINT64BE => 8
  | .FLOAT32LE | .FLOAT32BE => 4
  | .FLOAT64LE | .FLOAT64BE => 8

/-- `sizeof`: scalar → width table, array → element size times length,
structure → its precomputed `size`. -/
def sizeof : Ty → ℕ
  | .scalar dt => getDataTypeSize dt
  | .arr t len => sizeof t * len
  | .strct sc => sc.size

/-- Property lookup `transformTable[k]` on the transformer table. -/
def lookupTr (table : List (String × PropTrans)) (k : String) : Option PropTrans :=
  (table.find? (fun p => p.1 = k)).map (·.2)

/-- Property lookup `value[k]` on an object value (`undefined` when the
property is missing or the value is not an object). -/
def objGet (v : Val) (k : String) : Val :=
  match v with
  | .obj l => ((l.find? (fun p => p.1 = k)).map (·.2)).getD .undef
  | _ => Val.undef

/-- JavaScript truthiness of a value (`if (val) ...`). -/
def jsTruthy : Val → Bool
  | .num (.finite q) => q ≠ 0
  | .num .nan => false
  | .num .inf | .num .negInf => true
  | .big i => i ≠ 0
  | .arrv _ => true
  | .obj _ => true
  | .undef => false

/-- `read(data, buffer, offset)` from `memory.ts`: decode the scalar at
`offset + data.offset` according to `data.type`; 64-bit types come back as
bigints, all other types as numbers.  A non-scalar `data.type` falls into
the `default` branch (`"Invalid type"`). -/
def read (data : AlignedData) (buffer : List ℕ) (offset : ℕ) : Except Err Val :=
  let o := offset + data.offset
  match data.type with
  | .scalar .INT8 =>
    (loadBytes buffer o 1).map fun bs => .num (.finite (natToInt2c (bytesToNatLE bs) 8))
  | .scalar .UINT8 =>
    (loadBytes buffer o 1).map fun bs => .num (.finite (bytesToNatLE bs))
  | .scalar .INT16LE =>
    (loadBytes buffer o 2).map fun bs => .num (.finite (natToInt2c (bytesToNatLE bs) 16))
  | .scalar .INT16BE =>
    (loadBytes buffer o 2).map fun bs => .num (.finite (natToInt2c (bytesToNatBE bs) 16))
  | .scalar .UINT16LE =>
    (loadBytes buffer o 2).map fun bs => .num (.finite (bytesToNatLE bs))
  | .scalar .UINT16BE =>
    (loadBytes buffer o 2).map fun bs => .num (.finite (bytesToNatBE bs))
  | .scalar .INT32LE =>
    (loadBytes buffer o 4).map fun bs => .num (.finite (natToInt2c (bytesToNatLE bs) 32))
  | .scalar .INT32BE =>
    (loadBytes buffer o 4).map fun bs => .num (.finite (natToInt2c (bytesToNatBE bs) 32))
  | .scalar .UINT32LE =>
    (loadBytes buffer o 4).map fun bs => .num (.finite (bytesToNatLE bs))
  | .scalar .UINT32BE =>
    (loadBytes buffer o 4).map fun bs => .num (.finite (bytesToNatBE bs))
  | .scalar .INT64LE =>
    (loadBytes buffer o 8).map fun bs => .big (natToInt2c (bytesToNatLE bs) 64)
  | .scalar .INT64BE =>
    (loadBytes buffer o 8).map fun bs => .big (natToInt2c (bytesToNatBE bs) 64)
  | .scalar .UINT64LE =>
    (loadBytes buffer o 8).map fun bs => .big (bytesToNatLE bs)
  | .scalar .UINT64BE =>
    (loadBytes buffer o 8).map fun bs => .big (bytesToNatBE bs)
  | .scalar .FLOAT32LE =>
    (loadBytes buffer o 4).map fun bs => .num (fpDecode 23 8 (-126) (bytesToNatLE bs))
  | .scalar .FLOAT32BE =>
    (loadBytes buffer o 4).map fun bs => .num (fpDecode 23 8 (-126) (bytesToNatBE bs))
  | .scalar .FLOAT64LE =>
    (loadBytes buffer o 8).map fun bs => .num (fpDecode 52 11 (-1022) (bytesToNatLE bs))
  | .scalar .FLOAT64BE =>
    (loadBytes buffer o 8).map fun bs => .num (fpDecode 52 11 (-1022) (bytesToNatBE bs))
  | _ => .error .invalidType

/-- Store helper: two's-complement bytes of an integer, little endian. -/
def storeIntLE (buf : List ℕ) (off : ℕ) (v : ℤ) (k : ℕ) : List ℕ × Option Err :=
  storeBytes buf off (natToBytesLE (intToNat2c v (8 * k)) k)

/-- Store helper: two's-complement bytes of an integer, big endian. -/
def storeIntBE (buf : List ℕ) (off : ℕ) (v : ℤ) (k : ℕ) : List ℕ × Option Err :=
  storeBytes buf off (natToBytesBE (intToNat2c v (8 * k)) k)

/-- `write(data, buffer, value, offset)` from `memory.ts`: per-type
validation (which happens before any byte is touched, so a failed write
leaves the buffer unchanged), then the byte store at
`offset + data.offset`. -/
def write (data : AlignedData) (buffer : List ℕ) (value : Val) (offset : ℕ) :
    List ℕ × Option Err :=
  let o := offset + data.offset
  match data.type with
  | .scalar .INT8 =>
    match assertInteger value (-128) 127 "INT8" with
    | some e => (buffer, some e)
    | none => storeIntLE buffer o (numVal value).num 1
  | .scalar .UINT8 =>
    match assertInteger value 0 0xff "UINT8" with
    | some e => (buffer, some e)
    | none => storeIntLE buffer o (numVal value).num 1
  | .scalar .INT16LE =>
    match assertInteger value (-0x8000) 0x7fff "INT16" with
    | some e => (buffer, some e)
    | none => storeIntLE buffer o (numVal value).num 2
  | .scalar .INT16BE =>
    match assertInteger value (-0x8000) 0x7fff "INT16" with
    | some e => (buffer, some e)
    | none => storeIntBE buffer o (numVal value).num 2
  | .scalar .UINT16LE =>
    match assertInteger value 0 0xffff "UINT16" with
    | some e => (buffer, some e)
    | none => storeIntLE buffer o (numVal value).num 2
  | .scalar .UINT16BE =>
    match assertInteger value 0 0xffff "UINT16" with
    | some e => (buffer, some e)
    | none => storeIntBE buffer o (numVal value).num 2
  | .scalar .INT32LE =>
    match assertInteger value (-0x80000000) 0x7fffffff "INT32" with
    | some e => (buffer, some e)
    | none => storeIntLE buffer o (numVal value).num 4
  | .scalar .INT32BE =>
    match assertInteger value (-0x80000000) 0x7fffffff "INT32" with
    | some e => (buffer, some e)
    | none => storeIntBE buffer o (numVal value).num 4
  | .scalar .UINT32LE =>
    match assertInteger value 0 0xffffffff "UINT32" with
    | some e => (buffer, some e)
    | none => storeIntLE buffer o (numVal value).num 4
  | .scalar .UINT32BE =>
    match assertInteger value 0 0xffffffff "UINT32" with
    | some e => (buffer, some e)
    | none => storeIntBE buffer o (numVal value).num 4
  | .scalar .INT64LE =>
    match jsBigInt value "INT64" with
    | .error e => (buffer, some e)
    | .ok bi =>
      match assertBigIntRange bi (-(1 <<< 63)) ((1 <<< 63) - 1) "INT64" with
      | some e => (buffer, some e)
      | none => storeIntLE buffer o bi 8
  | .scalar .INT64BE =>
    match jsBigInt value "INT64" with
    | .error e => (buffer, some e)
    | .ok bi =>
      match assertBigIntRange bi (-(1 <<< 63)) ((1 <<< 63) - 1) "INT64" with
      | some e => (buffer, some e)
      | none => storeIntBE buffer o bi 8
  | .scalar .UINT64LE =>
    match jsBigInt value "UINT64" with
    | .error e => (buffer, some e)
    | .ok bi =>
      match assertBigIntRange bi 0 ((1 <<< 64) - 1) "UINT64" with
      | some e => (buffer, some e)
      | none => storeIntLE buffer o bi 8
  | .scalar .UINT64BE =>
    match jsBigInt value "UINT64" with
    | .error e => (buffer, some e)
    | .ok bi =>
      match assertBigIntRange bi 0 ((1 <<< 64) - 1) "UINT64" with
      | some e => (buffer, some e)
      | none => storeIntBE buffer o bi 8
  | .scalar .FLOAT32LE =>
    match assertFinite value "FLOAT32" with
    | some e => (buffer, some e)
    | none => storeBytes buffer o (natToBytesLE (fpEnc 23 8 (-126) (numVal value)) 4)
  | .scalar .FLOAT32BE =>
    match assertFinite value "FLOAT32" with
    | some e => (buffer, some e)
    | none => storeBytes buffer o (natToBytesBE (fpEnc 23 8 (-126) (numVal value)) 4)
  | .scalar .FLOAT64LE =>
    match assertFinite value "FLOAT64" with
    | some e => (buffer, some e)
    | none => storeBytes buffer o (natToBytesLE (fpEnc 52 11 (-1022) (numVal value)) 8)
  | .scalar .FLOAT64BE =>
    match assertFinite value "FLOAT64" with
    | some e => (buffer, some e)
    | none => storeBytes buffer o (natToBytesBE (fpEnc 52 11 (-1022) (numVal value)) 8)
  | _ => (buffer, some .invalidType)

/-- `transformer?.input` — the optional input-converter list of an optional
transformer. -/
def trIn (tr : Option PropTrans) : Option (List (Val → Val)) := tr.bind (·.input)

/-- `transformer?.output`. -/
def trOut (tr : Option PropTrans) : Option (List (Val → Val)) := tr.bind (·.output)

/-- The JavaScript nullish-coalescing `v ?? d`. -/
def nullish (v d : Val) : Val :=
  match v with
  | .undef => d
  | x => x

mutual

/-- `writeStructure(data, buffer, value, offset)` from `structure.ts`:
iterate the nested schema's field map and write each field (through the
nested schema's own transformer table) at `offset + data.offset`.  The
source casts `data.type` to a structure constructor; a non-structure type
would crash on `.fields` (modelled as a TypeError). -/
def writeStructure (data : AlignedData) (buffer : List ℕ) (value : Val) (offset : ℕ) :
    List ℕ × Option Err :=
  match data with
  | .mk (.strct sc) doff _ =>
    writeStructureFields sc.fields sc.transform buffer value (offset + doff)
  | _ => (buffer, some .typeError)
termination_by 3 * sizeOf data.type
decreasing_by
  simp only [AlignedData.type]
  cases sc with
  | mk f t s => simp [StructCtor.fields]; omega

/-- The field loop of `writeStructure`: each field's value is looked up on
the value tree, passed through the field's input transform, and dispatched
to `writeStructure` / `writeArray` / `write` by field kind; a thrown error
aborts the loop (later fields are left unwritten, earlier writes stay). -/
def writeStructureFields (fields : List (String × AlignedData))
    (table : List (String × PropTrans)) (buffer : List ℕ) (value : Val) (base : ℕ) :
    List ℕ × Option Err :=
  match fields with
  | [] => (buffer, none)
  | (k, field) :: rest =>
    let tr := lookupTr table k
    let val := applyTransform (trIn tr) (objGet value k)
    let step : List ℕ × Option Err :=
      match field.type with
      | .strct _ => writeStructure field buffer val base
      | .arr _ _ => writeArray field val buffer base
      | .scalar _ => write field buffer val base
    match step with
    | (b, none) => writeStructureFields rest table b value base
    | r => r
termination_by 3 * sizeOf fields + 2
decreasing_by
  all_goals first
    | (cases field with
       | mk ft fo fs => simp [AlignedData.type]; omega)
    | (simp; omega)
    | simp

/-- `writeArray(data, arr, buffer, offset)` from `structure.ts`: reject a
sequence whose length differs from the declared one (before anything is
written), otherwise write element `i` with a synthesized descriptor at
relative offset `i * sizeof(elementType)` under base
`offset + data.offset`.  A non-array value crashes on `.length`
(TypeError), as does a non-array descriptor on destructuring. -/
def writeArray (data : AlignedData) (arr : Val) (buffer : List ℕ) (offset : ℕ) :
    List ℕ × Option Err :=
  match data with
  | .mk (.arr ty len) doff _ =>
    match arr with
    | .arrv l =>
      if h : l.length ≠ len then (buffer, some .invalidArrayLength)
      else writeArrayElems ty (sizeof ty) l 0 buffer (offset + doff)
    | _ => (buffer, some .typeError)
  | _ => (buffer, some .typeError)
termination_by 3 * sizeOf data.type
decreasing_by
  simp only [AlignedData.type]
  simp at h
  simp
  omega

/-- The element loop of `writeArray` (`i` is the current index, `l` the
remaining values). -/
def writeArrayElems (ty : Ty) (size : ℕ) (l : List Val) (i : ℕ) (buffer : List ℕ)
    (base : ℕ) : List ℕ × Option Err :=
  match l with
  | [] => (buffer, none)
  | v :: rest =>
    let step : List ℕ × Option Err :=
      match hty : ty with
      | .strct _ => writeStructure (.mk ty (i * size) size) buffer v base
      | .arr _ _ => writeArray (.mk ty (i * size) size) v buffer base
      | .scalar _ => write (.mk ty (i * size) size) buffer v base
    match step with
    | (b, none) => writeArrayElems ty size rest (i + 1) b base
    | r => r
termination_by 3 * sizeOf ty + 1 + l.length
decreasing_by
  all_goals (try subst hty)
  all_goals (try simp only [AlignedData.type])
  all_goals (try simp)
  all_goals (try omega)

end

/-- One iteration of `writeArray`'s element loop from `structure.ts`:
element `i` is dispatched to `writeStructure` / `writeArray` / `write` by
the element type, with the synthesized descriptor
`{ type, offset: i * size, size }`. -/
def writeArrayElem (ty : Ty) (size i : ℕ) (v : Val) (buffer : List ℕ) (base : ℕ) :
    List ℕ × Option Err :=
  match ty with
  | .strct _ => writeStructure (.mk ty (i * size) size) buffer v base
  | .arr _ _ => writeArray (.mk ty (i * size) size) v buffer base
  | .scalar _ => write (.mk ty (i * size) size) buffer v base

mutual

/-- `readStructure(data, buffer, offset, mutable)` from `structure.ts`,
snapshot side (`mutable = false`): eagerly read every field through its
output transform into a detached plain object.  With `mutable = true` the
source instead installs a `defineProxyProperty` accessor pair per field on
a fresh object; that object of accessors is not a plain value, so the
model returns `undef` for it (the live accessor semantics itself is
modelled by `proxyGet` / `proxySet` below; no claim evaluates a live
nested-structure array element). -/
def readStructure (data : AlignedData) (buffer : List ℕ) (offset : ℕ) (mutable : Bool) :
    Except Err Val :=
  match data with
  | .mk (.strct sc) doff _ =>
    if mutable then .ok .undef
    else (readStructureFields sc.fields sc.transform buffer (doff + offset)).map .obj
  | _ => .error .typeError
termination_by 3 * sizeOf data.type
decreasing_by
  simp only [AlignedData.type]
  cases sc with
  | mk f t s => simp [StructCtor.fields]; omega

/-- The snapshot field loop of `readStructure`. -/
def readStructureFields (fields : List (String × AlignedData))
    (table : List (String × PropTrans)) (buffer : List ℕ) (base : ℕ) :
    Except Err (List (String × Val)) :=
  match fields with
  | [] => .ok []
  | (k, field) :: rest =>
    let tr := lookupTr table k
    let step : Except Err Val :=
      match field.type with
      | .strct _ => (readStructure field buffer base false).map (applyTransform (trOut tr))
      | .arr _ _ => (readArray field buffer base false).map (applyTransform (trOut tr))
      | .scalar _ => (read field buffer base).map (applyTransform (trOut tr))
    match step with
    | .error e => .error e
    | .ok v => (readStructureFields rest table buffer base).map ((k, v) :: ·)
termination_by 3 * sizeOf fields + 2
decreasing_by
  all_goals first
    | (cases field with
       | mk ft fo fs => simp [AlignedData.type]; omega)
    | (simp; omega)
    | simp

/-- `readArray(data, buffer, offset, mutable)` from `structure.ts`: read
`length` elements with synthesized descriptors at relative offsets
`i * sizeof(elementType)` under base `offset + data.offset`. -/
def readArray (data : AlignedData) (buffer : List ℕ) (offset : ℕ) (mutable : Bool) :
    Except Err Val :=
  match data with
  | .mk (.arr ty len) doff _ =>
    (readArrayElems ty (sizeof ty) len 0 buffer (offset + doff) mutable).map .arrv
  | _ => .error .typeError
termination_by 3 * sizeOf data.type
decreasing_by
  simp only [AlignedData.type]
  simp
  omega

/-- The element loop of `readArray` (`count` elements left, next index `i`). -/
def readArrayElems (ty : Ty) (size : ℕ) (count : ℕ) (i : ℕ) (buffer : List ℕ)
    (base : ℕ) (mutable : Bool) : Except Err (List Val) :=
  match count with
  | 0 => .ok []
  | c + 1 =>
    let step : Except Err Val :=
      match hty : ty with
      | .strct _ => readStructure (.mk ty (i * size) size) buffer base mutable
      | .arr _ _ => readArray (.mk ty (i * size) size) buffer base mutable
      | .scalar _ => read (.mk ty (i * size) size) buffer base
    match step with
    | .error e => .error e
    | .ok v => (readArrayElems ty size c (i + 1) buffer base mutable).map (v :: ·)
termination_by 3 * sizeOf ty + 1 + count
decreasing_by
  all_goals (try subst hty)
  all_goals (try simp only [AlignedData.type])
  all_goals (try simp)
  all_goals (try omega)

end

/-- What ends up installed on a structure instance for one field: either a
live accessor (a `defineProxyProperty` get/set pair over the owning buffer
at a fixed offset) or, for a nested-structure field, a plain sub-object
holding the recursively installed entries. -/
inductive LiveVal where
  | accessor (field : AlignedData) (tr : Option PropTrans) (offset : ℕ)
  | subObj (entries : List (String × LiveVal))

/-- The getter of `defineProxyProperty(target, key, field, buffer,
transformer, offset)`: decode the field from the buffer's current bytes at
the fixed offset, through the output transform.  (For a nested-structure
field the source getter returns `target[key]`, the installed property
itself — a self-reference that is not a plain value; modelled as
`undef`.) -/
def proxyGet (field : AlignedData) (tr : Option PropTrans) (offset : ℕ)
    (buffer : List ℕ) : Except Err Val :=
  match field.type with
  | .strct _ => .ok .undef
  | .arr _ _ => (readArray field buffer offset true).map (applyTransform (trOut tr))
  | .scalar _ => (read field buffer offset).map (applyTransform (trOut tr))

/-- The setter of `defineProxyProperty`: encode the value into the buffer
at the fixed offset, through the input transform. -/
def proxySet (field : AlignedData) (tr : Option PropTrans) (offset : ℕ)
    (buffer : List ℕ) (v : Val) : List ℕ × Option Err :=
  match field.type with
  | .strct _ => writeStructure field buffer (applyTransform (trIn tr) v) offset
  | .arr _ _ => writeArray field (applyTransform (trIn tr) v) buffer offset
  | .scalar _ => write field buffer (applyTransform (trIn tr) v) offset

/-- `construct(target, fields, transformers, args, buffer, offset,
writeData)` from `structure.ts`.  Returns the entries installed on the
target object, the resulting buffer, and the first thrown error (which
aborts the loop).  In write mode (`writeData = true`, the value-tree
constructor) fields are written but — apart from nested-structure
sub-objects — nothing is installed on the target; in live mode
(`writeData = false`, used by `from`) nothing is written and a live
accessor is installed for every non-structure field. -/
def construct (fields : List (String × AlignedData))
    (table : List (String × PropTrans)) (args : Val) (buffer : List ℕ) (offset : ℕ)
    (writeData : Bool) : List (String × LiveVal) × List ℕ × Option Err :=
  match fields with
  | [] => ([], buffer, none)
  | (k, field) :: rest =>
    let arg := objGet args k
    let tr := lookupTr table k
    let val := if jsTruthy arg then applyTransform (trIn tr) arg else arg
    if writeData then
      match hfld : field.type with
      | .strct sc =>
        match construct sc.fields sc.transform (nullish arg (.obj [])) buffer
            (offset + field.offset) writeData with
        | (sub, b1, none) =>
          match construct rest table args b1 offset writeData with
          | (entries, b2, e2) => ((k, .subObj sub) :: entries, b2, e2)
        | (sub, b1, some e) => ([(k, .subObj sub)], b1, some e)
      | .arr _ _ =>
        match writeArray field val buffer offset with
        | (b, none) => construct rest table args b offset writeData
        | (b, some e) => ([], b, some e)
      | .scalar _ =>
        if jsTruthy val then
          match write field buffer val offset with
          | (b, none) => construct rest table args b offset writeData
          | (b, some e) => ([], b, some e)
        else construct rest table args buffer offset writeData
    else
      match hfld : field.type with
      | .strct sc =>
        match construct sc.fields sc.transform (nullish val (.obj [])) buffer
            (offset + field.offset) writeData with
        | (sub, b1, none) =>
          match construct rest table args b1 offset writeData with
          | (entries, b2, e2) => ((k, .subObj sub) :: entries, b2, e2)
        | (sub, b1, some e) => ([(k, .subObj sub)], b1, some e)
      | _ =>
        match construct rest table args buffer offset writeData with
        | (entries, b2, e2) => ((k, .accessor field tr offset) :: entries, b2, e2)
termination_by 3 * sizeOf fields + 2
decreasing_by
  all_goals first
    | (cases field with
       | mk ft fo fs =>
         first
           | (simp only [AlignedData.type] at hfld
              subst hfld
              cases sc with
              | mk f2 t2 s2 => simp [StructCtor.fields, AlignedData.type]; omega)
           | (simp [AlignedData.type]; omega))
    | (simp; omega)
    | simp

/-- `alignUp(n, align)` from `structure.ts`, which is the JavaScript
expression `(n + align - 1) & ~(align - 1)` under 32-bit `ToInt32`
semantics: for `1 ≤ align` the unsigned bit pattern of `~(align - 1)` is
`2^32 - align`, and for `align = 0` the mask `~(-1)` is `0`, so the whole
expression collapses to `0`.  (Faithful for `n + align ≤ 2^31`, which every
theorem below assumes; beyond that the JavaScript value would wrap.) -/
def alignUp (n align : ℕ) : ℕ :=
  if align = 0 then 0 else Nat.land (n + align - 1) (2 ^ 32 - align)

/-- The loop of `alignFields`: walk the declared fields keeping the running
`offset`, `maxAlign` and the set of seen names; in unaligned (`packed =
false`) mode the offset is first aligned up to the field's own size and
`maxAlign` is updated, then the field is recorded and the offset advanced
by the size.  A repeated name throws (`"Duplicate name"`). -/
def alignFieldsAux (packed : Bool) :
    List (String × Ty) → ℕ → ℕ → List String →
    Except Err (List (String × AlignedData) × ℕ × ℕ)
  | [], offset, maxAlign, _ => .ok ([], offset, maxAlign)
  | (k, m) :: rest, offset, maxAlign, seen =>
    let size := sizeof m
    let offset1 := if packed then offset else alignUp offset size
    let maxAlign1 := if packed then maxAlign else max maxAlign size
    if k ∈ seen then .error .duplicateName
    else
      (alignFieldsAux packed rest (offset1 + size) maxAlign1 (k :: seen)).map
        fun r => ((k, AlignedData.mk m offset1 size) :: r.1, r.2)

/-- `alignFields(data, packed)` from `structure.ts`: the resolved field
map and the total size (`packed ? offset : alignUp(offset, maxAlign)`,
starting from `offset = 0`, `maxAlign = 1`). -/
def alignFields (data : List (String × Ty)) (packed : Bool := false) :
    Except Err (List (String × AlignedData) × ℕ) :=
  (alignFieldsAux packed data 0 1 []).map
    fun r => (r.1, if packed then r.2.1 else alignUp r.2.1 r.2.2)

/-- `structure(data, opts)` (named `structureDef` because `structure` is a
Lean keyword): plan the layout once and package it with the transformer
table as the static face of the class. -/
def structureDef (data : List (String × Ty)) (packed : Bool := false)
    (transform : List (String × PropTrans) := []) : Except Err StructCtor :=
  (alignFields data packed).map fun r => .mk r.1 transform r.2

/-- `alloc(s)`: `Buffer.alloc` returns a zero-filled buffer. -/
def alloc (s : ℕ) : List ℕ := List.replicate s 0

/-- Node's `src.copy(dst, dstStart, srcStart, srcEnd)`: the copied range is
clamped to the bytes actually available in the source and to the room left
in the target; the bytes of `dst` outside the copied range are kept. -/
def bufCopy (src dst : List ℕ) (dstStart srcStart srcEnd : ℕ) : List ℕ :=
  let cnt := min (min srcEnd src.length - srcStart) (dst.length - dstStart)
  dst.take dstStart ++ (src.drop srcStart).take cnt ++ dst.drop (dstStart + cnt)

/-- The value-tree constructor (`new Definition(args)` with the class-level
`writeData` flag still `true`): allocate a zero buffer of the schema size
and run `construct` in write mode. -/
def newStructure (sc : StructCtor) (args : Val) :
    List (String × LiveVal) × List ℕ × Option Err :=
  construct sc.fields sc.transform args (alloc sc.size) 0 true

/-- `from(buffer, offset)` (raw-buffer overload): throw
`"Invalid buffer size"` when `size > buffer.length` (the offset does not
enter the check), otherwise build an instance with no field writes
(`writeData = false`, so every field gets a live accessor) and copy
`buffer[offset, offset + size)` — clamped by Node's `copy` — into the
fresh zero buffer. -/
def fromBuffer (sc : StructCtor) (src : List ℕ) (offset : ℕ := 0) :
    Except Err (List (String × LiveVal) × List ℕ) :=
  if sc.size > src.length then .error .invalidBufferSize
  else
    let inst := construct sc.fields sc.transform (.obj []) (alloc sc.size) 0 false
    .ok (inst.1, bufCopy src inst.2.1 0 offset (offset + sc.size))

/-- `from(structure, offset)` (instance overload): the check compares
`size` against `arg.size`, but `size` is a static of the class, so on an
instance `arg.size` is `undefined` and `size > undefined` is `false` — the
overload never throws; it then copies from `arg.data()` with the same
clamping. -/
def fromInstance (sc : StructCtor) (srcBuf : List ℕ) (offset : ℕ := 0) :
    List (String × LiveVal) × List ℕ :=
  let inst := construct sc.fields sc.transform (.obj []) (alloc sc.size) 0 false
  (inst.1, bufCopy srcBuf inst.2.1 0 offset (offset + sc.size))

/-- Static `toJson(buffer)`: explicit length check, then a snapshot
(`mutable = false`) read of the whole structure directly from the given
buffer. -/
def toJson (sc : StructCtor) (buffer : List ℕ) : Except Err Val :=
  if buffer.length < sc.size then .error .invalidBufferSize
  else readStructure (.mk (.strct sc) 0 sc.size) buffer 0 false

/-- Instance `copy(buffer, offset)`: overwrite this instance's buffer with
`buffer[offset, offset + size)` (clamped by Node's `copy`); the source
performs no size validation at all. -/
def instCopy (sc : StructCtor) (own : List ℕ) (src : List ℕ) (offset : ℕ := 0) :
    List ℕ :=
  bufCopy src own 0 offset (offset + sc.size)

/-- Instance `reset()`: `fill(0)` in place. -/
def reset (buf : List ℕ) : List ℕ := List.replicate buf.length 0

/-- A hexadecimal digit as `parseInt` base 16 accepts it (both cases). -/
def hexDigitVal (c : Char) : Option ℕ :=
  if '0' ≤ c ∧ c ≤ '9' then some (c.toNat - '0'.toNat)
  else if 'a' ≤ c ∧ c ≤ 'f' then some (c.toNat - 'a'.toNat + 10)
  else if 'A' ≤ c ∧ c ≤ 'F' then some (c.toNat - 'A'.toNat + 10)
  else none

/-- `parseInt(s, 16)` on the one- or two-character slices `hexToBytes`
produces: `NaN` (`none`) when the first character is not a digit, and the
longest digit prefix otherwise. -/
def parseIntHex (s : List Char) : Option ℕ :=
  match s with
  | [] => none
  | c :: rest =>
    (hexDigitVal c).map fun d =>
      match rest with
      | [] => d
      | c2 :: _ =>
        match hexDigitVal c2 with
        | some d2 => 16 * d + d2
        | none => d

/-- `hexToBytes(hex)` from `memory.ts`: two characters per byte, most
significant nibble first (an unparsable slice contributes `NaN`). -/
def hexToBytes : List Char → List JsNum
  | [] => []
  | c :: rest =>
    match rest with
    | [] => [((parseIntHex [c]).map fun n => JsNum.finite n).getD .nan]
    | c2 :: rest2 =>
      ((parseIntHex [c, c2]).map fun n => JsNum.finite n).getD .nan :: hexToBytes rest2

/-- JavaScript `ToUint32` (the coercion applied by `>>>` and `&`). -/
def jsToUint32 : JsNum → ℕ
  | .finite q => ((Int.div q.num (q.den : ℤ)) % (2 ^ 32 : ℤ)).toNat
  | _ => 0

/-- `Number.prototype.toString(16)` for the non-negative integers produced
by `current >>> 4` / `current & 0xf` (lowercase digits). -/
def natToString16 (n : ℕ) : List Char := Nat.toDigits 16 n

/-- `bytesToHex(bytes)` from `memory.ts`: negative byte values get 256
added once, then the two nibbles of the (ToUint32-coerced) value are
emitted in lowercase.  A Lean list cannot model a sparse JavaScript array,
so the `byte == undefined` guard (`"Invalid byte"`) has no
counterpart here. -/
def bytesToHex (bytes : List JsNum) : List Char :=
  (bytes.map fun b =>
    let cur : JsNum :=
      match b with
      | .finite q => if q < 0 then .finite (q + 256) else .finite q
      | x => x
    natToString16 (jsToUint32 cur / 16) ++ natToString16 (jsToUint32 cur % 16)).flatten

/-! ### Spec-side layout planners (for the layout claims) -/

/-- The spec formula `ceil(n / s) * s` on naturals (for `1 ≤ s`). -/
def specCeil (n s : ℕ) : ℕ := ((n + s - 1) / s) * s

/-- The layout the spec describes for `packed` mode: each field sits at the
running offset, which advances by exactly the field's size. -/
def packedPlan : List (String × Ty) → ℕ → List (String × AlignedData)
  | [], _ => []
  | (k, m) :: rest, off =>
    (k, AlignedData.mk m off (sizeof m)) :: packedPlan rest (off + sizeof m)

/-- The layout the spec describes for aligned mode: each offset is rounded
up (with the `ceil` formula) to a multiple of the field's own size before
the field is placed, and the running maximum of the sizes is kept as the
alignment.  Returns the fields, the final offset and the final alignment. -/
def alignedPlanAux : List (String × Ty) → ℕ → ℕ →
    List (String × AlignedData) × ℕ × ℕ
  | [], off, ma => ([], off, ma)
  | (k, m) :: rest, off, ma =>
    let s := sizeof m
    let o2 := specCeil off s
    let r := alignedPlanAux rest (o2 + s) (max ma s)
    ((k, AlignedData.mk m o2 s) :: r.1, r.2)

/-- The spec's aligned layout: plan from offset 0 with alignment 1, then
round the final offset up to a multiple of the final alignment. -/
def alignedPlan (data : List (String × Ty)) :
    List (String × AlignedData) × ℕ :=
  let r := alignedPlanAux data 0 1
  (r.1, specCeil r.2.1 r.2.2)

/-- A concrete 1-byte schema (one UINT8 field) used to instantiate the
buffer-copy claims on specific inputs. -/
def c6wSc : StructCtor := .mk [("b", AlignedData.mk (Ty.scalar .UINT8) 0 1)] [] 1

/-- The sixteen lowercase hexadecimal digit characters (the alphabet of
the spec's "lowercase hex string"). -/
def hexDigitsLower : List Char := "0123456789abcdef".toList

/-- The value a scalar field decodes to from all-zero bytes: `0n` for the
64-bit (bigint) types and the number `0` for every other type. -/
def zeroVal (dt : DataType) : Val :=
  match dt with
  | .INT64LE | .INT64BE | .UINT64LE | .UINT64BE => .big 0
  | _ => .num (.finite 0)

/-! ### Spec-side value tables for the round-trip claims -/

/-- A value `v` is valid for a DataType in the sense of the spec: a
mathematical integer within the type's `[min, max]` for the integer types,
and a finite double (within float32 range, for the FLOAT32 types) for the
float types. -/
def validValue (dt : DataType) (q : ℚ) : Prop :=
  match dt with
  | .INT8 => q.den = 1 ∧ -128 ≤ q ∧ q ≤ 127
  | .UINT8 => q.den = 1 ∧ 0 ≤ q ∧ q ≤ 255
  | .INT16LE | .INT16BE => q.den = 1 ∧ -32768 ≤ q ∧ q ≤ 32767
  | .UINT16LE | .UINT16BE => q.den = 1 ∧ 0 ≤ q ∧ q ≤ 65535
  | .INT32LE | .INT32BE => q.den = 1 ∧ -2147483648 ≤ q ∧ q ≤ 2147483647
  | .UINT32LE | .UINT32BE => q.den = 1 ∧ 0 ≤ q ∧ q ≤ 4294967295
  | .INT64LE | .INT64BE => q.den = 1 ∧ -(2 ^ 63) ≤ q ∧ q ≤ 2 ^ 63 - 1
  | .UINT64LE | .UINT64BE => q.den = 1 ∧ 0 ≤ q ∧ q ≤ 2 ^ 64 - 1
  | .FLOAT32LE | .FLOAT32BE => isRepF64 q ∧ |q| ≤ maxFin 23 8 (-126)
  | .FLOAT64LE | .FLOAT64BE => isRepF64 q

instance (dt : DataType) (q : ℚ) : Decidable (validValue dt q) := by
  unfold validValue
  cases dt <;> infer_instance

/-- What `read` gives back right after a successful `write` of `v`: `v`
itself (as a bigint for the 64-bit types), except that the FLOAT32 types
return `v` rounded to the nearest representable IEEE-754 single-precision
value. -/
def readBack (dt : DataType) (q : ℚ) : Val :=
  match dt with
  | .INT64LE | .INT64BE | .UINT64LE | .UINT64BE => .big q.num
  | .FLOAT32LE | .FLOAT32BE => .num (.finite (fpRound 23 (-126) q))
  | _ => .num (.finite q)

/-- The full arbitrary-precision ranges of the four 64-bit types. -/
def int64Bounds (dt : DataType) : Option (ℤ × ℤ) :=
  match dt with
  | .INT64LE | .INT64BE => some (-(2 ^ 63), 2 ^ 63 - 1)
  | .UINT64LE | .UINT64BE => some (0, 2 ^ 64 - 1)
  | _ => none

/-- Name and `[min, max]` bounds of the integer types that are validated
through `assertInteger` (everything up to 32 bits). -/
def intInfo (dt : DataType) : Option (String × ℚ × ℚ) :=
  match dt with
  | .INT8 => some ("INT8", -128, 127)
  | .UINT8 => some ("UINT8", 0, 255)
  | .INT16LE | .INT16BE => some ("INT16", -32768, 32767)
  | .UINT16LE | .UINT16BE => some ("UINT16", 0, 65535)
  | .INT32LE | .INT32BE => some ("INT32", -2147483648, 2147483647)
  | .UINT32LE | .UINT32BE => some ("UINT32", 0, 4294967295)
  | _ => none

/-- Name of the 64-bit integer types (validated through `BigInt` +
`assertBigIntRange`). -/
def int64Name (dt : DataType) : Option String :=
  match dt with
  | .INT64LE | .INT64BE => some "INT64"
  | .UINT64LE | .UINT64BE => some "UINT64"
  | _ => none

/-- Name of the float types (validated through `assertFinite`). -/
def floatName (dt : DataType) : Option String :=
  match dt with
  | .FLOAT32LE | .FLOAT32BE => some "FLOAT32"
  | .FLOAT64LE | .FLOAT64BE => some "FLOAT64"
  | _ => none

/-! ### Byte-level lemmas -/

theorem natToBytesLE_length (n k : ℕ) : (natToBytesLE n k).length = k := by
  induction k generalizing n with
  | zero => rfl
  | succ k ih => simp [natToBytesLE, ih]

theorem natToBytesBE_length (n k : ℕ) : (natToBytesBE n k).length = k := by
  simp [natToBytesBE, natToBytesLE_length]

theorem bytesToNatLE_natToBytesLE (n k : ℕ) (h : n < 256 ^ k) :
    bytesToNatLE (natToBytesLE n k) = n := by
  induction k generalizing n with
  | zero =>
    simp only [pow_zero] at h
    simp [natToBytesLE, bytesToNatLE]
    omega
  | succ k ih =>
    have hd : n / 256 < 256 ^ k := by
      rw [pow_succ'] at h
      exact Nat.div_lt_of_lt_mul h
    simp [natToBytesLE, bytesToNatLE, ih (n / 256) hd]
    omega

theorem bytesToNatBE_natToBytesBE (n k : ℕ) (h : n < 256 ^ k) :
    bytesToNatBE (natToBytesBE n k) = n := by
  simp [natToBytesBE, bytesToNatBE, List.reverse_reverse]
  exact bytesToNatLE_natToBytesLE n k h

theorem writeBytes_length (buf bs : List ℕ) (off : ℕ) (h : off + bs.length ≤ buf.length) :
    (writeBytes buf off bs).length = buf.length := by
  simp [writeBytes]; omega

theorem readBytes_writeBytes (buf bs : List ℕ) (off : ℕ) (h : off ≤ buf.length) :
    readBytes (writeBytes buf off bs) off bs.length = bs := by
  unfold readBytes writeBytes
  have h1 : (buf.take off).length = off := by simp; omega
  have h2 := List.drop_left (buf.take off) (bs ++ buf.drop (off + bs.length))
  rw [h1] at h2
  rw [List.append_assoc, h2, List.take_append_of_le_length (le_refl _), List.take_length]

theorem readBytes_writeBytes_before (buf bs : List ℕ) (off off2 k : ℕ)
    (hle : off2 + k ≤ off) (hoff : off ≤ buf.length) :
    readBytes (writeBytes buf off bs) off2 k = readBytes buf off2 k := by
  unfold readBytes writeBytes
  rw [List.append_assoc,
      List.drop_append_of_le_length (by simp; omega),
      List.take_append_of_le_length (by simp; omega)]
  rw [List.drop_take, List.take_take, Nat.min_eq_left (by omega)]

theorem readBytes_writeBytes_after (buf bs : List ℕ) (off off2 k : ℕ)
    (hle : off + bs.length ≤ off2) (hoff : off ≤ buf.length) :
    readBytes (writeBytes buf off bs) off2 k = readBytes buf off2 k := by
  unfold readBytes writeBytes
  have h1 : (buf.take off ++ bs).length = off + bs.length := by simp; omega
  rw [List.drop_append_eq_append_drop, h1]
  rw [List.drop_eq_nil_of_le (by rw [h1]; omega), List.drop_drop]
  rw [show off + bs.length + (off2 - (off + bs.length)) = off2 by omega]
  simp

theorem intToNat2c_lt (v : ℤ) (bits : ℕ) : intToNat2c v bits < 2 ^ bits := by
  unfold intToNat2c
  have h2 : (0 : ℤ) < 2 ^ bits := by positivity
  have ha := Int.emod_nonneg v (ne_of_gt h2)
  have hb := Int.emod_lt_of_pos v h2
  have hc : ((2 ^ bits : ℕ) : ℤ) = 2 ^ bits := by push_cast; ring
  omega

theorem natToInt2c_intToNat2c (v : ℤ) (bits : ℕ) (hbits : 0 < bits)
    (hlo : -(2 ^ (bits - 1)) ≤ v) (hhi : v < 2 ^ (bits - 1)) :
    natToInt2c (intToNat2c v bits) bits = v := by
  unfold natToInt2c intToNat2c
  have h2B : (2 : ℤ) ^ bits = 2 * 2 ^ (bits - 1) := by
    rw [← pow_succ']
    congr 1
    omega
  have hB : (0 : ℤ) < 2 ^ (bits - 1) := by positivity
  have hcast : ((2 ^ (bits - 1) : ℕ) : ℤ) = 2 ^ (bits - 1) := by push_cast; ring
  rcases le_or_lt 0 v with hv | hv
  · have hmod : v % 2 ^ bits = v := Int.emod_eq_of_lt hv (by omega)
    rw [hmod]
    split <;> omega
  · have hmod : v % 2 ^ bits = v + 2 ^ bits := by
      have heq : (v + 2 ^ bits) % 2 ^ bits = v % 2 ^ bits := by
        rw [show v + 2 ^ bits = v + 2 ^ bits * 1 by ring, Int.add_mul_emod_self_left]
      rw [← heq, Int.emod_eq_of_lt (by omega) (by omega)]
    rw [hmod]
    split <;> omega

theorem uintRange_lt_pow256 (v : ℤ) (k : ℕ) (h0 : 0 ≤ v) (hv : v < 2 ^ (8 * k)) :
    intToNat2c v (8 * k) < 256 ^ k := by
  have h : (256 : ℕ) ^ k = 2 ^ (8 * k) := by
    rw [show (256 : ℕ) = 2 ^ 8 by norm_num, ← pow_mul]
  rw [h]
  exact intToNat2c_lt v (8 * k)

theorem intToNat2c_of_nonneg (v : ℤ) (bits : ℕ) (h0 : 0 ≤ v) (hv : v < 2 ^ bits) :
    (intToNat2c v bits : ℤ) = v := by
  unfold intToNat2c
  rw [Int.emod_eq_of_lt h0 (by exact_mod_cast hv)]
  omega

/-! ### IEEE-754 rounding and bit-pattern lemmas (for the modelled Node float primitives) -/

theorem rne_ge (q : ℚ) : q - 1 / 2 ≤ (rne q : ℚ) := by
  have h1 := Int.floor_le q
  have h2 := Int.lt_floor_add_one q
  unfold rne
  split
  · push_cast; linarith
  · split
    · push_cast; linarith
    · split <;> push_cast <;> linarith

theorem rne_le (q : ℚ) : (rne q : ℚ) ≤ q + 1 / 2 := by
  have h1 := Int.floor_le q
  have h2 := Int.lt_floor_add_one q
  unfold rne
  split
  · push_cast; linarith
  · rename_i hge
    push_neg at hge
    split
    · push_cast; linarith
    · rename_i hgt
      push_neg at hgt
      have : q - ⌊q⌋ = 1 / 2 := le_antisymm hgt hge
      split <;> push_cast <;> linarith

theorem fpE_ge (emin : ℤ) (q : ℚ) : emin ≤ fpE emin q := by
  unfold fpE
  exact le_max_right _ _

-- bounds on the scaled magnitude x = |q| * 2^(fb - e)

theorem fpx_pos (fb : ℕ) (emin : ℤ) (q : ℚ) (hq : q ≠ 0) :
    0 < |q| * (2 : ℚ) ^ ((fb : ℤ) - fpE emin q) := by
  have ha : 0 < |q| := abs_pos.mpr hq
  positivity

theorem fpx_lt (fb : ℕ) (emin : ℤ) (q : ℚ) (hq : q ≠ 0) :
    |q| * (2 : ℚ) ^ ((fb : ℤ) - fpE emin q) < (2 : ℚ) ^ ((fb : ℤ) + 1) := by
  have ha : 0 < |q| := abs_pos.mpr hq
  have hlog : |q| < (2 : ℚ) ^ (Int.log 2 |q| + 1) :=
    Int.lt_zpow_succ_log_self (by norm_num) _
  have hle : Int.log 2 |q| + 1 ≤ fpE emin q + 1 := by
    have := le_max_left (Int.log 2 |q|) emin
    unfold fpE
    omega
  have hmono : (2 : ℚ) ^ (Int.log 2 |q| + 1) ≤ (2 : ℚ) ^ (fpE emin q + 1) :=
    zpow_le_zpow_right₀ (by norm_num) hle
  calc |q| * (2 : ℚ) ^ ((fb : ℤ) - fpE emin q)
      < (2 : ℚ) ^ (fpE emin q + 1) * (2 : ℚ) ^ ((fb : ℤ) - fpE emin q) := by
        exact mul_lt_mul_of_pos_right (lt_of_lt_of_le hlog hmono) (by positivity)
    _ = (2 : ℚ) ^ ((fb : ℤ) + 1) := by
        rw [← zpow_add₀ (by norm_num : (2:ℚ) ≠ 0)]
        ring_nf

theorem fpx_ge_of_log (fb : ℕ) (emin : ℤ) (q : ℚ) (hq : q ≠ 0)
    (h : emin ≤ Int.log 2 |q|) :
    (2 : ℚ) ^ (fb : ℤ) ≤ |q| * (2 : ℚ) ^ ((fb : ℤ) - fpE emin q) := by
  have ha : 0 < |q| := abs_pos.mpr hq
  have he : fpE emin q = Int.log 2 |q| := by unfold fpE; omega
  have hlow : (2 : ℚ) ^ (Int.log 2 |q|) ≤ |q| :=
    Int.zpow_log_le_self (by norm_num) ha
  calc (2 : ℚ) ^ (fb : ℤ)
      = (2 : ℚ) ^ (Int.log 2 |q|) * (2 : ℚ) ^ ((fb : ℤ) - fpE emin q) := by
        rw [← zpow_add₀ (by norm_num : (2:ℚ) ≠ 0), he]
        ring_nf
    _ ≤ |q| * (2 : ℚ) ^ ((fb : ℤ) - fpE emin q) := by
        exact mul_le_mul_of_nonneg_right hlow (by positivity)

theorem fpM_nonneg (fb : ℕ) (emin : ℤ) (q : ℚ) (hq : q ≠ 0) : 0 ≤ fpM fb emin q := by
  have h1 := rne_ge (|q| * (2 : ℚ) ^ ((fb : ℤ) - fpE emin q))
  have h2 := fpx_pos fb emin q hq
  unfold fpM
  by_contra h
  push_neg at h
  have hint : rne (|q| * (2 : ℚ) ^ ((fb : ℤ) - fpE emin q)) ≤ -1 := by omega
  have : (rne (|q| * (2 : ℚ) ^ ((fb : ℤ) - fpE emin q)) : ℚ) ≤ -1 := by exact_mod_cast hint
  linarith

theorem fpM_le (fb : ℕ) (emin : ℤ) (q : ℚ) (hq : q ≠ 0) :
    fpM fb emin q ≤ 2 ^ (fb + 1) := by
  have h1 := rne_le (|q| * (2 : ℚ) ^ ((fb : ℤ) - fpE emin q))
  have h2 := fpx_lt fb emin q hq
  unfold fpM
  by_contra h
  push_neg at h
  have hcast : ((2 ^ (fb + 1) : ℤ) : ℚ) = (2 : ℚ) ^ ((fb : ℤ) + 1) := by
    push_cast
    rw [← zpow_natCast]
    norm_num
  have : (2 : ℚ) ^ ((fb : ℤ) + 1) + 1 ≤ (rne (|q| * (2 : ℚ) ^ ((fb : ℤ) - fpE emin q)) : ℚ) := by
    rw [← hcast]
    exact_mod_cast Int.add_one_le_of_lt h
  linarith

theorem fpM_ge_of_log (fb : ℕ) (emin : ℤ) (q : ℚ) (hq : q ≠ 0)
    (h : emin ≤ Int.log 2 |q|) : 2 ^ fb ≤ fpM fb emin q := by
  have h1 := rne_ge (|q| * (2 : ℚ) ^ ((fb : ℤ) - fpE emin q))
  have h2 := fpx_ge_of_log fb emin q hq h
  unfold fpM
  by_contra hc
  push_neg at hc
  have hcast : ((2 ^ fb : ℤ) : ℚ) = (2 : ℚ) ^ (fb : ℤ) := by
    push_cast
    rw [← zpow_natCast]
  have hint : rne (|q| * (2 : ℚ) ^ ((fb : ℤ) - fpE emin q)) ≤ 2 ^ fb - 1 := by omega
  have : (rne (|q| * (2 : ℚ) ^ ((fb : ℤ) - fpE emin q)) : ℚ) ≤ ((2 ^ fb : ℤ) : ℚ) - 1 := by
    exact_mod_cast hint
  rw [hcast] at this
  linarith

-- e is subnormal when the significand rounds small

theorem fpE_eq_emin_of_small (fb : ℕ) (emin : ℤ) (q : ℚ) (hq : q ≠ 0)
    (h : fpM fb emin q < 2 ^ fb) : fpE emin q = emin := by
  by_contra hc
  have hch : fpE emin q = Int.log 2 |q| ∨ fpE emin q = emin := by
    unfold fpE
    exact max_choice _ _
  have hge : emin ≤ fpE emin q := by
    unfold fpE
    exact le_max_right _ _
  rcases hch with h1 | h1
  · have hlo : emin ≤ Int.log 2 |q| := h1 ▸ hge
    have := fpM_ge_of_log fb emin q hq hlo
    omega
  · exact hc h1

theorem maxFin_lt (fb eb : ℕ) (emin : ℤ) :
    maxFin fb eb emin < (2 : ℚ) ^ (emin + (2 ^ eb : ℕ) - 3 + 1) := by
  unfold maxFin
  have h1 : ((2 ^ (fb + 1) - 1 : ℕ) : ℚ) < (2 : ℚ) ^ ((fb : ℤ) + 1) := by
    have : (1 : ℕ) ≤ 2 ^ (fb + 1) := Nat.one_le_two_pow
    push_cast [this]
    rw [← zpow_natCast (2 : ℚ) (fb + 1)]
    push_cast
    linarith
  calc ((2 ^ (fb + 1) - 1 : ℕ) : ℚ) * (2 : ℚ) ^ (emin + (2 ^ eb : ℕ) - 3 - fb)
      < (2 : ℚ) ^ ((fb : ℤ) + 1) * (2 : ℚ) ^ (emin + (2 ^ eb : ℕ) - 3 - fb) := by
        exact mul_lt_mul_of_pos_right h1 (by positivity)
    _ = (2 : ℚ) ^ (emin + (2 ^ eb : ℕ) - 3 + 1) := by
        rw [← zpow_add₀ (by norm_num : (2:ℚ) ≠ 0)]
        ring_nf

theorem fpE_le_emax (fb eb : ℕ) (emin : ℤ) (q : ℚ) (hq : q ≠ 0) (heb : 2 ≤ eb)
    (hmax : |q| ≤ maxFin fb eb emin) : fpE emin q ≤ emin + 2 ^ eb - 3 := by
  have ha : 0 < |q| := abs_pos.mpr hq
  have hlog : Int.log 2 |q| ≤ emin + 2 ^ eb - 3 := by
    by_contra hc
    push_neg at hc
    have h1 : (2 : ℚ) ^ (emin + (2 ^ eb : ℕ) - 3 + 1) ≤ (2 : ℚ) ^ (Int.log 2 |q|) := by
      apply zpow_le_zpow_right₀ (by norm_num)
      push_cast
      omega
    have h2 : (2 : ℚ) ^ (Int.log 2 |q|) ≤ |q| := Int.zpow_log_le_self (by norm_num) ha
    have h3 := maxFin_lt fb eb emin
    linarith
  have hform : (4 : ℤ) ≤ 2 ^ eb := by
    calc (4 : ℤ) = 2 ^ 2 := by norm_num
    _ ≤ 2 ^ eb := by
      apply pow_le_pow_right₀ (by norm_num) heb
  unfold fpE
  omega

theorem fpM_le_of_emax (fb eb : ℕ) (emin : ℤ) (q : ℚ) (hq : q ≠ 0)
    (hmax : |q| ≤ maxFin fb eb emin) (hE : fpE emin q = emin + 2 ^ eb - 3) :
    fpM fb emin q ≤ 2 ^ (fb + 1) - 1 := by
  have hx : |q| * (2 : ℚ) ^ ((fb : ℤ) - fpE emin q) ≤ ((2 ^ (fb + 1) - 1 : ℕ) : ℚ) := by
    unfold maxFin at hmax
    have step : |q| * (2 : ℚ) ^ ((fb : ℤ) - fpE emin q)
        ≤ ((2 ^ (fb + 1) - 1 : ℕ) : ℚ) * (2 : ℚ) ^ (emin + (2 ^ eb : ℕ) - 3 - fb)
          * (2 : ℚ) ^ ((fb : ℤ) - fpE emin q) := by
      exact mul_le_mul_of_nonneg_right hmax (by positivity)
    calc |q| * (2 : ℚ) ^ ((fb : ℤ) - fpE emin q)
        ≤ ((2 ^ (fb + 1) - 1 : ℕ) : ℚ) * (2 : ℚ) ^ (emin + (2 ^ eb : ℕ) - 3 - fb)
          * (2 : ℚ) ^ ((fb : ℤ) - fpE emin q) := step
      _ = ((2 ^ (fb + 1) - 1 : ℕ) : ℚ) := by
          rw [mul_assoc, ← zpow_add₀ (by norm_num : (2:ℚ) ≠ 0)]
          rw [hE, show emin + (2 ^ eb : ℕ) - 3 - fb + ((fb : ℤ) - (emin + 2 ^ eb - 3)) = 0 by push_cast; ring]
          norm_num
  have h1 := rne_le (|q| * (2 : ℚ) ^ ((fb : ℤ) - fpE emin q))
  unfold fpM
  by_contra hc
  push_neg at hc
  have hint : 2 ^ (fb + 1) ≤ rne (|q| * (2 : ℚ) ^ ((fb : ℤ) - fpE emin q)) := by omega
  have hcast : ((2 ^ (fb + 1) : ℤ) : ℚ) = ((2 ^ (fb + 1) : ℕ) : ℚ) := by push_cast; ring
  have h2 : ((2 ^ (fb + 1) : ℕ) : ℚ) ≤ (rne (|q| * (2 : ℚ) ^ ((fb : ℤ) - fpE emin q)) : ℚ) := by
    rw [← hcast]
    exact_mod_cast hint
  have h3 : ((2 ^ (fb + 1) - 1 : ℕ) : ℚ) = ((2 ^ (fb + 1) : ℕ) : ℚ) - 1 := by
    have : (1 : ℕ) ≤ 2 ^ (fb + 1) := Nat.one_le_two_pow
    push_cast [this]
    ring
  rw [h3] at hx
  linarith

theorem unpack_div (P t s : ℕ) (hP : 0 < P) (ht : t < P) (hs : s ≤ 1) :
    ((if s = 1 then P else 0) + t) / P % 2 = s ∧ ((if s = 1 then P else 0) + t) % P = t := by
  rcases Nat.le_one_iff_eq_zero_or_eq_one.mp hs with h | h <;> subst h
  · simp [Nat.div_eq_of_lt ht, Nat.mod_eq_of_lt ht]
  · simp only [if_true, reduceIte]
    constructor
    · rw [show P + t = t + 1 * P by ring, Nat.add_mul_div_right _ _ hP, Nat.div_eq_of_lt ht]
    · rw [show P + t = t + 1 * P by ring, Nat.add_mul_mod_self_right, Nat.mod_eq_of_lt ht]

theorem fpEncMag_lt (fb eb : ℕ) (emin : ℤ) (q : ℚ) (heb : 2 ≤ eb)
    (hmax : |q| ≤ maxFin fb eb emin) : fpEncMag fb emin q < 2 ^ (fb + eb) := by
  have hfb_le : (2 : ℕ) ^ fb ≤ 2 ^ (fb + eb) := Nat.pow_le_pow_right (by norm_num) (by omega)
  unfold fpEncMag
  split
  · positivity
  · rename_i hq
    split
    · rename_i hsmall
      omega
    · rename_i hsmall
      push_neg at hsmall
      have hEle : fpE emin q ≤ emin + 2 ^ eb - 3 := fpE_le_emax fb eb emin q hq heb hmax
      have hge : emin ≤ fpE emin q := fpE_ge emin q
      have heb4 : (4 : ℕ) ≤ 2 ^ eb := by
        calc (4 : ℕ) = 2 ^ 2 := by norm_num
        _ ≤ 2 ^ eb := Nat.pow_le_pow_right (by norm_num) heb
      have hEf : (fpE emin q - emin + 1).toNat ≤ 2 ^ eb - 2 := by
        apply Int.toNat_le.mpr
        have hc2 : ((2 ^ eb - 2 : ℕ) : ℤ) = 2 ^ eb - 2 := by
          rw [Nat.cast_sub (by omega)]
          push_cast
          ring
        rw [hc2]
        omega
      have hmle : fpM fb emin q ≤ 2 ^ (fb + 1) := fpM_le fb emin q hq
      have hmleN : (fpM fb emin q).toNat ≤ 2 ^ (fb + 1) := by
        apply Int.toNat_le.mpr
        push_cast
        exact hmle
      have hp1 : (2 : ℕ) ^ (fb + 1) = 2 * 2 ^ fb := by rw [pow_succ]; ring
      have hδ : (fpM fb emin q).toNat - 2 ^ fb ≤ 2 ^ fb := by omega
      have hfbpos : (0 : ℕ) < 2 ^ fb := Nat.pos_pow_of_pos _ (by norm_num)
      have hPQ : 2 * 2 ^ fb ≤ 2 ^ eb * 2 ^ fb := Nat.mul_le_mul_right _ (by omega)
      calc (fpE emin q - emin + 1).toNat * 2 ^ fb + ((fpM fb emin q).toNat - 2 ^ fb)
          ≤ (2 ^ eb - 2) * 2 ^ fb + 2 ^ fb := by
            exact Nat.add_le_add (Nat.mul_le_mul_right _ hEf) hδ
        _ = (2 ^ eb - 1) * 2 ^ fb := by
            rw [Nat.sub_mul, Nat.sub_mul]
            omega
        _ < 2 ^ (fb + eb) := by
            rw [pow_add, mul_comm (2 ^ fb)]
            exact (Nat.mul_lt_mul_right hfbpos).mpr (by omega)

theorem fpMag_spec (fb eb : ℕ) (emin : ℤ) (q : ℚ) (hfb : 0 < fb) (heb : 2 ≤ eb)
    (hq : q ≠ 0) (hmax : |q| ≤ maxFin fb eb emin) :
    fpEncMag fb emin q / 2 ^ fb ≠ 2 ^ eb - 1 ∧
    ((if fpEncMag fb emin q / 2 ^ fb = 0
      then ((fpEncMag fb emin q % 2 ^ fb : ℕ) : ℚ) * (2 : ℚ) ^ (emin - fb)
      else ((2 ^ fb + fpEncMag fb emin q % 2 ^ fb : ℕ) : ℚ) *
        (2 : ℚ) ^ (emin - (fb : ℤ) + ((fpEncMag fb emin q / 2 ^ fb : ℕ) - 1)))
      = (fpM fb emin q : ℚ) * (2 : ℚ) ^ (fpE emin q - fb)) := by
  have heb4 : (4 : ℕ) ≤ 2 ^ eb := by
    calc (4 : ℕ) = 2 ^ 2 := by norm_num
    _ ≤ 2 ^ eb := Nat.pow_le_pow_right (by norm_num) heb
  have hm0 : 0 ≤ fpM fb emin q := fpM_nonneg fb emin q hq
  have hge : emin ≤ fpE emin q := fpE_ge emin q
  have hfbpos : (0 : ℕ) < 2 ^ fb := Nat.pos_pow_of_pos _ (by norm_num)
  unfold fpEncMag
  rw [if_neg hq]
  split
  · rename_i hsm
    -- subnormal: the rounded significand fits below the fraction field
    have hfbcast : ((2 ^ fb : ℕ) : ℤ) = 2 ^ fb := by push_cast; ring
    have hEemin : fpE emin q = emin := by
      apply fpE_eq_emin_of_small fb emin q hq
      omega
    rw [Nat.div_eq_of_lt hsm, Nat.mod_eq_of_lt hsm]
    refine ⟨by omega, ?_⟩
    rw [if_pos rfl, hEemin]
    congr 1
    exact_mod_cast Int.toNat_of_nonneg hm0
  · rename_i hsm
    push_neg at hsm
    have hEle : fpE emin q ≤ emin + 2 ^ eb - 3 := fpE_le_emax fb eb emin q hq heb hmax
    have hmle : fpM fb emin q ≤ 2 ^ (fb + 1) := fpM_le fb emin q hq
    have hmleN : (fpM fb emin q).toNat ≤ 2 ^ (fb + 1) := by
      apply Int.toNat_le.mpr
      push_cast
      exact hmle
    have hp1 : (2 : ℕ) ^ (fb + 1) = 2 * 2 ^ fb := by rw [pow_succ]; ring
    have hEf1 : 1 ≤ (fpE emin q - emin + 1).toNat := by omega
    have hEfcast : ((fpE emin q - emin + 1).toNat : ℤ) = fpE emin q - emin + 1 :=
      Int.toNat_of_nonneg (by omega)
    have hmcast : ((fpM fb emin q).toNat : ℤ) = fpM fb emin q := Int.toNat_of_nonneg hm0
    by_cases hbump : (fpM fb emin q).toNat - 2 ^ fb = 2 ^ fb
    · -- the significand rounded up into the next binade
      have hm2 : (fpM fb emin q).toNat = 2 ^ (fb + 1) := by omega
      have hl1cast : ((2 ^ (fb + 1) : ℕ) : ℤ) = 2 ^ (fb + 1) := by push_cast; ring
      have he_lt : fpE emin q < emin + 2 ^ eb - 3 := by
        rcases lt_or_eq_of_le hEle with h | h
        · exact h
        · exfalso
          have := fpM_le_of_emax fb eb emin q hq hmax h
          omega
      have hmagval : (fpE emin q - emin + 1).toNat * 2 ^ fb + ((fpM fb emin q).toNat - 2 ^ fb)
          = ((fpE emin q - emin + 1).toNat + 1) * 2 ^ fb := by
        rw [hbump]
        ring
      rw [hmagval, Nat.mul_div_cancel _ hfbpos, Nat.mul_mod_left]
      have hebcast : ((2 ^ eb : ℕ) : ℤ) = 2 ^ eb := by push_cast; ring
      constructor
      · intro hcon
        omega
      · rw [if_neg (by omega)]
        have h1 : ((2 ^ fb + 0 : ℕ) : ℚ) = (2 : ℚ) ^ (fb : ℤ) := by
          push_cast
          rw [zpow_natCast]
          norm_num
        have h2 : (((fpE emin q - emin + 1).toNat + 1 : ℕ) : ℤ) - 1 = fpE emin q - emin + 1 := by
          push_cast [hEfcast]
          ring
        have h3 : ((fpM fb emin q : ℤ) : ℚ) = (2 : ℚ) ^ ((fb : ℤ) + 1) := by
          rw [← hmcast, hm2]
          push_cast
          rw [← zpow_natCast (2 : ℚ) (fb + 1)]
          push_cast
          ring
        rw [h1, h2, h3]
        rw [← zpow_add₀ (by norm_num : (2:ℚ) ≠ 0), ← zpow_add₀ (by norm_num : (2:ℚ) ≠ 0)]
        congr 1
        ring
    · have hδlt : (fpM fb emin q).toNat - 2 ^ fb < 2 ^ fb := by omega
      have hebcast : ((2 ^ eb : ℕ) : ℤ) = 2 ^ eb := by push_cast; ring
      rw [mul_comm ((fpE emin q - emin + 1).toNat) (2 ^ fb),
          Nat.mul_add_mod, Nat.mod_eq_of_lt hδlt,
          Nat.mul_add_div hfbpos, Nat.div_eq_of_lt hδlt, Nat.add_zero]
      constructor
      · intro hcon
        omega
      · rw [if_neg (by omega)]
        have hsum : (2 ^ fb + ((fpM fb emin q).toNat - 2 ^ fb) : ℕ) = (fpM fb emin q).toNat := by
          omega
        have h2 : (((fpE emin q - emin + 1).toNat : ℕ) : ℤ) - 1 = fpE emin q - emin := by
          rw [hEfcast]
          ring
        rw [hsum, h2]
        have h3 : ((fpM fb emin q).toNat : ℚ) = ((fpM fb emin q : ℤ) : ℚ) := by
          exact_mod_cast Int.toNat_of_nonneg hm0
        rw [h3]
        congr 1
        ring_nf

theorem fpDecode_fpEnc (fb eb : ℕ) (emin : ℤ) (q : ℚ) (hfb : 0 < fb) (heb : 2 ≤ eb)
    (hmax : |q| ≤ maxFin fb eb emin) :
    fpDecode fb eb emin (fpEnc fb eb emin q) = .finite (fpRound fb emin q) := by
  have heb4 : (4 : ℕ) ≤ 2 ^ eb := by
    calc (4 : ℕ) = 2 ^ 2 := by norm_num
    _ ≤ 2 ^ eb := Nat.pow_le_pow_right (by norm_num) heb
  have hPpos : (0 : ℕ) < 2 ^ (fb + eb) := Nat.pos_pow_of_pos _ (by norm_num)
  by_cases hq : q = 0
  · subst hq
    unfold fpEnc fpEncMag fpDecode fpRound
    simp only [lt_self_iff_false, if_false, if_true, reduceIte, Nat.zero_add, Nat.add_zero]
    rw [Nat.zero_div, Nat.zero_mod, Nat.zero_div, Nat.zero_mod]
    norm_num
    omega
  · have hspec := fpMag_spec fb eb emin q hfb heb hq hmax
    have hmaglt := fpEncMag_lt fb eb emin q heb hmax
    unfold fpEnc fpDecode fpRound
    rw [if_neg hq]
    by_cases hneg : q < 0
    · rw [if_pos hneg, if_pos hneg]
      have hun := unpack_div (2 ^ (fb + eb)) (fpEncMag fb emin q) 1 hPpos hmaglt (le_refl 1)
      simp only [if_true, reduceIte] at hun
      simp only [hun.1, hun.2, reduceIte]
      rw [if_neg hspec.1]
      by_cases hE0 : fpEncMag fb emin q / 2 ^ fb = 0
      · rw [if_pos hE0]
        rw [if_pos hE0] at hspec
        have h2 := hspec.2
        congr 1
        rw [mul_assoc, h2]
        ring
      · rw [if_neg hE0]
        rw [if_neg hE0] at hspec
        have h2 := hspec.2
        congr 1
        rw [mul_assoc, h2]
        ring
    · rw [if_neg hneg, if_neg hneg]
      have hun := unpack_div (2 ^ (fb + eb)) (fpEncMag fb emin q) 0 hPpos hmaglt (by norm_num)
      simp only [Nat.zero_add]
      norm_num at hun
      simp only [hun.1, hun.2, reduceIte]
      rw [if_neg hspec.1]
      by_cases hE0 : fpEncMag fb emin q / 2 ^ fb = 0
      · rw [if_pos hE0]
        rw [if_pos hE0] at hspec
        have h2 := hspec.2
        congr 1
        rw [mul_assoc, h2]
        norm_num
      · rw [if_neg hE0]
        rw [if_neg hE0] at hspec
        have h2 := hspec.2
        congr 1
        rw [mul_assoc, h2]
        norm_num


/-! ### Scalar codec round-trip lemmas -/

theorem assertInteger_ok (q mn mx : ℚ) (t : String) (h1 : q.den = 1)
    (h2 : mn ≤ q) (h3 : q ≤ mx) :
    assertInteger (.num (.finite q)) mn mx t = none := by
  unfold assertInteger isIntegerNum numVal
  simp [h1, not_lt.mpr h2, not_lt.mpr h3]

theorem ratNumCast (q : ℚ) (h : q.den = 1) : ((q.num : ℤ) : ℚ) = q := by
  conv_rhs => rw [← Rat.num_div_den q]
  rw [h]
  simp

theorem storeBytes_ok (buf bs : List ℕ) (o : ℕ) (h : o + bs.length ≤ buf.length) :
    storeBytes buf o bs = (writeBytes buf o bs, none) := by
  unfold storeBytes
  rw [if_pos h]

theorem loadBytes_writeBytes (buf bs : List ℕ) (o : ℕ) (h : o + bs.length ≤ buf.length) :
    loadBytes (writeBytes buf o bs) o bs.length = .ok bs := by
  unfold loadBytes
  rw [if_pos (by rw [writeBytes_length buf bs o h]; omega),
      readBytes_writeBytes buf bs o (by omega)]


theorem pow256_eq (k : ℕ) : (256 : ℕ) ^ k = 2 ^ (8 * k) := by
  rw [show (256 : ℕ) = 2 ^ 8 by norm_num, ← pow_mul]

theorem storeIntLE_eq (buf : List ℕ) (o : ℕ) (v : ℤ) (k : ℕ) (hfit : o + k ≤ buf.length) :
    storeIntLE buf o v k = (writeBytes buf o (natToBytesLE (intToNat2c v (8 * k)) k), none) := by
  unfold storeIntLE
  exact storeBytes_ok _ _ _ (by rw [natToBytesLE_length]; omega)

theorem storeIntBE_eq (buf : List ℕ) (o : ℕ) (v : ℤ) (k : ℕ) (hfit : o + k ≤ buf.length) :
    storeIntBE buf o v k = (writeBytes buf o (natToBytesBE (intToNat2c v (8 * k)) k), none) := by
  unfold storeIntBE
  exact storeBytes_ok _ _ _ (by rw [natToBytesBE_length]; omega)

theorem loadBytes_after (buf bs : List ℕ) (o k : ℕ) (hlen : bs.length = k)
    (hfit : o + k ≤ buf.length) :
    loadBytes (writeBytes buf o bs) o k = .ok bs := by
  have h := loadBytes_writeBytes buf bs o (by omega)
  rw [hlen] at h
  exact h

theorem decode_signed_LE (v : ℤ) (k : ℕ) (hk : 0 < k)
    (hlo : -(2 ^ (8 * k - 1)) ≤ v) (hhi : v < 2 ^ (8 * k - 1)) :
    natToInt2c (bytesToNatLE (natToBytesLE (intToNat2c v (8 * k)) k)) (8 * k) = v := by
  rw [bytesToNatLE_natToBytesLE _ _ (by rw [pow256_eq]; exact intToNat2c_lt v (8 * k))]
  exact natToInt2c_intToNat2c v (8 * k) (by omega) hlo hhi

theorem decode_signed_BE (v : ℤ) (k : ℕ) (hk : 0 < k)
    (hlo : -(2 ^ (8 * k - 1)) ≤ v) (hhi : v < 2 ^ (8 * k - 1)) :
    natToInt2c (bytesToNatBE (natToBytesBE (intToNat2c v (8 * k)) k)) (8 * k) = v := by
  rw [bytesToNatBE_natToBytesBE _ _ (by rw [pow256_eq]; exact intToNat2c_lt v (8 * k))]
  exact natToInt2c_intToNat2c v (8 * k) (by omega) hlo hhi

theorem decode_unsigned_LE (v : ℤ) (k : ℕ) (h0 : 0 ≤ v) (hv : v < 2 ^ (8 * k)) :
    ((bytesToNatLE (natToBytesLE (intToNat2c v (8 * k)) k) : ℕ) : ℤ) = v := by
  rw [bytesToNatLE_natToBytesLE _ _ (by rw [pow256_eq]; exact intToNat2c_lt v (8 * k))]
  exact intToNat2c_of_nonneg v (8 * k) h0 hv

theorem decode_unsigned_BE (v : ℤ) (k : ℕ) (h0 : 0 ≤ v) (hv : v < 2 ^ (8 * k)) :
    ((bytesToNatBE (natToBytesBE (intToNat2c v (8 * k)) k) : ℕ) : ℤ) = v := by
  rw [bytesToNatBE_natToBytesBE _ _ (by rw [pow256_eq]; exact intToNat2c_lt v (8 * k))]
  exact intToNat2c_of_nonneg v (8 * k) h0 hv


theorem assertFinite_ok (q : ℚ) (t : String) :
    assertFinite (.num (.finite q)) t = none := by
  unfold assertFinite isFiniteNum
  simp

theorem jsBigInt_num_ok (q : ℚ) (t : String) (h1 : q.den = 1) :
    jsBigInt (.num (.finite q)) t = .ok q.num := by
  unfold jsBigInt
  simp [h1]

theorem assertBigIntRange_ok (v mn mx : ℤ) (t : String) (h2 : mn ≤ v) (h3 : v ≤ mx) :
    assertBigIntRange v mn mx t = none := by
  unfold assertBigIntRange
  simp [not_lt.mpr h2, not_lt.mpr h3]

theorem fpEnc_lt (fb eb : ℕ) (emin : ℤ) (q : ℚ) (heb : 2 ≤ eb)
    (hmax : |q| ≤ maxFin fb eb emin) : fpEnc fb eb emin q < 2 ^ (fb + eb + 1) := by
  have h := fpEncMag_lt fb eb emin q heb hmax
  have hp : (2 : ℕ) ^ (fb + eb + 1) = 2 * 2 ^ (fb + eb) := by rw [pow_succ]; ring
  unfold fpEnc
  split <;> omega


/-- C1: for every supported DataType, every buffer with room for the field
at `off + doff`, and every value valid for the type, `write` succeeds and
an immediate `read` at the same position yields the value back exactly
(as an arbitrary-precision bigint for the 64-bit types); for the FLOAT32
types the value read back is the value rounded to the nearest representable
IEEE-754 single-precision value (ties to even), and this rounding is not an
error. -/
theorem c1_read_after_write (dt : DataType) (buf : List ℕ) (doff off : ℕ) (q : ℚ)
    (hval : validValue dt q)
    (hfit : off + doff + getDataTypeSize dt ≤ buf.length) :
    (write (.mk (.scalar dt) doff (getDataTypeSize dt)) buf (.num (.finite q)) off).2 = none ∧
    read (.mk (.scalar dt) doff (getDataTypeSize dt))
      (write (.mk (.scalar dt) doff (getDataTypeSize dt)) buf (.num (.finite q)) off).1 off
      = .ok (readBack dt q) := by
  cases dt with
  | INT8 =>
    obtain ⟨h1, h2, h3⟩ := hval
    simp only [getDataTypeSize] at hfit
    have hq := ratNumCast q h1
    have hlo : -(2 ^ (8 * 1 - 1)) ≤ q.num := by
      have hc : (-128 : ℚ) ≤ (q.num : ℚ) := by rw [hq]; exact h2
      have h4 : (-128 : ℤ) ≤ q.num := by exact_mod_cast hc
      norm_num
      omega
    have hhi : q.num < 2 ^ (8 * 1 - 1) := by
      have hc : (q.num : ℚ) ≤ 127 := by rw [hq]; exact h3
      have h4 : q.num ≤ (127 : ℤ) := by exact_mod_cast hc
      norm_num
      omega
    have hdec := decode_signed_LE q.num 1 (by norm_num) hlo hhi
    simp only [write, read, readBack, AlignedData.type, AlignedData.offset, numVal,
      assertInteger_ok q (-128) 127 "INT8" h1 h2 h3,
      storeIntLE_eq buf (off + doff) q.num 1 (by omega)]
    refine ⟨trivial, ?_⟩
    rw [loadBytes_after buf (natToBytesLE (intToNat2c q.num (8 * 1)) 1) (off + doff) 1
      (natToBytesLE_length _ _) (by omega)]
    show Except.ok (Val.num (JsNum.finite
        ((natToInt2c (bytesToNatLE (natToBytesLE (intToNat2c q.num (8 * 1)) 1)) 8 : ℤ) : ℚ)))
      = Except.ok (Val.num (JsNum.finite q))
    rw [show (8 : ℕ) = 8 * 1 by norm_num, hdec, hq]
  | UINT8 =>
    obtain ⟨h1, h2, h3⟩ := hval
    simp only [getDataTypeSize] at hfit
    have hq := ratNumCast q h1
    have hlo : (0 : ℤ) ≤ q.num := by
      have hc : (0 : ℚ) ≤ (q.num : ℚ) := by rw [hq]; exact h2
      exact_mod_cast hc
    have hhi : q.num < 2 ^ (8 * 1) := by
      have hc : (q.num : ℚ) ≤ 255 := by rw [hq]; exact h3
      have h4 : q.num ≤ (255 : ℤ) := by exact_mod_cast hc
      norm_num
      omega
    have hdec := decode_unsigned_LE q.num 1 hlo hhi
    have hdec2 : ((bytesToNatLE (natToBytesLE (intToNat2c q.num (8 * 1)) 1) : ℕ) : ℚ) = q := by
      rw [← hq]
      exact_mod_cast hdec
    simp only [write, read, readBack, AlignedData.type, AlignedData.offset, numVal,
      assertInteger_ok q 0 255 "UINT8" h1 h2 h3,
      storeIntLE_eq buf (off + doff) q.num 1 (by omega)]
    refine ⟨trivial, ?_⟩
    rw [loadBytes_after buf (natToBytesLE (intToNat2c q.num (8 * 1)) 1) (off + doff) 1
      (natToBytesLE_length _ _) (by omega)]
    show Except.ok (Val.num (JsNum.finite
        ((bytesToNatLE (natToBytesLE (intToNat2c q.num (8 * 1)) 1) : ℕ) : ℚ)))
      = Except.ok (Val.num (JsNum.finite q))
    rw [hdec2]
  | INT16LE =>
    obtain ⟨h1, h2, h3⟩ := hval
    simp only [getDataTypeSize] at hfit
    have hq := ratNumCast q h1
    have hlo : -(2 ^ (8 * 2 - 1)) ≤ q.num := by
      have hc : (-32768 : ℚ) ≤ (q.num : ℚ) := by rw [hq]; exact h2
      have h4 : (-32768 : ℤ) ≤ q.num := by exact_mod_cast hc
      norm_num
      omega
    have hhi : q.num < 2 ^ (8 * 2 - 1) := by
      have hc : (q.num : ℚ) ≤ 32767 := by rw [hq]; exact h3
      have h4 : q.num ≤ (32767 : ℤ) := by exact_mod_cast hc
      norm_num
      omega
    have hdec := decode_signed_LE q.num 2 (by norm_num) hlo hhi
    simp only [write, read, readBack, AlignedData.type, AlignedData.offset, numVal,
      assertInteger_ok q (-32768) 32767 "INT16" h1 h2 h3,
      storeIntLE_eq buf (off + doff) q.num 2 (by omega)]
    refine ⟨trivial, ?_⟩
    rw [loadBytes_after buf (natToBytesLE (intToNat2c q.num (8 * 2)) 2) (off + doff) 2
      (natToBytesLE_length _ _) (by omega)]
    show Except.ok (Val.num (JsNum.finite
        ((natToInt2c (bytesToNatLE (natToBytesLE (intToNat2c q.num (8 * 2)) 2)) 16 : ℤ) : ℚ)))
      = Except.ok (Val.num (JsNum.finite q))
    rw [show (16 : ℕ) = 8 * 2 by norm_num, hdec, hq]
  | INT16BE =>
    obtain ⟨h1, h2, h3⟩ := hval
    simp only [getDataTypeSize] at hfit
    have hq := ratNumCast q h1
    have hlo : -(2 ^ (8 * 2 - 1)) ≤ q.num := by
      have hc : (-32768 : ℚ) ≤ (q.num : ℚ) := by rw [hq]; exact h2
      have h4 : (-32768 : ℤ) ≤ q.num := by exact_mod_cast hc
      norm_num
      omega
    have hhi : q.num < 2 ^ (8 * 2 - 1) := by
      have hc : (q.num : ℚ) ≤ 32767 := by rw [hq]; exact h3
      have h4 : q.num ≤ (32767 : ℤ) := by exact_mod_cast hc
      norm_num
      omega
    have hdec := decode_signed_BE q.num 2 (by norm_num) hlo hhi
    simp only [write, read, readBack, AlignedData.type, AlignedData.offset, numVal,
      assertInteger_ok q (-32768) 32767 "INT16" h1 h2 h3,
      storeIntBE_eq buf (off + doff) q.num 2 (by omega)]
    refine ⟨trivial, ?_⟩
    rw [loadBytes_after buf (natToBytesBE (intToNat2c q.num (8 * 2)) 2) (off + doff) 2
      (natToBytesBE_length _ _) (by omega)]
    show Except.ok (Val.num (JsNum.finite
        ((natToInt2c (bytesToNatBE (natToBytesBE (intToNat2c q.num (8 * 2)) 2)) 16 : ℤ) : ℚ)))
      = Except.ok (Val.num (JsNum.finite q))
    rw [show (16 : ℕ) = 8 * 2 by norm_num, hdec, hq]
  | UINT16LE =>
    obtain ⟨h1, h2, h3⟩ := hval
    simp only [getDataTypeSize] at hfit
    have hq := ratNumCast q h1
    have hlo : (0 : ℤ) ≤ q.num := by
      have hc : (0 : ℚ) ≤ (q.num : ℚ) := by rw [hq]; exact h2
      exact_mod_cast hc
    have hhi : q.num < 2 ^ (8 * 2) := by
      have hc : (q.num : ℚ) ≤ 65535 := by rw [hq]; exact h3
      have h4 : q.num ≤ (65535 : ℤ) := by exact_mod_cast hc
      norm_num
      omega
    have hdec := decode_unsigned_LE q.num 2 hlo hhi
    have hdec2 : ((bytesToNatLE (natToBytesLE (intToNat2c q.num (8 * 2)) 2) : ℕ) : ℚ) = q := by
      rw [← hq]
      exact_mod_cast hdec
    simp only [write, read, readBack, AlignedData.type, AlignedData.offset, numVal,
      assertInteger_ok q 0 65535 "UINT16" h1 h2 h3,
      storeIntLE_eq buf (off + doff) q.num 2 (by omega)]
    refine ⟨trivial, ?_⟩
    rw [loadBytes_after buf (natToBytesLE (intToNat2c q.num (8 * 2)) 2) (off + doff) 2
      (natToBytesLE_length _ _) (by omega)]
    show Except.ok (Val.num (JsNum.finite
        ((bytesToNatLE (natToBytesLE (intToNat2c q.num (8 * 2)) 2) : ℕ) : ℚ)))
      = Except.ok (Val.num (JsNum.finite q))
    rw [hdec2]
  | UINT16BE =>
    obtain ⟨h1, h2, h3⟩ := hval
    simp only [getDataTypeSize] at hfit
    have hq := ratNumCast q h1
    have hlo : (0 : ℤ) ≤ q.num := by
      have hc : (0 : ℚ) ≤ (q.num : ℚ) := by rw [hq]; exact h2
      exact_mod_cast hc
    have hhi : q.num < 2 ^ (8 * 2) := by
      have hc : (q.num : ℚ) ≤ 65535 := by rw [hq]; exact h3
      have h4 : q.num ≤ (65535 : ℤ) := by exact_mod_cast hc
      norm_num
      omega
    have hdec := decode_unsigned_BE q.num 2 hlo hhi
    have hdec2 : ((bytesToNatBE (natToBytesBE (intToNat2c q.num (8 * 2)) 2) : ℕ) : ℚ) = q := by
      rw [← hq]
      exact_mod_cast hdec
    simp only [write, read, readBack, AlignedData.type, AlignedData.offset, numVal,
      assertInteger_ok q 0 65535 "UINT16" h1 h2 h3,
      storeIntBE_eq buf (off + doff) q.num 2 (by omega)]
    refine ⟨trivial, ?_⟩
    rw [loadBytes_after buf (natToBytesBE (intToNat2c q.num (8 * 2)) 2) (off + doff) 2
      (natToBytesBE_length _ _) (by omega)]
    show Except.ok (Val.num (JsNum.finite
        ((bytesToNatBE (natToBytesBE (intToNat2c q.num (8 * 2)) 2) : ℕ) : ℚ)))
      = Except.ok (Val.num (JsNum.finite q))
    rw [hdec2]
  | INT32LE =>
    obtain ⟨h1, h2, h3⟩ := hval
    simp only [getDataTypeSize] at hfit
    have hq := ratNumCast q h1
    have hlo : -(2 ^ (8 * 4 - 1)) ≤ q.num := by
      have hc : (-2147483648 : ℚ) ≤ (q.num : ℚ) := by rw [hq]; exact h2
      have h4 : (-2147483648 : ℤ) ≤ q.num := by exact_mod_cast hc
      norm_num
      omega
    have hhi : q.num < 2 ^ (8 * 4 - 1) := by
      have hc : (q.num : ℚ) ≤ 2147483647 := by rw [hq]; exact h3
      have h4 : q.num ≤ (2147483647 : ℤ) := by exact_mod_cast hc
      norm_num
      omega
    have hdec := decode_signed_LE q.num 4 (by norm_num) hlo hhi
    simp only [write, read, readBack, AlignedData.type, AlignedData.offset, numVal,
      assertInteger_ok q (-2147483648) 2147483647 "INT32" h1 h2 h3,
      storeIntLE_eq buf (off + doff) q.num 4 (by omega)]
    refine ⟨trivial, ?_⟩
    rw [loadBytes_after buf (natToBytesLE (intToNat2c q.num (8 * 4)) 4) (off + doff) 4
      (natToBytesLE_length _ _) (by omega)]
    show Except.ok (Val.num (JsNum.finite
        ((natToInt2c (bytesToNatLE (natToBytesLE (intToNat2c q.num (8 * 4)) 4)) 32 : ℤ) : ℚ)))
      = Except.ok (Val.num (JsNum.finite q))
    rw [show (32 : ℕ) = 8 * 4 by norm_num, hdec, hq]
  | INT32BE =>
    obtain ⟨h1, h2, h3⟩ := hval
    simp only [getDataTypeSize] at hfit
    have hq := ratNumCast q h1
    have hlo : -(2 ^ (8 * 4 - 1)) ≤ q.num := by
      have hc : (-2147483648 : ℚ) ≤ (q.num : ℚ) := by rw [hq]; exact h2
      have h4 : (-2147483648 : ℤ) ≤ q.num := by exact_mod_cast hc
      norm_num
      omega
    have hhi : q.num < 2 ^ (8 * 4 - 1) := by
      have hc : (q.num : ℚ) ≤ 2147483647 := by rw [hq]; exact h3
      have h4 : q.num ≤ (2147483647 : ℤ) := by exact_mod_cast hc
      norm_num
      omega
    have hdec := decode_signed_BE q.num 4 (by norm_num) hlo hhi
    simp only [write, read, readBack, AlignedData.type, AlignedData.offset, numVal,
      assertInteger_ok q (-2147483648) 2147483647 "INT32" h1 h2 h3,
      storeIntBE_eq buf (off + doff) q.num 4 (by omega)]
    refine ⟨trivial, ?_⟩
    rw [loadBytes_after buf (natToBytesBE (intToNat2c q.num (8 * 4)) 4) (off + doff) 4
      (natToBytesBE_length _ _) (by omega)]
    show Except.ok (Val.num (JsNum.finite
        ((natToInt2c (bytesToNatBE (natToBytesBE (intToNat2c q.num (8 * 4)) 4)) 32 : ℤ) : ℚ)))
      = Except.ok (Val.num (JsNum.finite q))
    rw [show (32 : ℕ) = 8 * 4 by norm_num, hdec, hq]
  | UINT32LE =>
    obtain ⟨h1, h2, h3⟩ := hval
    simp only [getDataTypeSize] at hfit
    have hq := ratNumCast q h1
    have hlo : (0 : ℤ) ≤ q.num := by
      have hc : (0 : ℚ) ≤ (q.num : ℚ) := by rw [hq]; exact h2
      exact_mod_cast hc
    have hhi : q.num < 2 ^ (8 * 4) := by
      have hc : (q.num : ℚ) ≤ 4294967295 := by rw [hq]; exact h3
      have h4 : q.num ≤ (4294967295 : ℤ) := by exact_mod_cast hc
      norm_num
      omega
    have hdec := decode_unsigned_LE q.num 4 hlo hhi
    have hdec2 : ((bytesToNatLE (natToBytesLE (intToNat2c q.num (8 * 4)) 4) : ℕ) : ℚ) = q := by
      rw [← hq]
      exact_mod_cast hdec
    simp only [write, read, readBack, AlignedData.type, AlignedData.offset, numVal,
      assertInteger_ok q 0 4294967295 "UINT32" h1 h2 h3,
      storeIntLE_eq buf (off + doff) q.num 4 (by omega)]
    refine ⟨trivial, ?_⟩
    rw [loadBytes_after buf (natToBytesLE (intToNat2c q.num (8 * 4)) 4) (off + doff) 4
      (natToBytesLE_length _ _) (by omega)]
    show Except.ok (Val.num (JsNum.finite
        ((bytesToNatLE (natToBytesLE (intToNat2c q.num (8 * 4)) 4) : ℕ) : ℚ)))
      = Except.ok (Val.num (JsNum.finite q))
    rw [hdec2]
  | UINT32BE =>
    obtain ⟨h1, h2, h3⟩ := hval
    simp only [getDataTypeSize] at hfit
    have hq := ratNumCast q h1
    have hlo : (0 : ℤ) ≤ q.num := by
      have hc : (0 : ℚ) ≤ (q.num : ℚ) := by rw [hq]; exact h2
      exact_mod_cast hc
    have hhi : q.num < 2 ^ (8 * 4) := by
      have hc : (q.num : ℚ) ≤ 4294967295 := by rw [hq]; exact h3
      have h4 : q.num ≤ (4294967295 : ℤ) := by exact_mod_cast hc
      norm_num
      omega
    have hdec := decode_unsigned_BE q.num 4 hlo hhi
    have hdec2 : ((bytesToNatBE (natToBytesBE (intToNat2c q.num (8 * 4)) 4) : ℕ) : ℚ) = q := by
      rw [← hq]
      exact_mod_cast hdec
    simp only [write, read, readBack, AlignedData.type, AlignedData.offset, numVal,
      assertInteger_ok q 0 4294967295 "UINT32" h1 h2 h3,
      storeIntBE_eq buf (off + doff) q.num 4 (by omega)]
    refine ⟨trivial, ?_⟩
    rw [loadBytes_after buf (natToBytesBE (intToNat2c q.num (8 * 4)) 4) (off + doff) 4
      (natToBytesBE_length _ _) (by omega)]
    show Except.ok (Val.num (JsNum.finite
        ((bytesToNatBE (natToBytesBE (intToNat2c q.num (8 * 4)) 4) : ℕ) : ℚ)))
      = Except.ok (Val.num (JsNum.finite q))
    rw [hdec2]
  | INT64LE =>
    obtain ⟨h1, h2, h3⟩ := hval
    simp only [getDataTypeSize] at hfit
    have hq := ratNumCast q h1
    have hsh : (1 <<< 63 : ℤ) = 2 ^ 63 := by decide
    have hlo : -(2 ^ (8 * 8 - 1)) ≤ q.num := by
      have hc : (-(2 ^ 63) : ℚ) ≤ (q.num : ℚ) := by rw [hq]; exact h2
      have h4 : (-(2 ^ 63) : ℤ) ≤ q.num := by exact_mod_cast hc
      norm_num
      omega
    have hhi : q.num < 2 ^ (8 * 8 - 1) := by
      have hc : (q.num : ℚ) ≤ 2 ^ 63 - 1 := by rw [hq]; exact h3
      have h4 : q.num ≤ (2 ^ 63 - 1 : ℤ) := by exact_mod_cast hc
      norm_num
      omega
    have hrange := assertBigIntRange_ok q.num (-(1 <<< 63)) ((1 <<< 63) - 1) "INT64"
      (by rw [hsh]; omega) (by rw [hsh]; omega)
    have hdec := decode_signed_LE q.num 8 (by norm_num) hlo hhi
    simp only [write, read, readBack, AlignedData.type, AlignedData.offset, numVal,
      jsBigInt_num_ok q "INT64" h1, hrange,
      storeIntLE_eq buf (off + doff) q.num 8 (by omega)]
    refine ⟨trivial, ?_⟩
    rw [loadBytes_after buf (natToBytesLE (intToNat2c q.num (8 * 8)) 8) (off + doff) 8
      (natToBytesLE_length _ _) (by omega)]
    show Except.ok (Val.big
        (natToInt2c (bytesToNatLE (natToBytesLE (intToNat2c q.num (8 * 8)) 8)) 64))
      = Except.ok (Val.big q.num)
    rw [show (64 : ℕ) = 8 * 8 by norm_num, hdec]
  | INT64BE =>
    obtain ⟨h1, h2, h3⟩ := hval
    simp only [getDataTypeSize] at hfit
    have hq := ratNumCast q h1
    have hsh : (1 <<< 63 : ℤ) = 2 ^ 63 := by decide
    have hlo : -(2 ^ (8 * 8 - 1)) ≤ q.num := by
      have hc : (-(2 ^ 63) : ℚ) ≤ (q.num : ℚ) := by rw [hq]; exact h2
      have h4 : (-(2 ^ 63) : ℤ) ≤ q.num := by exact_mod_cast hc
      norm_num
      omega
    have hhi : q.num < 2 ^ (8 * 8 - 1) := by
      have hc : (q.num : ℚ) ≤ 2 ^ 63 - 1 := by rw [hq]; exact h3
      have h4 : q.num ≤ (2 ^ 63 - 1 : ℤ) := by exact_mod_cast hc
      norm_num
      omega
    have hrange := assertBigIntRange_ok q.num (-(1 <<< 63)) ((1 <<< 63) - 1) "INT64"
      (by rw [hsh]; omega) (by rw [hsh]; omega)
    have hdec := decode_signed_BE q.num 8 (by norm_num) hlo hhi
    simp only [write, read, readBack, AlignedData.type, AlignedData.offset, numVal,
      jsBigInt_num_ok q "INT64" h1, hrange,
      storeIntBE_eq buf (off + doff) q.num 8 (by omega)]
    refine ⟨trivial, ?_⟩
    rw [loadBytes_after buf (natToBytesBE (intToNat2c q.num (8 * 8)) 8) (off + doff) 8
      (natToBytesBE_length _ _) (by omega)]
    show Except.ok (Val.big
        (natToInt2c (bytesToNatBE (natToBytesBE (intToNat2c q.num (8 * 8)) 8)) 64))
      = Except.ok (Val.big q.num)
    rw [show (64 : ℕ) = 8 * 8 by norm_num, hdec]
  | UINT64LE =>
    obtain ⟨h1, h2, h3⟩ := hval
    simp only [getDataTypeSize] at hfit
    have hq := ratNumCast q h1
    have hsh : (1 <<< 64 : ℤ) = 2 ^ 64 := by decide
    have hlo : (0 : ℤ) ≤ q.num := by
      have hc : (0 : ℚ) ≤ (q.num : ℚ) := by rw [hq]; exact h2
      exact_mod_cast hc
    have hhi : q.num < 2 ^ (8 * 8) := by
      have hc : (q.num : ℚ) ≤ 2 ^ 64 - 1 := by rw [hq]; exact h3
      have h4 : q.num ≤ (2 ^ 64 - 1 : ℤ) := by exact_mod_cast hc
      norm_num
      omega
    have hrange := assertBigIntRange_ok q.num 0 ((1 <<< 64) - 1) "UINT64"
      hlo (by rw [hsh]; omega)
    have hdec := decode_unsigned_LE q.num 8 hlo hhi
    simp only [write, read, readBack, AlignedData.type, AlignedData.offset, numVal,
      jsBigInt_num_ok q "UINT64" h1, hrange,
      storeIntLE_eq buf (off + doff) q.num 8 (by omega)]
    refine ⟨trivial, ?_⟩
    rw [loadBytes_after buf (natToBytesLE (intToNat2c q.num (8 * 8)) 8) (off + doff) 8
      (natToBytesLE_length _ _) (by omega)]
    show Except.ok (Val.big ((bytesToNatLE (natToBytesLE (intToNat2c q.num (8 * 8)) 8) : ℕ) : ℤ))
      = Except.ok (Val.big q.num)
    rw [hdec]
  | UINT64BE =>
    obtain ⟨h1, h2, h3⟩ := hval
    simp only [getDataTypeSize] at hfit
    have hq := ratNumCast q h1
    have hsh : (1 <<< 64 : ℤ) = 2 ^ 64 := by decide
    have hlo : (0 : ℤ) ≤ q.num := by
      have hc : (0 : ℚ) ≤ (q.num : ℚ) := by rw [hq]; exact h2
      exact_mod_cast hc
    have hhi : q.num < 2 ^ (8 * 8) := by
      have hc : (q.num : ℚ) ≤ 2 ^ 64 - 1 := by rw [hq]; exact h3
      have h4 : q.num ≤ (2 ^ 64 - 1 : ℤ) := by exact_mod_cast hc
      norm_num
      omega
    have hrange := assertBigIntRange_ok q.num 0 ((1 <<< 64) - 1) "UINT64"
      hlo (by rw [hsh]; omega)
    have hdec := decode_unsigned_BE q.num 8 hlo hhi
    simp only [write, read, readBack, AlignedData.type, AlignedData.offset, numVal,
      jsBigInt_num_ok q "UINT64" h1, hrange,
      storeIntBE_eq buf (off + doff) q.num 8 (by omega)]
    refine ⟨trivial, ?_⟩
    rw [loadBytes_after buf (natToBytesBE (intToNat2c q.num (8 * 8)) 8) (off + doff) 8
      (natToBytesBE_length _ _) (by omega)]
    show Except.ok (Val.big ((bytesToNatBE (natToBytesBE (intToNat2c q.num (8 * 8)) 8) : ℕ) : ℤ))
      = Except.ok (Val.big q.num)
    rw [hdec]
  | FLOAT32LE =>
    obtain ⟨hrep, h32⟩ := hval
    simp only [getDataTypeSize] at hfit
    have henc := fpDecode_fpEnc 23 8 (-126) q (by norm_num) (by norm_num) h32
    have hlt : fpEnc 23 8 (-126) q < 256 ^ 4 := by
      have h := fpEnc_lt 23 8 (-126) q (by norm_num) h32
      rw [pow256_eq]
      norm_num at h ⊢
      omega
    simp only [write, read, readBack, AlignedData.type, AlignedData.offset, numVal,
      assertFinite_ok,
      storeBytes_ok buf (natToBytesLE (fpEnc 23 8 (-126) q) 4) (off + doff)
        (by rw [natToBytesLE_length]; omega)]
    refine ⟨trivial, ?_⟩
    rw [loadBytes_after buf (natToBytesLE (fpEnc 23 8 (-126) q) 4) (off + doff) 4
      (natToBytesLE_length _ _) (by omega)]
    show Except.ok (Val.num (fpDecode 23 8 (-126)
        (bytesToNatLE (natToBytesLE (fpEnc 23 8 (-126) q) 4))))
      = _
    rw [bytesToNatLE_natToBytesLE _ _ hlt]
    rw [henc]
  | FLOAT32BE =>
    obtain ⟨hrep, h32⟩ := hval
    simp only [getDataTypeSize] at hfit
    have henc := fpDecode_fpEnc 23 8 (-126) q (by norm_num) (by norm_num) h32
    have hlt : fpEnc 23 8 (-126) q < 256 ^ 4 := by
      have h := fpEnc_lt 23 8 (-126) q (by norm_num) h32
      rw [pow256_eq]
      norm_num at h ⊢
      omega
    simp only [write, read, readBack, AlignedData.type, AlignedData.offset, numVal,
      assertFinite_ok,
      storeBytes_ok buf (natToBytesBE (fpEnc 23 8 (-126) q) 4) (off + doff)
        (by rw [natToBytesBE_length]; omega)]
    refine ⟨trivial, ?_⟩
    rw [loadBytes_after buf (natToBytesBE (fpEnc 23 8 (-126) q) 4) (off + doff) 4
      (natToBytesBE_length _ _) (by omega)]
    show Except.ok (Val.num (fpDecode 23 8 (-126)
        (bytesToNatBE (natToBytesBE (fpEnc 23 8 (-126) q) 4))))
      = _
    rw [bytesToNatBE_natToBytesBE _ _ hlt]
    rw [henc]
  | FLOAT64LE =>
    have hrep := hval
    simp only [getDataTypeSize] at hfit
    have henc := fpDecode_fpEnc 52 11 (-1022) q (by norm_num) (by norm_num) hrep.2
    have hlt : fpEnc 52 11 (-1022) q < 256 ^ 8 := by
      have h := fpEnc_lt 52 11 (-1022) q (by norm_num) hrep.2
      rw [pow256_eq]
      norm_num at h ⊢
      omega
    simp only [write, read, readBack, AlignedData.type, AlignedData.offset, numVal,
      assertFinite_ok,
      storeBytes_ok buf (natToBytesLE (fpEnc 52 11 (-1022) q) 8) (off + doff)
        (by rw [natToBytesLE_length]; omega)]
    refine ⟨trivial, ?_⟩
    rw [loadBytes_after buf (natToBytesLE (fpEnc 52 11 (-1022) q) 8) (off + doff) 8
      (natToBytesLE_length _ _) (by omega)]
    show Except.ok (Val.num (fpDecode 52 11 (-1022)
        (bytesToNatLE (natToBytesLE (fpEnc 52 11 (-1022) q) 8))))
      = _
    rw [bytesToNatLE_natToBytesLE _ _ hlt]
    rw [henc, hrep.1]
  | FLOAT64BE =>
    have hrep := hval
    simp only [getDataTypeSize] at hfit
    have henc := fpDecode_fpEnc 52 11 (-1022) q (by norm_num) (by norm_num) hrep.2
    have hlt : fpEnc 52 11 (-1022) q < 256 ^ 8 := by
      have h := fpEnc_lt 52 11 (-1022) q (by norm_num) hrep.2
      rw [pow256_eq]
      norm_num at h ⊢
      omega
    simp only [write, read, readBack, AlignedData.type, AlignedData.offset, numVal,
      assertFinite_ok,
      storeBytes_ok buf (natToBytesBE (fpEnc 52 11 (-1022) q) 8) (off + doff)
        (by rw [natToBytesBE_length]; omega)]
    refine ⟨trivial, ?_⟩
    rw [loadBytes_after buf (natToBytesBE (fpEnc 52 11 (-1022) q) 8) (off + doff) 8
      (natToBytesBE_length _ _) (by omega)]
    show Except.ok (Val.num (fpDecode 52 11 (-1022)
        (bytesToNatBE (natToBytesBE (fpEnc 52 11 (-1022) q) 8))))
      = _
    rw [bytesToNatBE_natToBytesBE _ _ hlt]
    rw [henc, hrep.1]


/-- Witness for C1 at a concrete input: writing 0x1234 as UINT16LE at
byte 1 of a 3-byte buffer succeeds and reads back exactly. -/
theorem c1_read_after_write_witness :
    validValue .UINT16LE 4660 ∧
    ((write (.mk (.scalar .UINT16LE) 1 2) [0, 0, 0] (.num (.finite 4660)) 0).2 = none ∧
      read (.mk (.scalar .UINT16LE) 1 2)
        (write (.mk (.scalar .UINT16LE) 1 2) [0, 0, 0] (.num (.finite 4660)) 0).1 0
        = .ok (readBack .UINT16LE 4660)) :=
  ⟨by decide, c1_read_after_write .UINT16LE [0, 0, 0] 1 0 4660 (by decide) (by decide)⟩

/-- C7: each 64-bit DataType writes and reads values as arbitrary-precision
integers over its full range (up to `2^64 - 1` for UINT64, down to `-2^63`
for INT64): a write followed by a read at the same offset returns exactly
the value, with no narrowing through a floating-point representation. -/
theorem c7_int64_roundtrip (dt : DataType) (lo hi : ℤ) (hdt : int64Bounds dt = some (lo, hi))
    (buf : List ℕ) (doff off : ℕ) (v : ℤ) (hlo : lo ≤ v) (hhi : v ≤ hi)
    (hfit : off + doff + 8 ≤ buf.length) :
    (write (.mk (.scalar dt) doff 8) buf (.big v) off).2 = none ∧
    read (.mk (.scalar dt) doff 8) (write (.mk (.scalar dt) doff 8) buf (.big v) off).1 off
      = .ok (.big v) := by
  cases dt with
  | INT8 => simp [int64Bounds] at hdt
  | UINT8 => simp [int64Bounds] at hdt
  | INT16LE => simp [int64Bounds] at hdt
  | INT16BE => simp [int64Bounds] at hdt
  | UINT16LE => simp [int64Bounds] at hdt
  | UINT16BE => simp [int64Bounds] at hdt
  | INT32LE => simp [int64Bounds] at hdt
  | INT32BE => simp [int64Bounds] at hdt
  | UINT32LE => simp [int64Bounds] at hdt
  | UINT32BE => simp [int64Bounds] at hdt
  | FLOAT32LE => simp [int64Bounds] at hdt
  | FLOAT32BE => simp [int64Bounds] at hdt
  | FLOAT64LE => simp [int64Bounds] at hdt
  | FLOAT64BE => simp [int64Bounds] at hdt
  | INT64LE =>
    simp only [int64Bounds, Option.some.injEq, Prod.mk.injEq] at hdt
    obtain ⟨rfl, rfl⟩ := hdt
    have hsh : (1 <<< 63 : ℤ) = 2 ^ 63 := by decide
    have hlo8 : -(2 ^ (8 * 8 - 1)) ≤ v := by norm_num at hlo ⊢; omega
    have hhi8 : v < 2 ^ (8 * 8 - 1) := by norm_num at hhi ⊢; omega
    have hrange := assertBigIntRange_ok v (-(1 <<< 63)) ((1 <<< 63) - 1) "INT64"
      (by rw [hsh]; norm_num at hlo ⊢; omega) (by rw [hsh]; norm_num at hhi ⊢; omega)
    have hdec := decode_signed_LE v 8 (by norm_num) hlo8 hhi8
    simp only [write, read, AlignedData.type, AlignedData.offset, jsBigInt, hrange,
      storeIntLE_eq buf (off + doff) v 8 (by omega)]
    refine ⟨trivial, ?_⟩
    rw [loadBytes_after buf (natToBytesLE (intToNat2c v (8 * 8)) 8) (off + doff) 8
      (natToBytesLE_length _ _) (by omega)]
    show Except.ok (Val.big (natToInt2c (bytesToNatLE (natToBytesLE (intToNat2c v (8 * 8)) 8)) 64))
      = Except.ok (Val.big v)
    rw [show (64 : ℕ) = 8 * 8 by norm_num, hdec]
  | INT64BE =>
    simp only [int64Bounds, Option.some.injEq, Prod.mk.injEq] at hdt
    obtain ⟨rfl, rfl⟩ := hdt
    have hsh : (1 <<< 63 : ℤ) = 2 ^ 63 := by decide
    have hlo8 : -(2 ^ (8 * 8 - 1)) ≤ v := by norm_num at hlo ⊢; omega
    have hhi8 : v < 2 ^ (8 * 8 - 1) := by norm_num at hhi ⊢; omega
    have hrange := assertBigIntRange_ok v (-(1 <<< 63)) ((1 <<< 63) - 1) "INT64"
      (by rw [hsh]; norm_num at hlo ⊢; omega) (by rw [hsh]; norm_num at hhi ⊢; omega)
    have hdec := decode_signed_BE v 8 (by norm_num) hlo8 hhi8
    simp only [write, read, AlignedData.type, AlignedData.offset, jsBigInt, hrange,
      storeIntBE_eq buf (off + doff) v 8 (by omega)]
    refine ⟨trivial, ?_⟩
    rw [loadBytes_after buf (natToBytesBE (intToNat2c v (8 * 8)) 8) (off + doff) 8
      (natToBytesBE_length _ _) (by omega)]
    show Except.ok (Val.big (natToInt2c (bytesToNatBE (natToBytesBE (intToNat2c v (8 * 8)) 8)) 64))
      = Except.ok (Val.big v)
    rw [show (64 : ℕ) = 8 * 8 by norm_num, hdec]
  | UINT64LE =>
    simp only [int64Bounds, Option.some.injEq, Prod.mk.injEq] at hdt
    obtain ⟨rfl, rfl⟩ := hdt
    have hsh : (1 <<< 64 : ℤ) = 2 ^ 64 := by decide
    have hhi8 : v < 2 ^ (8 * 8) := by norm_num at hhi ⊢; omega
    have hrange := assertBigIntRange_ok v 0 ((1 <<< 64) - 1) "UINT64"
      hlo (by rw [hsh]; norm_num at hhi ⊢; omega)
    have hdec := decode_unsigned_LE v 8 hlo hhi8
    simp only [write, read, AlignedData.type, AlignedData.offset, jsBigInt, hrange,
      storeIntLE_eq buf (off + doff) v 8 (by omega)]
    refine ⟨trivial, ?_⟩
    rw [loadBytes_after buf (natToBytesLE (intToNat2c v (8 * 8)) 8) (off + doff) 8
      (natToBytesLE_length _ _) (by omega)]
    show Except.ok (Val.big ((bytesToNatLE (natToBytesLE (intToNat2c v (8 * 8)) 8) : ℕ) : ℤ))
      = Except.ok (Val.big v)
    rw [hdec]
  | UINT64BE =>
    simp only [int64Bounds, Option.some.injEq, Prod.mk.injEq] at hdt
    obtain ⟨rfl, rfl⟩ := hdt
    have hsh : (1 <<< 64 : ℤ) = 2 ^ 64 := by decide
    have hhi8 : v < 2 ^ (8 * 8) := by norm_num at hhi ⊢; omega
    have hrange := assertBigIntRange_ok v 0 ((1 <<< 64) - 1) "UINT64"
      hlo (by rw [hsh]; norm_num at hhi ⊢; omega)
    have hdec := decode_unsigned_BE v 8 hlo hhi8
    simp only [write, read, AlignedData.type, AlignedData.offset, jsBigInt, hrange,
      storeIntBE_eq buf (off + doff) v 8 (by omega)]
    refine ⟨trivial, ?_⟩
    rw [loadBytes_after buf (natToBytesBE (intToNat2c v (8 * 8)) 8) (off + doff) 8
      (natToBytesBE_length _ _) (by omega)]
    show Except.ok (Val.big ((bytesToNatBE (natToBytesBE (intToNat2c v (8 * 8)) 8) : ℕ) : ℤ))
      = Except.ok (Val.big v)
    rw [hdec]

/-- Witness for C7: writing `2^64 - 1` as UINT64LE into an 8-byte buffer
reads back exactly. -/
theorem c7_int64_roundtrip_witness :
    (write (.mk (.scalar .UINT64LE) 0 8) (alloc 8) (.big (2 ^ 64 - 1)) 0).2 = none ∧
    read (.mk (.scalar .UINT64LE) 0 8)
      (write (.mk (.scalar .UINT64LE) 0 8) (alloc 8) (.big (2 ^ 64 - 1)) 0).1 0
      = .ok (.big (2 ^ 64 - 1)) :=
  c7_int64_roundtrip .UINT64LE 0 (2 ^ 64 - 1) rfl (alloc 8) 0 0 (2 ^ 64 - 1)
    (by decide) (by decide) (by decide)


/-! ### C4: write-side validation -/

theorem assertInteger_notInt (q mn mx : ℚ) (t : String) (h : q.den ≠ 1) :
    assertInteger (.num (.finite q)) mn mx t = some (.notInteger t) := by
  unfold assertInteger isIntegerNum
  simp [h]

theorem assertInteger_range (q mn mx : ℚ) (t : String) (h1 : q.den = 1)
    (h : q < mn ∨ mx < q) :
    assertInteger (.num (.finite q)) mn mx t = some (.outOfRange t q mn mx) := by
  unfold assertInteger isIntegerNum numVal
  simp only [h1]
  rw [if_neg (by simp), if_pos h]

theorem jsBigInt_num_err (q : ℚ) (t : String) (h : q.den ≠ 1) :
    jsBigInt (.num (.finite q)) t = .error (.bigintConvert t) := by
  unfold jsBigInt
  simp [h]

theorem assertFinite_err (n : JsNum) (t : String)
    (hn : n = .nan ∨ n = .inf ∨ n = .negInf) :
    assertFinite (.num n) t = some (.notFinite t) := by
  rcases hn with rfl | rfl | rfl <;> rfl

theorem assertBigIntRange_err (v lo hi : ℤ) (t : String) (h : v < lo ∨ hi < v) :
    assertBigIntRange v lo hi t = some (.outOfRange t (v : ℚ) (lo : ℚ) (hi : ℚ)) := by
  unfold assertBigIntRange
  rw [if_pos h]

/-- Counterexample to C4 as stated: writing the non-integer value `1/2` to
an INT8 field fails, but with the not-an-integer error (which names only
the type), not with an out-of-range error naming the type, value, and
bounds. -/
theorem c4_counterexample :
    write (.mk (.scalar .INT8) 0 1) [0] (.num (.finite (mkRat 1 2))) 0
        = ([0], some (.notInteger "INT8")) ∧
      Err.notInteger "INT8" ≠ Err.outOfRange "INT8" (mkRat 1 2) (-128) 127 := by
  constructor
  · rfl
  · decide

/-- C4 (amended): write-side validation.  For each integer type up to 32
bits, a non-integer value fails with a not-an-integer error naming only
the type, and an integer outside `[min, max]` fails with an out-of-range
error naming the type, the value and both bounds; for the 64-bit types a
non-integer value fails with the `BigInt`-conversion error and an
out-of-range integer fails with the out-of-range error; for the float
types, NaN and ±Infinity fail with a not-finite error naming the type.
In every failure case the buffer is returned unchanged — nothing is
written.  INT8 in particular rejects 200 with the out-of-range error and
accepts 127, which then reads back as 127. -/
theorem c4_write_validation :
    (∀ dt t mn mx buf doff sz off (q : ℚ), intInfo dt = some (t, mn, mx) →
      q.den ≠ 1 →
      write (.mk (.scalar dt) doff sz) buf (.num (.finite q)) off
        = (buf, some (.notInteger t))) ∧
    (∀ dt t mn mx buf doff sz off (q : ℚ), intInfo dt = some (t, mn, mx) →
      q.den = 1 → (q < mn ∨ mx < q) →
      write (.mk (.scalar dt) doff sz) buf (.num (.finite q)) off
        = (buf, some (.outOfRange t q mn mx))) ∧
    (∀ dt t buf doff sz off (q : ℚ), int64Name dt = some t →
      q.den ≠ 1 →
      write (.mk (.scalar dt) doff sz) buf (.num (.finite q)) off
        = (buf, some (.bigintConvert t))) ∧
    (∀ dt t lo hi buf doff sz off (v : ℤ), int64Name dt = some t →
      int64Bounds dt = some (lo, hi) → (v < lo ∨ hi < v) →
      write (.mk (.scalar dt) doff sz) buf (.big v) off
        = (buf, some (.outOfRange t (v : ℚ) (lo : ℚ) (hi : ℚ)))) ∧
    (∀ dt t buf doff sz off (n : JsNum), floatName dt = some t →
      (n = .nan ∨ n = .inf ∨ n = .negInf) →
      write (.mk (.scalar dt) doff sz) buf (.num n) off
        = (buf, some (.notFinite t))) ∧
    (write (.mk (.scalar .INT8) 0 1) [0] (.num (.finite 200)) 0
        = ([0], some (.outOfRange "INT8" 200 (-128) 127)) ∧
      write (.mk (.scalar .INT8) 0 1) [0] (.num (.finite 127)) 0 = ([127], none) ∧
      read (.mk (.scalar .INT8) 0 1) [127] 0 = .ok (.num (.finite 127))) := by
  refine ⟨?_, ?_, ?_, ?_, ?_, by rfl, by rfl, by rfl⟩
  · intro dt t mn mx buf doff sz off q hdt hden
    cases dt <;> try simp [intInfo] at hdt
    all_goals
      (obtain ⟨rfl, rfl, rfl⟩ := hdt
       simp only [write, AlignedData.type, AlignedData.offset,
         assertInteger_notInt q _ _ _ hden])
  · intro dt t mn mx buf doff sz off q hdt hden hor
    cases dt <;> try simp [intInfo] at hdt
    all_goals
      (obtain ⟨rfl, rfl, rfl⟩ := hdt
       simp only [write, AlignedData.type, AlignedData.offset,
         assertInteger_range q _ _ _ hden hor])
  · intro dt t buf doff sz off q hdt hden
    cases dt <;> try simp [int64Name] at hdt
    all_goals
      (subst hdt
       simp only [write, AlignedData.type, AlignedData.offset,
         jsBigInt_num_err q _ hden])
  · intro dt t lo hi buf doff sz off v hdt hbnd hv
    cases dt <;> try simp [int64Name] at hdt
    all_goals
      (subst hdt
       simp only [int64Bounds, Option.some.injEq, Prod.mk.injEq] at hbnd
       obtain ⟨rfl, rfl⟩ := hbnd
       simp only [write, AlignedData.type, AlignedData.offset, jsBigInt]
       first
       | (have hb : ((1 <<< 63 : ℕ) : ℤ) = 2 ^ 63 := by
            norm_num [Nat.shiftLeft_eq]
          simp only [hb, assertBigIntRange_err v (-(2 ^ 63)) (2 ^ 63 - 1) _ hv])
       | (have hb : ((1 <<< 64 : ℕ) : ℤ) = 2 ^ 64 := by
            norm_num [Nat.shiftLeft_eq]
          simp only [hb, assertBigIntRange_err v 0 (2 ^ 64 - 1) _ hv]))
  · intro dt t buf doff sz off n hdt hn
    cases dt <;> try simp [floatName] at hdt
    all_goals
      (subst hdt
       simp only [write, AlignedData.type, AlignedData.offset,
         assertFinite_err n _ hn])

/-- Witness for C4 (amended): INT8 rejects the non-integer `1/2` with the
not-an-integer error and the out-of-range 200 with the full out-of-range
error, and INT64 rejects the out-of-range integer `2^63` with the
out-of-range error, leaving the buffer untouched each time. -/
theorem c4_write_validation_witness :
    write (.mk (.scalar .INT8) 0 1) [5] (.num (.finite (mkRat 1 2))) 0
        = ([5], some (.notInteger "INT8")) ∧
      write (.mk (.scalar .INT8) 0 1) [5] (.num (.finite 200)) 0
        = ([5], some (.outOfRange "INT8" 200 (-128) 127)) ∧
      write (.mk (.scalar .INT64LE) 0 8) [5] (.big (2 ^ 63)) 0
        = ([5], some (.outOfRange "INT64" ((2 ^ 63 : ℤ) : ℚ)
            ((-(2 ^ 63) : ℤ) : ℚ) ((2 ^ 63 - 1 : ℤ) : ℚ))) :=
  ⟨c4_write_validation.1 .INT8 "INT8" (-128) 127 [5] 0 1 0 (mkRat 1 2) rfl (by decide),
   c4_write_validation.2.1 .INT8 "INT8" (-128) 127 [5] 0 1 0 200 rfl (by decide)
     (by norm_num),
   c4_write_validation.2.2.2.1 .INT64LE "INT64" (-(2 ^ 63)) (2 ^ 63 - 1) [5] 0 8 0
     (2 ^ 63) rfl rfl (by omega)⟩

/-! ### Layout lemmas: `alignUp` and `alignFields` -/

theorem land_decomp (a b : ℕ) :
    a &&& b = 2 * ((a / 2) &&& (b / 2)) + (a % 2) * (b % 2) := by
  apply Nat.eq_of_testBit_eq
  intro i
  cases i with
  | zero =>
    have hr : (a % 2) * (b % 2) ≤ 1 := by
      rcases Nat.mod_two_eq_zero_or_one a with h | h <;>
        rcases Nat.mod_two_eq_zero_or_one b with h2 | h2 <;> simp [h, h2]
    rw [Nat.testBit_land]
    rw [Nat.testBit_zero, Nat.testBit_zero, Nat.testBit_zero]
    rcases Nat.mod_two_eq_zero_or_one a with h | h <;>
      rcases Nat.mod_two_eq_zero_or_one b with h2 | h2 <;>
        simp [h, h2, Nat.mul_add_mod, Nat.add_mul_mod_self_left] <;> omega
  | succ i =>
    have hr : (a % 2) * (b % 2) ≤ 1 := by
      rcases Nat.mod_two_eq_zero_or_one a with h | h <;>
        rcases Nat.mod_two_eq_zero_or_one b with h2 | h2 <;> simp [h, h2]
    have hdiv : (2 * ((a / 2) &&& (b / 2)) + (a % 2) * (b % 2)) / 2 = (a / 2) &&& (b / 2) := by
      omega
    conv_lhs => rw [Nat.testBit_land]
    simp only [Nat.testBit_succ, hdiv]
    rw [← Nat.testBit_land]

theorem land_compl_part (W : ℕ) : ∀ x m : ℕ, x < 2 ^ W → m < 2 ^ W →
    (x &&& (2 ^ W - 1 - m)) + (x &&& m) = x := by
  induction W with
  | zero =>
    intro x m hx hm
    simp only [pow_zero] at hx hm
    have hx0 : x = 0 := by omega
    have hm0 : m = 0 := by omega
    subst hx0
    subst hm0
    rfl
  | succ W ih =>
    intro x m hx hm
    have hp : 2 ^ (W + 1) = 2 * 2 ^ W := by rw [pow_succ]; ring
    have hx2 : x / 2 < 2 ^ W := by omega
    have hm2 : m / 2 < 2 ^ W := by omega
    have hkey := ih (x / 2) (m / 2) hx2 hm2
    have hc : (2 ^ (W + 1) - 1 - m) / 2 = 2 ^ W - 1 - m / 2 := by omega
    have hcm : (2 ^ (W + 1) - 1 - m) % 2 = 1 - m % 2 := by omega
    rw [land_decomp x (2 ^ (W + 1) - 1 - m), land_decomp x m, hc, hcm]
    rcases Nat.mod_two_eq_zero_or_one m with h | h <;> rw [h] <;>
      rcases Nat.mod_two_eq_zero_or_one x with h2 | h2 <;> rw [h2] <;> omega

theorem land_high_mask (x j W : ℕ) (hj : j ≤ W) (hx : x < 2 ^ W) :
    x &&& (2 ^ W - 2 ^ j) = x - x % 2 ^ j := by
  have hmask : 2 ^ W - 2 ^ j = (2 ^ (W - j) - 1) <<< j := by
    rw [Nat.shiftLeft_eq, Nat.sub_mul, one_mul, ← pow_add, Nat.sub_add_cancel hj]
  have hrhs : x - x % 2 ^ j = (x >>> j) <<< j := by
    rw [Nat.shiftRight_eq_div_pow, Nat.shiftLeft_eq]
    have hdm := Nat.div_add_mod x (2 ^ j)
    have hcm : 2 ^ j * (x / 2 ^ j) = x / 2 ^ j * 2 ^ j := Nat.mul_comm _ _
    omega
  rw [hmask, hrhs]
  apply Nat.eq_of_testBit_eq
  intro i
  rw [Nat.testBit_land, Nat.testBit_shiftLeft, Nat.testBit_shiftLeft,
      Nat.testBit_shiftRight, Nat.testBit_two_pow_sub_one]
  by_cases hij : j ≤ i
  · by_cases hiW : i < W
    · have h1 : i - j < W - j := by omega
      simp [hij, h1, show j + (i - j) = i by omega]
    · have h1 : ¬ (i - j < W - j) := by omega
      have h2 : x.testBit i = false :=
        Nat.testBit_lt_two_pow
          (lt_of_lt_of_le hx (Nat.pow_le_pow_right (by norm_num) (by omega)))
      simp [hij, h1, show j + (i - j) = i by omega, h2]
  · simp [hij]

theorem alignUp_ge (n a : ℕ) (ha : 1 ≤ a) (hb : n + a ≤ 2 ^ 32) : n ≤ alignUp n a := by
  unfold alignUp
  rw [if_neg (by omega)]
  have hx : n + a - 1 < 2 ^ 32 := by omega
  have hm : a - 1 < 2 ^ 32 := by omega
  have hpart := land_compl_part 32 (n + a - 1) (a - 1) hx hm
  have hmask : 2 ^ 32 - 1 - (a - 1) = 2 ^ 32 - a := by omega
  rw [hmask] at hpart
  have hle : (n + a - 1) &&& (a - 1) ≤ a - 1 := Nat.and_le_right
  show n ≤ (n + a - 1) &&& (2 ^ 32 - a)
  omega

theorem alignUp_le (n a : ℕ) (ha : 1 ≤ a) : alignUp n a ≤ n + a - 1 := by
  unfold alignUp
  rw [if_neg (by omega)]
  show (n + a - 1) &&& (2 ^ 32 - a) ≤ n + a - 1
  exact Nat.and_le_left

theorem alignUp_pow2 (n j : ℕ) (hj : j ≤ 32) (hb : n + 2 ^ j ≤ 2 ^ 32) :
    alignUp n (2 ^ j) = specCeil n (2 ^ j) := by
  unfold alignUp specCeil
  rw [if_neg (by positivity)]
  show (n + 2 ^ j - 1) &&& (2 ^ 32 - 2 ^ j) = _
  rw [land_high_mask _ j 32 hj (by omega)]
  have hdm := Nat.div_add_mod (n + 2 ^ j - 1) (2 ^ j)
  have hcm : 2 ^ j * ((n + 2 ^ j - 1) / 2 ^ j) = ((n + 2 ^ j - 1) / 2 ^ j) * 2 ^ j :=
    Nat.mul_comm _ _
  omega

theorem specCeil_le (n s : ℕ) (hs : 1 ≤ s) : specCeil n s ≤ n + s - 1 := by
  unfold specCeil
  exact Nat.div_mul_le_self _ _

theorem alignFieldsAux_packed (data : List (String × Ty)) :
    ∀ (off ma : ℕ) (seen : List String),
      (∀ k ∈ data.map Prod.fst, k ∉ seen) → (data.map Prod.fst).Nodup →
      alignFieldsAux true data off ma seen =
        .ok (packedPlan data off, off + (data.map fun p => sizeof p.2).sum, ma) := by
  induction data with
  | nil =>
    intro off ma seen _ _
    simp [alignFieldsAux, packedPlan]
  | cons p rest ih =>
    intro off ma seen hseen hnod
    obtain ⟨k, m⟩ := p
    have hk : k ∉ seen := hseen k (by simp)
    simp only [List.map_cons, List.nodup_cons] at hnod
    have hrest : ∀ k2 ∈ rest.map Prod.fst, k2 ∉ k :: seen := by
      intro k2 hk2
      simp only [List.mem_cons]
      push_neg
      exact ⟨fun he => hnod.1 (he ▸ hk2), hseen k2 (by simp [hk2])⟩
    simp only [alignFieldsAux, if_true, if_neg hk]
    rw [ih (off + sizeof m) ma (k :: seen) hrest hnod.2]
    simp [packedPlan, Except.map]
    omega

theorem max_pow2 (a b : ℕ) (ha : ∃ i, a = 2 ^ i) (hb : ∃ i, b = 2 ^ i) :
    ∃ i, max a b = 2 ^ i := by
  rcases max_choice a b with h | h <;> rw [h] <;> assumption

theorem alignFieldsAux_aligned (data : List (String × Ty)) :
    ∀ (off ma : ℕ) (seen : List String),
      (∀ k ∈ data.map Prod.fst, k ∉ seen) → (data.map Prod.fst).Nodup →
      (∀ p ∈ data, ∃ j, sizeof p.2 = 2 ^ j) →
      (∃ i, ma = 2 ^ i) → ma ≤ 2 ^ 31 →
      off + 2 * (data.map fun p => sizeof p.2).sum ≤ 2 ^ 31 →
      alignFieldsAux false data off ma seen = .ok (alignedPlanAux data off ma) ∧
      (alignedPlanAux data off ma).2.1 ≤ 2 ^ 31 ∧
      (∃ i, (alignedPlanAux data off ma).2.2 = 2 ^ i) ∧
      (alignedPlanAux data off ma).2.2 ≤ 2 ^ 31 := by
  induction data with
  | nil =>
    intro off ma seen _ _ _ hma hma31 hbound
    refine ⟨by simp [alignFieldsAux, alignedPlanAux], ?_, hma, hma31⟩
    simp only [alignedPlanAux]
    omega
  | cons p rest ih =>
    intro off ma seen hseen hnod hpow hma hma31 hbound
    obtain ⟨k, m⟩ := p
    have hk : k ∉ seen := hseen k (by simp)
    simp only [List.map_cons, List.nodup_cons] at hnod
    have hrest : ∀ k2 ∈ rest.map Prod.fst, k2 ∉ k :: seen := by
      intro k2 hk2
      simp only [List.mem_cons]
      push_neg
      exact ⟨fun he => hnod.1 (he ▸ hk2), hseen k2 (by simp [hk2])⟩
    obtain ⟨j, hj0⟩ := hpow (k, m) (by simp)
    have hj : sizeof m = 2 ^ j := hj0
    have hsum : (((k, m) :: rest).map fun p => sizeof p.2).sum =
        sizeof m + (rest.map fun p => sizeof p.2).sum := by simp
    have hs1 : 1 ≤ sizeof m := hj ▸ Nat.one_le_two_pow
    have hs31 : sizeof m ≤ 2 ^ 31 := by omega
    have hj32 : j ≤ 32 := by
      by_contra hcon
      have h1 : 2 ^ 33 ≤ 2 ^ j := Nat.pow_le_pow_right (by norm_num) (by omega)
      rw [← hj] at h1
      omega
    have halign : alignUp off (sizeof m) = specCeil off (sizeof m) := by
      rw [hj]
      exact alignUp_pow2 off j hj32 (by rw [← hj]; omega)
    have hceil : specCeil off (sizeof m) ≤ off + sizeof m - 1 :=
      specCeil_le off (sizeof m) hs1
    have hih := ih (specCeil off (sizeof m) + sizeof m) (max ma (sizeof m)) (k :: seen)
      hrest hnod.2 (fun p hp => hpow p (by simp [hp]))
      (max_pow2 ma (sizeof m) hma ⟨j, hj⟩) (by omega) (by omega)
    refine ⟨?_, ?_, ?_, ?_⟩
    · simp only [alignFieldsAux, Bool.false_eq_true, if_false, if_neg hk, halign]
      rw [hih.1]
      simp [alignedPlanAux, Except.map, halign]
    · simpa [alignedPlanAux, halign] using hih.2.1
    · simpa [alignedPlanAux, halign] using hih.2.2.1
    · simpa [alignedPlanAux, halign] using hih.2.2.2

/-- **C2** (amended): for every schema with pairwise-distinct field names,
the layout planner iterates fields in declaration order with a running
offset.  In packed mode each field's offset is the exact sum of the
preceding fields' sizes and the total equals that sum.  In aligned
(`packed = false`) mode, *provided every field size is a power of two*
(the planner's bitmask arithmetic agrees with the spec's
`ceil(offset / size) * size` formula only then; the claim's "need not be a
power of two" is wrong) and the sizes stay within 2^31, each field's
offset is the running offset rounded up with the ceil formula to a
multiple of its own size, and the total size is the final offset rounded
up to a multiple of the largest field size seen. -/
theorem c2_layout_planner (data : List (String × Ty))
    (hnod : (data.map Prod.fst).Nodup) :
    alignFields data true =
      .ok (packedPlan data 0, (data.map fun p => sizeof p.2).sum) ∧
    ((∀ p ∈ data, ∃ j, sizeof p.2 = 2 ^ j) →
     2 * (data.map fun p => sizeof p.2).sum ≤ 2 ^ 31 →
     alignFields data false = .ok (alignedPlan data)) := by
  constructor
  · unfold alignFields
    rw [alignFieldsAux_packed data 0 1 [] (by simp) hnod]
    simp [Except.map]
  · intro hpow hbound
    unfold alignFields alignedPlan
    obtain ⟨heq, hfin, hma, hma31⟩ :=
      alignFieldsAux_aligned data 0 1 [] (by simp) hnod hpow ⟨0, by norm_num⟩
        (by norm_num) (by omega)
    rw [heq]
    obtain ⟨i, hi⟩ := hma
    have hi32 : i ≤ 32 := by
      by_contra hcon
      have h1 : 2 ^ 33 ≤ 2 ^ i := Nat.pow_le_pow_right (by norm_num) (by omega)
      rw [← hi] at h1
      omega
    simp only [Except.map, Bool.false_eq_true, if_false]
    rw [hi, alignUp_pow2 _ i hi32 (by rw [← hi]; omega), ← hi]

/-- **C2** counterexample to the claim as stated: for a field whose size is
not a power of two (an array of 3 bytes after a 1-byte field), the
planner's bitmask arithmetic places it at offset 1, while the claim's
`ceil(offset / size) * size` formula demands offset 3. -/
theorem c2_counterexample :
    (alignFields [("a", Ty.scalar .UINT8), ("b", Ty.arr (Ty.scalar .UINT8) 3)]
        false).map (fun r => r.1.map fun p => (p.1, p.2.offset)) =
      .ok [("a", 0), ("b", 1)] ∧
    specCeil 1 (sizeof (Ty.arr (Ty.scalar .UINT8) 3)) = 3 ∧ (1 : ℕ) ≠ 3 :=
  ⟨rfl, rfl, by decide⟩

theorem c2_layout_planner_witness :
    (([("x", Ty.scalar .UINT32LE), ("y", Ty.scalar .UINT8),
       ("z", Ty.scalar .UINT16LE)].map Prod.fst).Nodup) ∧
    (alignFields [("x", Ty.scalar .UINT32LE), ("y", Ty.scalar .UINT8),
        ("z", Ty.scalar .UINT16LE)] true =
      .ok (packedPlan [("x", Ty.scalar .UINT32LE), ("y", Ty.scalar .UINT8),
        ("z", Ty.scalar .UINT16LE)] 0,
        ([("x", Ty.scalar .UINT32LE), ("y", Ty.scalar .UINT8),
          ("z", Ty.scalar .UINT16LE)].map fun p => sizeof p.2).sum) ∧
     alignFields [("x", Ty.scalar .UINT32LE), ("y", Ty.scalar .UINT8),
        ("z", Ty.scalar .UINT16LE)] false =
      .ok (alignedPlan [("x", Ty.scalar .UINT32LE), ("y", Ty.scalar .UINT8),
        ("z", Ty.scalar .UINT16LE)])) :=
  ⟨by decide,
   (c2_layout_planner [("x", Ty.scalar .UINT32LE), ("y", Ty.scalar .UINT8),
      ("z", Ty.scalar .UINT16LE)] (by decide)).1,
   (c2_layout_planner [("x", Ty.scalar .UINT32LE), ("y", Ty.scalar .UINT8),
      ("z", Ty.scalar .UINT16LE)] (by decide)).2
    (by
      intro p hp
      simp only [List.mem_cons, List.not_mem_nil, or_false] at hp
      rcases hp with rfl | rfl | rfl
      · exact ⟨2, rfl⟩
      · exact ⟨0, rfl⟩
      · exact ⟨1, rfl⟩)
    (by decide)⟩

theorem alignFieldsAux_inv (packed : Bool) (data : List (String × Ty)) :
    ∀ (off ma : ℕ) (seen : List String) (flds : List (String × AlignedData))
      (fin ma2 : ℕ),
      (∀ p ∈ data, 1 ≤ sizeof p.2) →
      off + 2 * (data.map fun p => sizeof p.2).sum ≤ 2 ^ 31 →
      alignFieldsAux packed data off ma seen = .ok (flds, fin, ma2) →
      off ≤ fin ∧ fin ≤ off + 2 * (data.map fun p => sizeof p.2).sum ∧
      ma ≤ ma2 ∧ ma2 ≤ max ma ((data.map fun p => sizeof p.2).sum) ∧
      (∀ p ∈ flds, off ≤ p.2.offset ∧ p.2.offset + p.2.size ≤ fin ∧
        1 ≤ p.2.size) ∧
      flds.Pairwise (fun a b => a.2.offset + a.2.size ≤ b.2.offset) := by
  induction data with
  | nil =>
    intro off ma seen flds fin ma2 _ _ hok
    simp only [alignFieldsAux, Except.ok.injEq, Prod.mk.injEq] at hok
    obtain ⟨rfl, rfl, rfl⟩ := hok
    simp
  | cons p rest ih =>
    intro off ma seen flds fin ma2 hpos hbound hok
    obtain ⟨k, m⟩ := p
    by_cases hk : k ∈ seen
    · simp [alignFieldsAux, hk] at hok
    · have hs1 : 1 ≤ sizeof m := hpos (k, m) (by simp)
      have hsum : (((k, m) :: rest).map fun p => sizeof p.2).sum =
          sizeof m + (rest.map fun p => sizeof p.2).sum := by simp
      simp only [alignFieldsAux, if_neg hk] at hok
      have ho2ge : off ≤ (if packed = true then off else alignUp off (sizeof m)) := by
        cases packed
        · simpa using alignUp_ge off (sizeof m) hs1 (by omega)
        · simp
      have ho2le : (if packed = true then off else alignUp off (sizeof m)) ≤
          off + sizeof m - 1 := by
        cases packed
        · simpa using alignUp_le off (sizeof m) hs1
        · simp
          omega
      have hma1ge : ma ≤ (if packed = true then ma else max ma (sizeof m)) := by
        cases packed <;> simp
      have hma1le : (if packed = true then ma else max ma (sizeof m)) ≤
          max ma (sizeof m) := by
        cases packed <;> simp
      cases hrec : alignFieldsAux packed rest
          ((if packed = true then off else alignUp off (sizeof m)) + sizeof m)
          (if packed = true then ma else max ma (sizeof m)) (k :: seen) with
      | error e =>
        rw [hrec] at hok
        simp [Except.map] at hok
      | ok r =>
        rw [hrec] at hok
        obtain ⟨r1, rfin, rma⟩ := r
        simp only [Except.map, Except.ok.injEq, Prod.mk.injEq] at hok
        obtain ⟨rfl, rfl, rfl⟩ := hok
        have hihr := ih ((if packed = true then off else alignUp off (sizeof m)) + sizeof m)
          (if packed = true then ma else max ma (sizeof m)) (k :: seen) r1 rfin rma
          (fun p hp => hpos p (by simp [hp])) (by omega) hrec
        obtain ⟨hA, hB, hC, hD, hE, hF⟩ := hihr
        refine ⟨by omega, by omega, by omega, by omega, ?_, ?_⟩
        · intro p hp
          rcases List.mem_cons.mp hp with rfl | hp2
          · exact ⟨ho2ge, hA, hs1⟩
          · obtain ⟨h1, h2, h3⟩ := hE p hp2
            exact ⟨by omega, by omega, h3⟩
        · refine List.pairwise_cons.mpr ⟨?_, hF⟩
          intro b hb
          obtain ⟨h1, h2, h3⟩ := hE b hb
          exact h1

/-- **C10** (amended): for every schema all of whose field sizes are at
least 1 (in particular no zero-length array fields) and whose sizes sum
below 2^30, and for both packed and aligned mode, the planner's accepted
layout places fields at non-decreasing offsets with pairwise-disjoint byte
ranges `[offset, offset + size)`, and every field lies inside the
structure's total size, so reads and writes at the planned offsets touch
no other field's bytes and stay inside the allocated buffer. -/
theorem c10_layout_disjoint (data : List (String × Ty)) (packed : Bool)
    (hpos : ∀ p ∈ data, 1 ≤ sizeof p.2)
    (hbound : 2 * (data.map fun p => sizeof p.2).sum ≤ 2 ^ 31)
    (flds : List (String × AlignedData)) (total : ℕ)
    (hok : alignFields data packed = .ok (flds, total)) :
    flds.Pairwise (fun a b => a.2.offset + a.2.size ≤ b.2.offset) ∧
    flds.Pairwise (fun a b => a.2.offset ≤ b.2.offset) ∧
    ∀ p ∈ flds, p.2.offset + p.2.size ≤ total := by
  unfold alignFields at hok
  cases haux : alignFieldsAux packed data 0 1 [] with
  | error e =>
    rw [haux] at hok
    simp [Except.map] at hok
  | ok r =>
    obtain ⟨r1, rfin, rma⟩ := r
    rw [haux] at hok
    simp only [Except.map, Except.ok.injEq, Prod.mk.injEq] at hok
    obtain ⟨rfl, rfl⟩ := hok
    obtain ⟨hA, hB, hC, hD, hE, hF⟩ :=
      alignFieldsAux_inv packed data 0 1 [] r1 rfin rma hpos (by omega) haux
    have htot : rfin ≤ (if packed = true then rfin else alignUp rfin rma) := by
      cases packed
      · simp only [Bool.false_eq_true, if_false]
        exact alignUp_ge rfin rma (by omega) (by omega)
      · simp
    refine ⟨hF, hF.imp fun hab => le_trans (Nat.le_add_right _ _) hab, ?_⟩
    intro p hp
    obtain ⟨h1, h2, h3⟩ := hE p hp
    omega

/-- **C10** counterexample to the claim as stated: the planner accepts a
schema with a zero-length array field, for which the aligned mode's
`alignUp(offset, 0) = 0` resets the running offset, so the following
1-byte field "c" is planned at offset 0 inside the 2-byte field "a" —
the byte ranges of distinct fields are not pairwise disjoint. -/
theorem c10_counterexample :
    ∃ r, alignFields [("a", Ty.scalar .UINT16LE), ("b", Ty.arr (Ty.scalar .UINT8) 0),
        ("c", Ty.scalar .UINT8)] false = .ok r ∧
      ¬ r.1.Pairwise (fun a b => a.2.offset + a.2.size ≤ b.2.offset ∨
          b.2.offset + b.2.size ≤ a.2.offset) :=
  ⟨([("a", AlignedData.mk (Ty.scalar .UINT16LE) 0 2),
     ("b", AlignedData.mk (Ty.arr (Ty.scalar .UINT8) 0) 0 0),
     ("c", AlignedData.mk (Ty.scalar .UINT8) 0 1)], 2), rfl, by decide⟩

theorem c10_layout_disjoint_witness :
    (∀ p ∈ [("a", Ty.scalar .UINT8), ("b", Ty.scalar .UINT16LE)], 1 ≤ sizeof p.2) ∧
    ([(("a" : String), AlignedData.mk (Ty.scalar .UINT8) 0 1),
      ("b", AlignedData.mk (Ty.scalar .UINT16LE) 2 2)].Pairwise
        (fun a b => a.2.offset + a.2.size ≤ b.2.offset) ∧
     [(("a" : String), AlignedData.mk (Ty.scalar .UINT8) 0 1),
      ("b", AlignedData.mk (Ty.scalar .UINT16LE) 2 2)].Pairwise
        (fun a b => a.2.offset ≤ b.2.offset) ∧
     ∀ p ∈ [(("a" : String), AlignedData.mk (Ty.scalar .UINT8) 0 1),
      ("b", AlignedData.mk (Ty.scalar .UINT16LE) 2 2)],
        p.2.offset + p.2.size ≤ 4) :=
  ⟨by decide, c10_layout_disjoint [("a", Ty.scalar .UINT8), ("b", Ty.scalar .UINT16LE)]
    false (by decide) (by decide)
    [(("a" : String), AlignedData.mk (Ty.scalar .UINT8) 0 1),
     ("b", AlignedData.mk (Ty.scalar .UINT16LE) 2 2)] 4 rfl⟩

theorem write_scalar_success (dt : DataType) (d s0 : ℕ) (buffer : List ℕ) (v : Val)
    (off : ℕ) (b : List ℕ)
    (h : write (AlignedData.mk (Ty.scalar dt) d s0) buffer v off = (b, none)) :
    ∃ bs, bs.length = getDataTypeSize dt ∧
      off + d + getDataTypeSize dt ≤ buffer.length ∧
      b = writeBytes buffer (off + d) bs ∧
      ∀ (buf2 : List ℕ) (d2 off2 : ℕ), off2 + d2 + getDataTypeSize dt ≤ buf2.length →
        write (AlignedData.mk (Ty.scalar dt) d2 s0) buf2 v off2 =
          (writeBytes buf2 (off2 + d2) bs, none) := by
  cases dt with
  | INT8 =>
    simp only [write, AlignedData.type, AlignedData.offset, getDataTypeSize] at h ⊢
    cases hval : assertInteger v (-128) 127 "INT8" with
    | some e => simp [hval] at h
    | none =>
      simp only [hval, storeIntLE, storeBytes] at h
      split at h
      case isTrue hb =>
        simp only [Prod.mk.injEq] at h
        obtain ⟨hbuf, -⟩ := h
        subst hbuf
        refine ⟨natToBytesLE (intToNat2c (numVal v).num (8 * 1)) 1,
          natToBytesLE_length _ _, ?_, rfl, ?_⟩
        · have hl := natToBytesLE_length (intToNat2c (numVal v).num (8 * 1)) 1
          omega
        · intro buf2 d2 off2 hb2
          simp only [hval, storeIntLE, storeBytes, natToBytesLE_length]
          rw [if_pos (by omega)]
      case isFalse hb => simp at h
  | UINT8 =>
    simp only [write, AlignedData.type, AlignedData.offset, getDataTypeSize] at h ⊢
    cases hval : assertInteger v 0 0xff "UINT8" with
    | some e => simp [hval] at h
    | none =>
      simp only [hval, storeIntLE, storeBytes] at h
      split at h
      case isTrue hb =>
        simp only [Prod.mk.injEq] at h
        obtain ⟨hbuf, -⟩ := h
        subst hbuf
        refine ⟨natToBytesLE (intToNat2c (numVal v).num (8 * 1)) 1,
          natToBytesLE_length _ _, ?_, rfl, ?_⟩
        · have hl := natToBytesLE_length (intToNat2c (numVal v).num (8 * 1)) 1
          omega
        · intro buf2 d2 off2 hb2
          simp only [hval, storeIntLE, storeBytes, natToBytesLE_length]
          rw [if_pos (by omega)]
      case isFalse hb => simp at h
  | INT16LE =>
    simp only [write, AlignedData.type, AlignedData.offset, getDataTypeSize] at h ⊢
    cases hval : assertInteger v (-0x8000) 0x7fff "INT16" with
    | some e => simp [hval] at h
    | none =>
      simp only [hval, storeIntLE, storeBytes] at h
      split at h
      case isTrue hb =>
        simp only [Prod.mk.injEq] at h
        obtain ⟨hbuf, -⟩ := h
        subst hbuf
        refine ⟨natToBytesLE (intToNat2c (numVal v).num (8 * 2)) 2,
          natToBytesLE_length _ _, ?_, rfl, ?_⟩
        · have hl := natToBytesLE_length (intToNat2c (numVal v).num (8 * 2)) 2
          omega
        · intro buf2 d2 off2 hb2
          simp only [hval, storeIntLE, storeBytes, natToBytesLE_length]
          rw [if_pos (by omega)]
      case isFalse hb => simp at h
  | INT16BE =>
    simp only [write, AlignedData.type, AlignedData.offset, getDataTypeSize] at h ⊢
    cases hval : assertInteger v (-0x8000) 0x7fff "INT16" with
    | some e => simp [hval] at h
    | none =>
      simp only [hval, storeIntBE, storeBytes] at h
      split at h
      case isTrue hb =>
        simp only [Prod.mk.injEq] at h
        obtain ⟨hbuf, -⟩ := h
        subst hbuf
        refine ⟨natToBytesBE (intToNat2c (numVal v).num (8 * 2)) 2,
          natToBytesBE_length _ _, ?_, rfl, ?_⟩
        · have hl := natToBytesBE_length (intToNat2c (numVal v).num (8 * 2)) 2
          omega
        · intro buf2 d2 off2 hb2
          simp only [hval, storeIntBE, storeBytes, natToBytesBE_length]
          rw [if_pos (by omega)]
      case isFalse hb => simp at h
  | UINT16LE =>
    simp only [write, AlignedData.type, AlignedData.offset, getDataTypeSize] at h ⊢
    cases hval : assertInteger v 0 0xffff "UINT16" with
    | some e => simp [hval] at h
    | none =>
      simp only [hval, storeIntLE, storeBytes] at h
      split at h
      case isTrue hb =>
        simp only [Prod.mk.injEq] at h
        obtain ⟨hbuf, -⟩ := h
        subst hbuf
        refine ⟨natToBytesLE (intToNat2c (numVal v).num (8 * 2)) 2,
          natToBytesLE_length _ _, ?_, rfl, ?_⟩
        · have hl := natToBytesLE_length (intToNat2c (numVal v).num (8 * 2)) 2
          omega
        · intro buf2 d2 off2 hb2
          simp only [hval, storeIntLE, storeBytes, natToBytesLE_length]
          rw [if_pos (by omega)]
      case isFalse hb => simp at h
  | UINT16BE =>
    simp only [write, AlignedData.type, AlignedData.offset, getDataTypeSize] at h ⊢
    cases hval : assertInteger v 0 0xffff "UINT16" with
    | some e => simp [hval] at h
    | none =>
      simp only [hval, storeIntBE, storeBytes] at h
      split at h
      case isTrue hb =>
        simp only [Prod.mk.injEq] at h
        obtain ⟨hbuf, -⟩ := h
        subst hbuf
        refine ⟨natToBytesBE (intToNat2c (numVal v).num (8 * 2)) 2,
          natToBytesBE_length _ _, ?_, rfl, ?_⟩
        · have hl := natToBytesBE_length (intToNat2c (numVal v).num (8 * 2)) 2
          omega
        · intro buf2 d2 off2 hb2
          simp only [hval, storeIntBE, storeBytes, natToBytesBE_length]
          rw [if_pos (by omega)]
      case isFalse hb => simp at h
  | INT32LE =>
    simp only [write, AlignedData.type, AlignedData.offset, getDataTypeSize] at h ⊢
    cases hval : assertInteger v (-0x80000000) 0x7fffffff "INT32" with
    | some e => simp [hval] at h
    | none =>
      simp only [hval, storeIntLE, storeBytes] at h
      split at h
      case isTrue hb =>
        simp only [Prod.mk.injEq] at h
        obtain ⟨hbuf, -⟩ := h
        subst hbuf
        refine ⟨natToBytesLE (intToNat2c (numVal v).num (8 * 4)) 4,
          natToBytesLE_length _ _, ?_, rfl, ?_⟩
        · have hl := natToBytesLE_length (intToNat2c (numVal v).num (8 * 4)) 4
          omega
        · intro buf2 d2 off2 hb2
          simp only [hval, storeIntLE, storeBytes, natToBytesLE_length]
          rw [if_pos (by omega)]
      case isFalse hb => simp at h
  | INT32BE =>
    simp only [write, AlignedData.type, AlignedData.offset, getDataTypeSize] at h ⊢
    cases hval : assertInteger v (-0x80000000) 0x7fffffff "INT32" with
    | some e => simp [hval] at h
    | none =>
      simp only [hval, storeIntBE, storeBytes] at h
      split at h
      case isTrue hb =>
        simp only [Prod.mk.injEq] at h
        obtain ⟨hbuf, -⟩ := h
        subst hbuf
        refine ⟨natToBytesBE (intToNat2c (numVal v).num (8 * 4)) 4,
          natToBytesBE_length _ _, ?_, rfl, ?_⟩
        · have hl := natToBytesBE_length (intToNat2c (numVal v).num (8 * 4)) 4
          omega
        · intro buf2 d2 off2 hb2
          simp only [hval, storeIntBE, storeBytes, natToBytesBE_length]
          rw [if_pos (by omega)]
      case isFalse hb => simp at h
  | UINT32LE =>
    simp only [write, AlignedData.type, AlignedData.offset, getDataTypeSize] at h ⊢
    cases hval : assertInteger v 0 0xffffffff "UINT32" with
    | some e => simp [hval] at h
    | none =>
      simp only [hval, storeIntLE, storeBytes] at h
      split at h
      case isTrue hb =>
        simp only [Prod.mk.injEq] at h
        obtain ⟨hbuf, -⟩ := h
        subst hbuf
        refine ⟨natToBytesLE (intToNat2c (numVal v).num (8 * 4)) 4,
          natToBytesLE_length _ _, ?_, rfl, ?_⟩
        · have hl := natToBytesLE_length (intToNat2c (numVal v).num (8 * 4)) 4
          omega
        · intro buf2 d2 off2 hb2
          simp only [hval, storeIntLE, storeBytes, natToBytesLE_length]
          rw [if_pos (by omega)]
      case isFalse hb => simp at h
  | UINT32BE =>
    simp only [write, AlignedData.type, AlignedData.offset, getDataTypeSize] at h ⊢
    cases hval : assertInteger v 0 0xffffffff "UINT32" with
    | some e => simp [hval] at h
    | none =>
      simp only [hval, storeIntBE, storeBytes] at h
      split at h
      case isTrue hb =>
        simp only [Prod.mk.injEq] at h
        obtain ⟨hbuf, -⟩ := h
        subst hbuf
        refine ⟨natToBytesBE (intToNat2c (numVal v).num (8 * 4)) 4,
          natToBytesBE_length _ _, ?_, rfl, ?_⟩
        · have hl := natToBytesBE_length (intToNat2c (numVal v).num (8 * 4)) 4
          omega
        · intro buf2 d2 off2 hb2
          simp only [hval, storeIntBE, storeBytes, natToBytesBE_length]
          rw [if_pos (by omega)]
      case isFalse hb => simp at h
  | INT64LE =>
    simp only [write, AlignedData.type, AlignedData.offset, getDataTypeSize] at h ⊢
    cases hval : jsBigInt v "INT64" with
    | error e => simp [hval] at h
    | ok bi =>
      simp only [hval] at h ⊢
      split at h
      · simp at h
      · rename_i heq
        simp only [storeIntLE, storeBytes] at h
        split at h
        case isTrue hb =>
          simp only [Prod.mk.injEq] at h
          obtain ⟨hbuf, -⟩ := h
          subst hbuf
          refine ⟨natToBytesLE (intToNat2c bi (8 * 8)) 8,
            natToBytesLE_length _ _, ?_, rfl, ?_⟩
          · have hl := natToBytesLE_length (intToNat2c bi (8 * 8)) 8
            omega
          · intro buf2 d2 off2 hb2
            simp only [heq, storeIntLE, storeBytes, natToBytesLE_length]
            rw [if_pos (by omega)]
        case isFalse hb => simp at h
  | INT64BE =>
    simp only [write, AlignedData.type, AlignedData.offset, getDataTypeSize] at h ⊢
    cases hval : jsBigInt v "INT64" with
    | error e => simp [hval] at h
    | ok bi =>
      simp only [hval] at h ⊢
      split at h
      · simp at h
      · rename_i heq
        simp only [storeIntBE, storeBytes] at h
        split at h
        case isTrue hb =>
          simp only [Prod.mk.injEq] at h
          obtain ⟨hbuf, -⟩ := h
          subst hbuf
          refine ⟨natToBytesBE (intToNat2c bi (8 * 8)) 8,
            natToBytesBE_length _ _, ?_, rfl, ?_⟩
          · have hl := natToBytesBE_length (intToNat2c bi (8 * 8)) 8
            omega
          · intro buf2 d2 off2 hb2
            simp only [heq, storeIntBE, storeBytes, natToBytesBE_length]
            rw [if_pos (by omega)]
        case isFalse hb => simp at h
  | UINT64LE =>
    simp only [write, AlignedData.type, AlignedData.offset, getDataTypeSize] at h ⊢
    cases hval : jsBigInt v "UINT64" with
    | error e => simp [hval] at h
    | ok bi =>
      simp only [hval] at h ⊢
      split at h
      · simp at h
      · rename_i heq
        simp only [storeIntLE, storeBytes] at h
        split at h
        case isTrue hb =>
          simp only [Prod.mk.injEq] at h
          obtain ⟨hbuf, -⟩ := h
          subst hbuf
          refine ⟨natToBytesLE (intToNat2c bi (8 * 8)) 8,
            natToBytesLE_length _ _, ?_, rfl, ?_⟩
          · have hl := natToBytesLE_length (intToNat2c bi (8 * 8)) 8
            omega
          · intro buf2 d2 off2 hb2
            simp only [heq, storeIntLE, storeBytes, natToBytesLE_length]
            rw [if_pos (by omega)]
        case isFalse hb => simp at h
  | UINT64BE =>
    simp only [write, AlignedData.type, AlignedData.offset, getDataTypeSize] at h ⊢
    cases hval : jsBigInt v "UINT64" with
    | error e => simp [hval] at h
    | ok bi =>
      simp only [hval] at h ⊢
      split at h
      · simp at h
      · rename_i heq
        simp only [storeIntBE, storeBytes] at h
        split at h
        case isTrue hb =>
          simp only [Prod.mk.injEq] at h
          obtain ⟨hbuf, -⟩ := h
          subst hbuf
          refine ⟨natToBytesBE (intToNat2c bi (8 * 8)) 8,
            natToBytesBE_length _ _, ?_, rfl, ?_⟩
          · have hl := natToBytesBE_length (intToNat2c bi (8 * 8)) 8
            omega
          · intro buf2 d2 off2 hb2
            simp only [heq, storeIntBE, storeBytes, natToBytesBE_length]
            rw [if_pos (by omega)]
        case isFalse hb => simp at h
  | FLOAT32LE =>
    simp only [write, AlignedData.type, AlignedData.offset, getDataTypeSize] at h ⊢
    cases hval : assertFinite v "FLOAT32" with
    | some e => simp [hval] at h
    | none =>
      simp only [hval, storeBytes] at h
      split at h
      case isTrue hb =>
        simp only [Prod.mk.injEq] at h
        obtain ⟨hbuf, -⟩ := h
        subst hbuf
        refine ⟨natToBytesLE (fpEnc 23 8 (-126) (numVal v)) 4,
          natToBytesLE_length _ _, ?_, rfl, ?_⟩
        · have hl := natToBytesLE_length (fpEnc 23 8 (-126) (numVal v)) 4
          omega
        · intro buf2 d2 off2 hb2
          simp only [hval, storeBytes, natToBytesLE_length]
          rw [if_pos (by omega)]
      case isFalse hb => simp at h
  | FLOAT32BE =>
    simp only [write, AlignedData.type, AlignedData.offset, getDataTypeSize] at h ⊢
    cases hval : assertFinite v "FLOAT32" with
    | some e => simp [hval] at h
    | none =>
      simp only [hval, storeBytes] at h
      split at h
      case isTrue hb =>
        simp only [Prod.mk.injEq] at h
        obtain ⟨hbuf, -⟩ := h
        subst hbuf
        refine ⟨natToBytesBE (fpEnc 23 8 (-126) (numVal v)) 4,
          natToBytesBE_length _ _, ?_, rfl, ?_⟩
        · have hl := natToBytesBE_length (fpEnc 23 8 (-126) (numVal v)) 4
          omega
        · intro buf2 d2 off2 hb2
          simp only [hval, storeBytes, natToBytesBE_length]
          rw [if_pos (by omega)]
      case isFalse hb => simp at h
  | FLOAT64LE =>
    simp only [write, AlignedData.type, AlignedData.offset, getDataTypeSize] at h ⊢
    cases hval : assertFinite v "FLOAT64" with
    | some e => simp [hval] at h
    | none =>
      simp only [hval, storeBytes] at h
      split at h
      case isTrue hb =>
        simp only [Prod.mk.injEq] at h
        obtain ⟨hbuf, -⟩ := h
        subst hbuf
        refine ⟨natToBytesLE (fpEnc 52 11 (-1022) (numVal v)) 8,
          natToBytesLE_length _ _, ?_, rfl, ?_⟩
        · have hl := natToBytesLE_length (fpEnc 52 11 (-1022) (numVal v)) 8
          omega
        · intro buf2 d2 off2 hb2
          simp only [hval, storeBytes, natToBytesLE_length]
          rw [if_pos (by omega)]
      case isFalse hb => simp at h
  | FLOAT64BE =>
    simp only [write, AlignedData.type, AlignedData.offset, getDataTypeSize] at h ⊢
    cases hval : assertFinite v "FLOAT64" with
    | some e => simp [hval] at h
    | none =>
      simp only [hval, storeBytes] at h
      split at h
      case isTrue hb =>
        simp only [Prod.mk.injEq] at h
        obtain ⟨hbuf, -⟩ := h
        subst hbuf
        refine ⟨natToBytesBE (fpEnc 52 11 (-1022) (numVal v)) 8,
          natToBytesBE_length _ _, ?_, rfl, ?_⟩
        · have hl := natToBytesBE_length (fpEnc 52 11 (-1022) (numVal v)) 8
          omega
        · intro buf2 d2 off2 hb2
          simp only [hval, storeBytes, natToBytesBE_length]
          rw [if_pos (by omega)]
      case isFalse hb => simp at h

theorem writeArrayElems_scalar (dt : DataType) (l : List Val) :
    ∀ (i : ℕ) (buffer b : List ℕ) (base : ℕ),
      writeArrayElems (Ty.scalar dt) (sizeof (Ty.scalar dt)) l i buffer base = (b, none) →
      b.length = buffer.length ∧
      (∀ j k, j + k ≤ base + i * sizeof (Ty.scalar dt) →
        readBytes b j k = readBytes buffer j k) ∧
      (∀ j k, base + (i + l.length) * sizeof (Ty.scalar dt) ≤ j →
        readBytes b j k = readBytes buffer j k) ∧
      ∀ n, (hn : n < l.length) → ∃ bs, bs.length = sizeof (Ty.scalar dt) ∧
        base + (i + n) * sizeof (Ty.scalar dt) + sizeof (Ty.scalar dt) ≤ buffer.length ∧
        readBytes b (base + (i + n) * sizeof (Ty.scalar dt)) (sizeof (Ty.scalar dt)) = bs ∧
        ∀ (buf2 : List ℕ) (d2 off2 : ℕ),
          off2 + d2 + sizeof (Ty.scalar dt) ≤ buf2.length →
          write (AlignedData.mk (Ty.scalar dt) d2 (sizeof (Ty.scalar dt))) buf2
              (l.get ⟨n, hn⟩) off2 =
            (writeBytes buf2 (off2 + d2) bs, none) := by
  have hsz : getDataTypeSize dt = sizeof (Ty.scalar dt) := rfl
  induction l with
  | nil =>
    intro i buffer b base h
    simp only [writeArrayElems, Prod.mk.injEq] at h
    obtain ⟨rfl, -⟩ := h
    exact ⟨rfl, fun j k _ => rfl, fun j k _ => rfl, fun n hn => absurd hn (by simp)⟩
  | cons v rest ih =>
    intro i buffer b base h
    simp only [writeArrayElems] at h
    obtain ⟨⟨b1, err⟩, hstep⟩ : ∃ r, write (AlignedData.mk (Ty.scalar dt)
        (i * sizeof (Ty.scalar dt)) (sizeof (Ty.scalar dt))) buffer v base = r := ⟨_, rfl⟩
    rw [hstep] at h
    cases err with
    | some e => simp at h
    | none =>
      obtain ⟨bs, hbsl, hbnd, hb1, hgen⟩ := write_scalar_success dt
        (i * sizeof (Ty.scalar dt)) (sizeof (Ty.scalar dt)) buffer v base b1 hstep
      rw [hsz] at hbsl hbnd hgen
      simp only at h
      obtain ⟨ihlen, ihbef, ihaft, ihel⟩ := ih (i + 1) b1 b base h
      have hmul : (i + 1) * sizeof (Ty.scalar dt) =
          i * sizeof (Ty.scalar dt) + sizeof (Ty.scalar dt) := by ring
      have hlen1 : b1.length = buffer.length := by
        rw [hb1]
        exact writeBytes_length buffer bs _ (by omega)
      refine ⟨ihlen.trans hlen1, ?_, ?_, ?_⟩
      · intro j k hjk
        have step1 : readBytes b j k = readBytes b1 j k :=
          ihbef j k (by omega)
        have step2 : readBytes b1 j k = readBytes buffer j k := by
          rw [hb1]
          exact readBytes_writeBytes_before buffer bs _ j k (by omega) (by omega)
        exact step1.trans step2
      · intro j k hj
        simp only [List.length_cons] at hj
        have he2 : (i + 1 + rest.length) * sizeof (Ty.scalar dt) =
            (i + (rest.length + 1)) * sizeof (Ty.scalar dt) := by ring
        have hmul2 : (i + 1 + rest.length) * sizeof (Ty.scalar dt) =
            i * sizeof (Ty.scalar dt) + sizeof (Ty.scalar dt) +
              rest.length * sizeof (Ty.scalar dt) := by ring
        have step1 : readBytes b j k = readBytes b1 j k :=
          ihaft j k (by omega)
        have step2 : readBytes b1 j k = readBytes buffer j k := by
          rw [hb1]
          exact readBytes_writeBytes_after buffer bs _ j k (by omega) (by omega)
        exact step1.trans step2
      · intro n hn
        cases n with
        | zero =>
          refine ⟨bs, hbsl, by simpa using hbnd, ?_, hgen⟩
          have step1 : readBytes b (base + (i + 0) * sizeof (Ty.scalar dt))
              (sizeof (Ty.scalar dt)) =
              readBytes b1 (base + (i + 0) * sizeof (Ty.scalar dt))
                (sizeof (Ty.scalar dt)) := by
            refine ihbef _ _ ?_
            simp only [Nat.add_zero]
            omega
          rw [step1, hb1]
          have hr := readBytes_writeBytes buffer bs (base + i * sizeof (Ty.scalar dt))
            (by omega)
          rw [hbsl] at hr
          simpa using hr
        | succ n =>
          have hn2 : n < rest.length := by
            simp only [List.length_cons] at hn
            omega
          obtain ⟨bs2, h1, h2, h3, h4⟩ := ihel n hn2
          have he : (i + 1 + n) * sizeof (Ty.scalar dt) =
              (i + (n + 1)) * sizeof (Ty.scalar dt) := by ring
          rw [he] at h2 h3
          rw [hlen1] at h2
          exact ⟨bs2, h1, h2, h3, h4⟩


theorem writeArrayElems_chain (ty : Ty) (l : List Val) :
    ∀ (i : ℕ) (buffer b : List ℕ) (base : ℕ),
      writeArrayElems ty (sizeof ty) l i buffer base = (b, none) →
      ∃ bufs : ℕ → List ℕ, bufs 0 = buffer ∧ bufs l.length = b ∧
        ∀ n, (hn : n < l.length) →
          writeArrayElem ty (sizeof ty) (i + n) (l.get ⟨n, hn⟩) (bufs n) base =
            (bufs (n + 1), none) := by
  induction l with
  | nil =>
    intro i buffer b base h
    simp only [writeArrayElems, Prod.mk.injEq] at h
    obtain ⟨rfl, -⟩ := h
    exact ⟨fun _ => buffer, rfl, rfl, fun n hn => absurd hn (by simp)⟩
  | cons v rest ih =>
    intro i buffer b base h
    cases ty with
    | strct sc =>
      simp only [writeArrayElems] at h
      obtain ⟨⟨b1, err⟩, hstep⟩ : ∃ r, writeStructure (AlignedData.mk (Ty.strct sc) (i * sizeof (Ty.strct sc)) (sizeof (Ty.strct sc))) buffer v base = r := ⟨_, rfl⟩
      rw [hstep] at h
      cases err with
      | some e => simp at h
      | none =>
        simp only at h
        obtain ⟨bufs, hb0, hbl, hbstep⟩ := ih (i + 1) b1 b base h
        refine ⟨fun n => match n with | 0 => buffer | m + 1 => bufs m, rfl, hbl, ?_⟩
        intro n hn
        cases n with
        | zero =>
          show writeArrayElem (Ty.strct sc) (sizeof (Ty.strct sc)) (i + 0) v buffer base =
            (bufs 0, none)
          rw [hb0]
          simp only [writeArrayElem, Nat.add_zero]
          exact hstep
        | succ m =>
          have hm : m < rest.length := by
            simp only [List.length_cons] at hn
            omega
          have hs := hbstep m hm
          have he : i + 1 + m = i + (m + 1) := by omega
          rw [he] at hs
          exact hs
    | arr ety alen =>
      simp only [writeArrayElems] at h
      obtain ⟨⟨b1, err⟩, hstep⟩ : ∃ r, writeArray (AlignedData.mk ((Ty.arr ety alen)) (i * sizeof ((Ty.arr ety alen))) (sizeof ((Ty.arr ety alen)))) v buffer base = r := ⟨_, rfl⟩
      rw [hstep] at h
      cases err with
      | some e => simp at h
      | none =>
        simp only at h
        obtain ⟨bufs, hb0, hbl, hbstep⟩ := ih (i + 1) b1 b base h
        refine ⟨fun n => match n with | 0 => buffer | m + 1 => bufs m, rfl, hbl, ?_⟩
        intro n hn
        cases n with
        | zero =>
          show writeArrayElem ((Ty.arr ety alen)) (sizeof ((Ty.arr ety alen))) (i + 0) v buffer base =
            (bufs 0, none)
          rw [hb0]
          simp only [writeArrayElem, Nat.add_zero]
          exact hstep
        | succ m =>
          have hm : m < rest.length := by
            simp only [List.length_cons] at hn
            omega
          have hs := hbstep m hm
          have he : i + 1 + m = i + (m + 1) := by omega
          rw [he] at hs
          exact hs
    | scalar dt =>
      simp only [writeArrayElems] at h
      obtain ⟨⟨b1, err⟩, hstep⟩ : ∃ r, write (AlignedData.mk (Ty.scalar dt) (i * sizeof (Ty.scalar dt)) (sizeof (Ty.scalar dt))) buffer v base = r := ⟨_, rfl⟩
      rw [hstep] at h
      cases err with
      | some e => simp at h
      | none =>
        simp only at h
        obtain ⟨bufs, hb0, hbl, hbstep⟩ := ih (i + 1) b1 b base h
        refine ⟨fun n => match n with | 0 => buffer | m + 1 => bufs m, rfl, hbl, ?_⟩
        intro n hn
        cases n with
        | zero =>
          show writeArrayElem (Ty.scalar dt) (sizeof (Ty.scalar dt)) (i + 0) v buffer base =
            (bufs 0, none)
          rw [hb0]
          simp only [writeArrayElem, Nat.add_zero]
          exact hstep
        | succ m =>
          have hm : m < rest.length := by
            simp only [List.length_cons] at hn
            omega
          have hs := hbstep m hm
          have he : i + 1 + m = i + (m + 1) := by omega
          rw [he] at hs
          exact hs

/-- **C5**: writing an array field with a sequence whose length differs
from the declared fixed length fails with the invalid-length error before
anything is written — the buffer is returned unchanged, so nothing is
truncated or padded — and this holds for every element type (scalar,
nested array or structure).  A sequence of exactly the declared length is
written element by element: for every element type there is a chain of
intermediate buffers in which element `n` is dispatched with the
synthesized descriptor at relative offset `n * elementSize` under base
`offset + field.offset`; for scalar element types, additionally, element
`n`'s bytes land exactly at `offset + field.offset + n * elementSize`,
each slot holding exactly the bytes a standalone scalar write of that
element at that address would store, with every byte before and after the
array untouched. -/
theorem c5_array_field_write (ty : Ty) (dt : DataType) (len doff dsz off : ℕ)
    (l : List Val) (buffer : List ℕ) :
    (l.length ≠ len →
      writeArray (AlignedData.mk (Ty.arr ty len) doff dsz) (.arrv l)
          buffer off = (buffer, some .invalidArrayLength)) ∧
    (∀ b, l.length = len →
      writeArray (AlignedData.mk (Ty.arr ty len) doff dsz) (.arrv l)
          buffer off = (b, none) →
      ∃ bufs : ℕ → List ℕ, bufs 0 = buffer ∧ bufs l.length = b ∧
        ∀ n, (hn : n < l.length) →
          writeArrayElem ty (sizeof ty) n (l.get ⟨n, hn⟩) (bufs n) (off + doff) =
            (bufs (n + 1), none)) ∧
    ∀ b, l.length = len →
      writeArray (AlignedData.mk (Ty.arr (Ty.scalar dt) len) doff dsz) (.arrv l)
          buffer off = (b, none) →
      b.length = buffer.length ∧
      (∀ j k, j + k ≤ off + doff → readBytes b j k = readBytes buffer j k) ∧
      (∀ j k, off + doff + len * sizeof (Ty.scalar dt) ≤ j →
        readBytes b j k = readBytes buffer j k) ∧
      ∀ n, (hn : n < l.length) → ∃ bs, bs.length = sizeof (Ty.scalar dt) ∧
        readBytes b (off + doff + n * sizeof (Ty.scalar dt)) (sizeof (Ty.scalar dt)) = bs ∧
        write (AlignedData.mk (Ty.scalar dt) (n * sizeof (Ty.scalar dt))
            (sizeof (Ty.scalar dt))) buffer (l.get ⟨n, hn⟩) (off + doff) =
          (writeBytes buffer (off + doff + n * sizeof (Ty.scalar dt)) bs, none) := by
  refine ⟨?_, ?_, ?_⟩
  · intro hne
    simp only [writeArray]
    rw [dif_pos hne]
  · intro b hlen hw
    simp only [writeArray] at hw
    rw [dif_neg (by simp [hlen])] at hw
    obtain ⟨bufs, h0, h1, h2⟩ := writeArrayElems_chain ty l 0 buffer b (off + doff) hw
    refine ⟨bufs, h0, h1, ?_⟩
    intro n hn
    have hc := h2 n hn
    rwa [Nat.zero_add] at hc
  · intro b hlen hw
    simp only [writeArray] at hw
    rw [dif_neg (by simp [hlen])] at hw
    obtain ⟨hlen2, hbef, haft, hel⟩ :=
      writeArrayElems_scalar dt l 0 buffer b (off + doff) hw
    refine ⟨hlen2, ?_, ?_, ?_⟩
    · intro j k hjk
      exact hbef j k (by omega)
    · intro j k hj
      refine haft j k ?_
      have he : (0 + l.length) * sizeof (Ty.scalar dt) = len * sizeof (Ty.scalar dt) := by
        rw [Nat.zero_add, hlen]
      omega
    · intro n hn
      obtain ⟨bs, h1, h2, h3, h4⟩ := hel n hn
      have he : (0 + n) * sizeof (Ty.scalar dt) = n * sizeof (Ty.scalar dt) := by
        rw [Nat.zero_add]
      rw [he] at h2 h3
      exact ⟨bs, h1, h3, h4 buffer (n * sizeof (Ty.scalar dt)) (off + doff) (by omega)⟩

theorem c5_array_field_write_witness :
    writeArray (AlignedData.mk (Ty.arr (Ty.arr (Ty.scalar DataType.UINT8) 1) 2) 0 2)
        (.arrv [Val.arrv [Val.num (JsNum.finite 5)]]) [0, 0] 0 =
      ([0, 0], some Err.invalidArrayLength) ∧
    (∃ bufs : ℕ → List ℕ, bufs 0 = [0, 0] ∧
      bufs ([Val.num (JsNum.finite 1), Val.num (JsNum.finite 2)] : List Val).length =
        [1, 2] ∧
      ∀ n, (hn : n <
          ([Val.num (JsNum.finite 1), Val.num (JsNum.finite 2)] : List Val).length) →
        writeArrayElem (Ty.scalar DataType.UINT8) (sizeof (Ty.scalar DataType.UINT8)) n
            (([Val.num (JsNum.finite 1), Val.num (JsNum.finite 2)] : List Val).get
              ⟨n, hn⟩) (bufs n) (0 + 0) =
          (bufs (n + 1), none)) ∧
    (([1, 2] : List ℕ).length = ([0, 0] : List ℕ).length ∧
     (∀ j k, j + k ≤ 0 + 0 → readBytes [1, 2] j k = readBytes [0, 0] j k) ∧
     (∀ j k, 0 + 0 + 2 * sizeof (Ty.scalar DataType.UINT8) ≤ j →
       readBytes [1, 2] j k = readBytes [0, 0] j k) ∧
     ∀ n, (hn : n < ([Val.num (JsNum.finite 1), Val.num (JsNum.finite 2)]).length) →
       ∃ bs, bs.length = sizeof (Ty.scalar DataType.UINT8) ∧
         readBytes [1, 2] (0 + 0 + n * sizeof (Ty.scalar DataType.UINT8))
           (sizeof (Ty.scalar DataType.UINT8)) = bs ∧
         write (AlignedData.mk (Ty.scalar DataType.UINT8)
             (n * sizeof (Ty.scalar DataType.UINT8)) (sizeof (Ty.scalar DataType.UINT8)))
             [0, 0] (([Val.num (JsNum.finite 1), Val.num (JsNum.finite 2)]).get ⟨n, hn⟩)
             (0 + 0) =
           (writeBytes [0, 0] (0 + 0 + n * sizeof (Ty.scalar DataType.UINT8)) bs, none)) :=
  ⟨(c5_array_field_write (Ty.arr (Ty.scalar DataType.UINT8) 1) DataType.UINT8 2 0 2 0
      [Val.arrv [Val.num (JsNum.finite 5)]] [0, 0]).1 (by decide),
   (c5_array_field_write (Ty.scalar DataType.UINT8) DataType.UINT8 2 0 2 0
      [Val.num (JsNum.finite 1), Val.num (JsNum.finite 2)] [0, 0]).2.1 [1, 2] rfl
      (by
        simp only [writeArray]
        rw [dif_neg (by decide)]
        simp only [writeArrayElems]
        rfl),
   (c5_array_field_write (Ty.scalar DataType.UINT8) DataType.UINT8 2 0 2 0
      [Val.num (JsNum.finite 1), Val.num (JsNum.finite 2)] [0, 0]).2.2 [1, 2] rfl
      (by
        simp only [writeArray]
        rw [dif_neg (by decide)]
        simp only [writeArrayElems]
        rfl)⟩

theorem construct_read_buffer (fields : List (String × AlignedData))
    (table : List (String × PropTrans)) (args : Val) (buffer : List ℕ) (offset : ℕ) :
    (construct fields table args buffer offset false).2 = (buffer, none) := by
  match fields with
  | [] => simp [construct]
  | (k, field) :: rest =>
    simp only [construct, Bool.false_eq_true, if_false]
    cases hty : field.type with
    | strct sc =>
      simp only [hty]
      have h1 := construct_read_buffer sc.fields sc.transform
        (nullish (if jsTruthy (objGet args k) then
          applyTransform (trIn (lookupTr table k)) (objGet args k) else objGet args k)
          (.obj [])) buffer (offset + field.offset)
      obtain ⟨e1, hs1⟩ : ∃ e1, construct sc.fields sc.transform
          (nullish (if jsTruthy (objGet args k) then
            applyTransform (trIn (lookupTr table k)) (objGet args k) else objGet args k)
            (.obj [])) buffer (offset + field.offset) false = (e1, buffer, none) :=
        ⟨_, Prod.ext rfl h1⟩
      simp only [hs1]
      have h2 := construct_read_buffer rest table args buffer offset
      obtain ⟨e2, hs2⟩ : ∃ e2, construct rest table args buffer offset false =
          (e2, buffer, none) := ⟨_, Prod.ext rfl h2⟩
      simp only [hs2]
    | arr ety alen =>
      simp only [hty]
      have h2 := construct_read_buffer rest table args buffer offset
      obtain ⟨e2, hs2⟩ : ∃ e2, construct rest table args buffer offset false =
          (e2, buffer, none) := ⟨_, Prod.ext rfl h2⟩
      simp only [hs2]
    | scalar sdt =>
      simp only [hty]
      have h2 := construct_read_buffer rest table args buffer offset
      obtain ⟨e2, hs2⟩ : ∃ e2, construct rest table args buffer offset false =
          (e2, buffer, none) := ⟨_, Prod.ext rfl h2⟩
      simp only [hs2]
termination_by 3 * sizeOf fields + 2
decreasing_by
  all_goals first
    | (cases field with
       | mk ft fo fs =>
         first
           | (simp only [AlignedData.type] at hty
              subst hty
              cases sc with
              | mk f2 t2 s2 => simp [StructCtor.fields, AlignedData.type]; omega)
           | (simp [AlignedData.type]; omega))
    | (simp; omega)
    | simp

theorem bufCopy_full (src dst : List ℕ) (n offset : ℕ) (h : offset + n ≤ src.length)
    (hd : dst.length = n) :
    bufCopy src dst 0 offset (offset + n) = readBytes src offset n := by
  unfold bufCopy readBytes
  have hcnt : min (min (offset + n) src.length - offset) (dst.length - 0) = n := by omega
  simp only [hcnt, List.take_zero, List.nil_append, Nat.zero_add,
    List.drop_eq_nil_of_le (show dst.length ≤ n by omega)]
  simp

/-- **C6** (amended): the factory `from(buffer, offset)` fails with the
invalid-buffer-size error exactly when the source has fewer than `size`
bytes — the offset does not enter the check — and when the source does
provide `offset + size` bytes it copies exactly the `size` bytes starting
at `offset` into the fresh instance's buffer; the instance method
`copy(source, offset)` performs no validation at all (Node clamps the
range), and when the source provides `offset + size` bytes it overwrites
this instance's entire buffer with that byte range; the static
`toJson(buffer)` fails with the invalid-buffer-size error when the buffer
has fewer than `size` bytes, and otherwise snapshots the given buffer. -/
theorem c6_copy_validation (sc : StructCtor) (src buffer own : List ℕ) (offset : ℕ) :
    (src.length < sc.size →
      fromBuffer sc src offset = .error .invalidBufferSize) ∧
    (offset + sc.size ≤ src.length →
      fromBuffer sc src offset =
        .ok ((construct sc.fields sc.transform (.obj []) (alloc sc.size) 0 false).1,
          readBytes src offset sc.size)) ∧
    (own.length = sc.size → offset + sc.size ≤ src.length →
      instCopy sc own src offset = readBytes src offset sc.size) ∧
    (buffer.length < sc.size → toJson sc buffer = .error .invalidBufferSize) ∧
    (sc.size ≤ buffer.length →
      toJson sc buffer = readStructure (.mk (.strct sc) 0 sc.size) buffer 0 false) := by
  refine ⟨?_, ?_, ?_, ?_, ?_⟩
  · intro hlt
    unfold fromBuffer
    rw [if_pos (by omega)]
  · intro hfit
    simp only [fromBuffer]
    rw [if_neg (by omega)]
    have hb : (construct sc.fields sc.transform (.obj []) (alloc sc.size) 0 false).2.1 =
        alloc sc.size := by
      rw [construct_read_buffer]
    rw [hb, bufCopy_full src (alloc sc.size) sc.size offset hfit (by simp [alloc])]
  · intro hown hfit
    unfold instCopy
    rw [← hown] at hfit ⊢
    rw [bufCopy_full src own own.length offset hfit rfl]
  · intro hlt
    unfold toJson
    rw [if_pos hlt]
  · intro hge
    unfold toJson
    rw [if_neg (by omega)]

/-- **C6** counterexample to the claim as stated: with a 2-byte schema, a
2-byte source and `offset = 1`, the source provides fewer than
`offset + size = 3` bytes, yet `from` does not throw — its check ignores
the offset — and it copies only the one available byte (the fresh
buffer's second byte stays zero); likewise `copy` performs no check and
overwrites only the first byte of the instance, leaving a stale byte. -/
theorem c6_counterexample :
    (∃ r, fromBuffer (StructCtor.mk [("a", AlignedData.mk (Ty.scalar .UINT16LE) 0 2)] [] 2)
        [7, 9] 1 = .ok r ∧ r.2 = [9, 0]) ∧
    instCopy (StructCtor.mk [("a", AlignedData.mk (Ty.scalar .UINT16LE) 0 2)] [] 2)
        [5, 6] [7, 9] 1 = [9, 6] ∧
    ([7, 9] : List ℕ).length < 1 + 2 := by
  refine ⟨⟨([("a", LiveVal.accessor (AlignedData.mk (Ty.scalar .UINT16LE) 0 2) none 0)],
      [9, 0]), ?_, rfl⟩, rfl, by decide⟩
  simp only [fromBuffer, construct, StructCtor.fields, StructCtor.size,
    StructCtor.transform, AlignedData.type]
  rfl

theorem c6_copy_validation_witness :
    fromBuffer c6wSc [] 0 = .error .invalidBufferSize ∧
    fromBuffer c6wSc [3, 4] 1 =
      .ok ((construct c6wSc.fields c6wSc.transform (.obj []) (alloc c6wSc.size) 0 false).1,
        readBytes [3, 4] 1 c6wSc.size) ∧
    instCopy c6wSc [9] [3, 4] 1 = readBytes [3, 4] 1 c6wSc.size ∧
    toJson c6wSc [] = .error .invalidBufferSize ∧
    toJson c6wSc [8] = readStructure (.mk (.strct c6wSc) 0 c6wSc.size) [8] 0 false :=
  ⟨(c6_copy_validation c6wSc [] [] [] 0).1 (by decide),
   (c6_copy_validation c6wSc [3, 4] [] [] 1).2.1 (by decide),
   (c6_copy_validation c6wSc [3, 4] [] [9] 1).2.2.1 rfl (by decide),
   (c6_copy_validation c6wSc [] [] [] 0).2.2.2.1 (by decide),
   (c6_copy_validation c6wSc [] [8] [] 0).2.2.2.2 (by decide)⟩

/-- **C3** (code bug): the value-tree constructor (`writeData = true`)
allocates a zero buffer of the schema's size, transforms and writes every
supplied top-level field (`{a: 5}` lands in byte 0) and leaves unsupplied
fields zero (byte 1 stays 0), but it installs **no** live accessor for
scalar or array fields — the returned entry list is empty — so a freshly
constructed instance's fields are not readable or writable through
accessors, contrary to the documented behavior (the revised `construct`
in the same file runs `defineProxyProperty` in both modes). -/
theorem c3_construct_no_accessors :
    newStructure (StructCtor.mk [("a", AlignedData.mk (Ty.scalar .UINT8) 0 1),
        ("b", AlignedData.mk (Ty.scalar .UINT8) 1 1)] [] 2)
      (.obj [("a", .num (.finite 5))]) =
    ([], [5, 0], none) := by
  simp only [newStructure, construct, StructCtor.fields, StructCtor.transform,
    StructCtor.size, AlignedData.type]
  rfl

theorem bytesToHex_append (a b : List JsNum) :
    bytesToHex (a ++ b) = bytesToHex a ++ bytesToHex b := by
  simp [bytesToHex]

theorem bytesToHex_cons (b : JsNum) (bs : List JsNum) :
    bytesToHex (b :: bs) = bytesToHex [b] ++ bytesToHex bs := by
  rw [show b :: bs = [b] ++ bs from rfl, bytesToHex_append]

theorem hexToBytes_pair_split (x1 x2 : Char) (r : List Char) :
    hexToBytes (x1 :: x2 :: r) = hexToBytes [x1, x2] ++ hexToBytes r := by
  simp [hexToBytes]

theorem hexPair_roundtrip : ∀ c1 ∈ hexDigitsLower, ∀ c2 ∈ hexDigitsLower,
    bytesToHex (hexToBytes [c1, c2]) = [c1, c2] := by decide

set_option maxRecDepth 8192 in
theorem hexByte_len2 : ∀ n : ℕ, n < 256 →
    (bytesToHex [JsNum.finite (n : ℚ)]).length = 2 := by decide

set_option maxRecDepth 8192 in
theorem hexByte_roundtrip : ∀ n : ℕ, n < 256 →
    hexToBytes (bytesToHex [JsNum.finite (n : ℚ)]) = [JsNum.finite (n : ℚ)] := by decide

theorem hexStr_roundtrip (h : List Char) (hev : h.length % 2 = 0)
    (hhex : ∀ c ∈ h, c ∈ hexDigitsLower) : bytesToHex (hexToBytes h) = h := by
  match h with
  | [] => rfl
  | [c] => simp at hev
  | c1 :: c2 :: rest =>
    have hr := hexStr_roundtrip rest
      (by simp only [List.length_cons] at hev; omega)
      (fun c hc => hhex c (by simp [hc]))
    have hp := hexPair_roundtrip c1 (hhex c1 (by simp)) c2 (hhex c2 (by simp))
    rw [hexToBytes_pair_split, bytesToHex_append, hp, hr]
    rfl
termination_by h.length

theorem hexBytes_roundtrip (bs : List JsNum)
    (hmem : ∀ b ∈ bs, ∃ n : ℕ, n < 256 ∧ b = .finite n) :
    hexToBytes (bytesToHex bs) = bs := by
  induction bs with
  | nil => rfl
  | cons b rest ih =>
    obtain ⟨n, hn, rfl⟩ := hmem b (by simp)
    rw [bytesToHex_cons]
    obtain ⟨x1, x2, hx⟩ := List.length_eq_two.mp (hexByte_len2 n hn)
    rw [hx]
    simp only [List.cons_append, List.nil_append]
    rw [hexToBytes_pair_split, ← hx, hexByte_roundtrip n hn,
      ih (fun b2 hb2 => hmem b2 (by simp [hb2]))]
    rfl

/-- **C8**: the hex codec of `memory.ts`: `hexToBytes` turns every two hex
characters into one byte, most significant nibble first (the example
string "1a2b4c6d" parses to the bytes 26, 43, 76, 109, i.e. 0x1a 0x2b
0x4c 0x6d); `bytesToHex` emits two lowercase nibble characters per byte
(zero-padded, one character per nibble) and normalises a negative byte
value by adding 256 before encoding; and on their natural domains the two
are mutual inverses: encode after parse is the identity on even-length
lowercase-hex character lists, and parse after encode is the identity on
lists of in-range byte values. -/
theorem c8_hex_codec :
    hexToBytes ['1', 'a', '2', 'b', '4', 'c', '6', 'd'] =
      [.finite 26, .finite 43, .finite 76, .finite 109] ∧
    (∀ (q : ℚ) (rest : List JsNum), q < 0 → -256 ≤ q →
      bytesToHex (.finite q :: rest) = bytesToHex (.finite (q + 256) :: rest)) ∧
    (∀ h : List Char, h.length % 2 = 0 → (∀ c ∈ h, c ∈ hexDigitsLower) →
      bytesToHex (hexToBytes h) = h) ∧
    ∀ bs : List JsNum, (∀ b ∈ bs, ∃ n : ℕ, n < 256 ∧ b = .finite n) →
      hexToBytes (bytesToHex bs) = bs := by
  refine ⟨by decide, ?_, hexStr_roundtrip, hexBytes_roundtrip⟩
  intro q rest hq hq2
  simp only [bytesToHex, List.map_cons]
  rw [if_pos hq, if_neg (by linarith)]

theorem c8_hex_codec_witness :
    ((['a', 'f'] : List Char).length % 2 = 0 ∧
      (∀ c ∈ (['a', 'f'] : List Char), c ∈ hexDigitsLower)) ∧
    bytesToHex (hexToBytes ['a', 'f']) = ['a', 'f'] ∧
    hexToBytes (bytesToHex [JsNum.finite ((175 : ℕ) : ℚ)]) =
      [JsNum.finite ((175 : ℕ) : ℚ)] :=
  ⟨⟨by decide, by decide⟩,
   c8_hex_codec.2.2.1 ['a', 'f'] (by decide) (by decide),
   c8_hex_codec.2.2.2 [JsNum.finite ((175 : ℕ) : ℚ)] (by
     intro b hb
     simp only [List.mem_singleton] at hb
     subst hb
     exact ⟨175, by norm_num, rfl⟩)⟩

theorem bytesToNatLE_zero (k : ℕ) : bytesToNatLE (List.replicate k 0) = 0 := by
  induction k with
  | zero => rfl
  | succ k ih => simp [List.replicate_succ, bytesToNatLE, ih]

theorem bytesToNatBE_zero (k : ℕ) : bytesToNatBE (List.replicate k 0) = 0 := by
  unfold bytesToNatBE
  rw [List.reverse_replicate]
  exact bytesToNatLE_zero k

theorem natToInt2c_zero (bits : ℕ) : natToInt2c 0 bits = 0 := by
  unfold natToInt2c
  rw [if_pos (by positivity)]
  simp

theorem fpDecode_zero (fb eb : ℕ) (emin : ℤ) (heb : 1 ≤ eb) :
    fpDecode fb eb emin 0 = .finite 0 := by
  have h2 : 2 ≤ 2 ^ eb := by
    calc 2 = 2 ^ 1 := by norm_num
    _ ≤ 2 ^ eb := Nat.pow_le_pow_right (by norm_num) heb
  unfold fpDecode
  simp only [Nat.zero_div, Nat.zero_mod]
  rw [if_neg (by omega)]
  norm_num

theorem loadBytes_replicate_zero (L o k : ℕ) (h : o + k ≤ L) :
    loadBytes (List.replicate L 0) o k = .ok (List.replicate k 0) := by
  unfold loadBytes readBytes
  rw [if_pos (by simp only [List.length_replicate]; omega)]
  rw [List.drop_replicate, List.take_replicate]
  have hmin : min k (L - o) = k := by omega
  rw [hmin]

theorem read_zero (dt : DataType) (d s off L : ℕ)
    (h : off + d + getDataTypeSize dt ≤ L) :
    read (AlignedData.mk (Ty.scalar dt) d s) (List.replicate L 0) off =
      .ok (zeroVal dt) := by
  cases dt <;>
    (simp only [read, AlignedData.type, AlignedData.offset, getDataTypeSize] at h ⊢
     rw [loadBytes_replicate_zero L _ _ (by omega)]
     simp [Except.map, zeroVal, bytesToNatLE, bytesToNatBE, natToInt2c_zero,
       fpDecode_zero 23 8 (-126) (by norm_num), fpDecode_zero 52 11 (-1022) (by norm_num)])

theorem read_bytes_congr (dt : DataType) (d s off : ℕ) (b1 b2 : List ℕ)
    (hb : readBytes b1 (off + d) (getDataTypeSize dt) =
      readBytes b2 (off + d) (getDataTypeSize dt))
    (hl : b1.length = b2.length) :
    read (AlignedData.mk (Ty.scalar dt) d s) b1 off =
      read (AlignedData.mk (Ty.scalar dt) d s) b2 off := by
  cases dt <;>
    (simp only [read, AlignedData.type, AlignedData.offset, getDataTypeSize] at hb ⊢
     unfold loadBytes
     rw [hl, hb])

theorem readBytes_sub (b : List ℕ) (o k o2 k2 : ℕ) (h1 : o ≤ o2) (h2 : o2 + k2 ≤ o + k) :
    readBytes b o2 k2 = ((readBytes b o k).drop (o2 - o)).take k2 := by
  unfold readBytes
  rw [List.drop_take, List.drop_drop, List.take_take]
  have e1 : o + (o2 - o) = o2 := by omega
  have e2 : min k2 (k - (o2 - o)) = k2 := by omega
  rw [e1, e2]

theorem readArrayElems_scalar_congr (dt : DataType) (mu : Bool) :
    ∀ (count i : ℕ) (b1 b2 : List ℕ) (base : ℕ),
      readBytes b1 (base + i * sizeof (Ty.scalar dt)) (count * sizeof (Ty.scalar dt)) =
        readBytes b2 (base + i * sizeof (Ty.scalar dt)) (count * sizeof (Ty.scalar dt)) →
      b1.length = b2.length →
      readArrayElems (Ty.scalar dt) (sizeof (Ty.scalar dt)) count i b1 base mu =
        readArrayElems (Ty.scalar dt) (sizeof (Ty.scalar dt)) count i b2 base mu := by
  intro count
  induction count with
  | zero =>
    intro i b1 b2 base _ _
    simp [readArrayElems]
  | succ c ih =>
    intro i b1 b2 base hb hl
    have hesz : sizeof (Ty.scalar dt) = getDataTypeSize dt := rfl
    have hmul1 : sizeof (Ty.scalar dt) ≤ (c + 1) * sizeof (Ty.scalar dt) :=
      Nat.le_mul_of_pos_left _ (Nat.succ_pos c)
    have hstep : readBytes b1 (base + i * sizeof (Ty.scalar dt)) (sizeof (Ty.scalar dt)) =
        readBytes b2 (base + i * sizeof (Ty.scalar dt)) (sizeof (Ty.scalar dt)) := by
      rw [readBytes_sub b1 (base + i * sizeof (Ty.scalar dt))
            ((c + 1) * sizeof (Ty.scalar dt)) (base + i * sizeof (Ty.scalar dt))
            (sizeof (Ty.scalar dt)) (le_refl _) (by omega),
          readBytes_sub b2 (base + i * sizeof (Ty.scalar dt))
            ((c + 1) * sizeof (Ty.scalar dt)) (base + i * sizeof (Ty.scalar dt))
            (sizeof (Ty.scalar dt)) (le_refl _) (by omega), hb]
    have hmulmono : i * sizeof (Ty.scalar dt) ≤ (i + 1) * sizeof (Ty.scalar dt) :=
      Nat.mul_le_mul_right _ (by omega)
    have hdistr : (i + 1) * sizeof (Ty.scalar dt) + c * sizeof (Ty.scalar dt) =
        i * sizeof (Ty.scalar dt) + (c + 1) * sizeof (Ty.scalar dt) := by ring
    have hrest : readBytes b1 (base + (i + 1) * sizeof (Ty.scalar dt))
        (c * sizeof (Ty.scalar dt)) =
        readBytes b2 (base + (i + 1) * sizeof (Ty.scalar dt))
          (c * sizeof (Ty.scalar dt)) := by
      rw [readBytes_sub b1 (base + i * sizeof (Ty.scalar dt))
            ((c + 1) * sizeof (Ty.scalar dt)) (base + (i + 1) * sizeof (Ty.scalar dt))
            (c * sizeof (Ty.scalar dt)) (by omega) (by omega),
          readBytes_sub b2 (base + i * sizeof (Ty.scalar dt))
            ((c + 1) * sizeof (Ty.scalar dt)) (base + (i + 1) * sizeof (Ty.scalar dt))
            (c * sizeof (Ty.scalar dt)) (by omega) (by omega), hb]
    have hread : read (AlignedData.mk (Ty.scalar dt) (i * sizeof (Ty.scalar dt))
        (sizeof (Ty.scalar dt))) b1 base =
        read (AlignedData.mk (Ty.scalar dt) (i * sizeof (Ty.scalar dt))
          (sizeof (Ty.scalar dt))) b2 base :=
      read_bytes_congr dt (i * sizeof (Ty.scalar dt)) (sizeof (Ty.scalar dt)) base
        b1 b2 hstep hl
    have hih := ih (i + 1) b1 b2 base hrest hl
    simp only [readArrayElems, hread, hih]

theorem readArrayElems_scalar_zero (dt : DataType) (mu : Bool) :
    ∀ (count i L : ℕ) (base : ℕ),
      base + (i + count) * sizeof (Ty.scalar dt) ≤ L →
      readArrayElems (Ty.scalar dt) (sizeof (Ty.scalar dt)) count i
          (List.replicate L 0) base mu =
        .ok (List.replicate count (zeroVal dt)) := by
  intro count
  induction count with
  | zero =>
    intro i L base _
    simp [readArrayElems]
  | succ c ih =>
    intro i L base hfit
    have hmono : (i + 1) * sizeof (Ty.scalar dt) ≤
        (i + (c + 1)) * sizeof (Ty.scalar dt) :=
      Nat.mul_le_mul_right _ (by omega)
    have hdistr : (i + 1) * sizeof (Ty.scalar dt) =
        i * sizeof (Ty.scalar dt) + sizeof (Ty.scalar dt) := by ring
    have hesz : sizeof (Ty.scalar dt) = getDataTypeSize dt := rfl
    have hread := read_zero dt (i * sizeof (Ty.scalar dt)) (sizeof (Ty.scalar dt))
      base L (by rw [← hesz]; omega)
    have hdistr2 : (i + 1 + c) * sizeof (Ty.scalar dt) =
        (i + (c + 1)) * sizeof (Ty.scalar dt) := by ring
    have hih := ih (i + 1) L base (by omega)
    simp only [readArrayElems, hread, hih, Except.map, List.replicate_succ]

/-- **C9**: a live field accessor — scalar or array — caches nothing.
Its getter is the decode of the owning buffer's current bytes at the
field's fixed offset through the output transform; two buffers agreeing
on the field's bytes (and in length) are indistinguishable to it; after
`reset()` the getter returns the zero value (for an array field, the
array of zero values) decoded from the fresh zero bytes, and after
`copy(source, offset)` with enough source bytes the getter sees exactly
the copied-in byte range — never a stale value; the setter encodes
directly into the buffer through the input transform (dispatching to the
array writer for array fields), and for a scalar field the buffer's bytes
at the field's offset after a successful set are exactly the newly stored
bytes. -/
theorem c9_live_accessor (dt : DataType) (d s off : ℕ) (tr : Option PropTrans)
    (buf1 buf2 : List ℕ)
    (hb : readBytes buf1 (off + d) (getDataTypeSize dt) =
      readBytes buf2 (off + d) (getDataTypeSize dt))
    (hl : buf1.length = buf2.length) :
    proxyGet (AlignedData.mk (Ty.scalar dt) d s) tr off buf1 =
      (read (AlignedData.mk (Ty.scalar dt) d s) buf1 off).map
        (applyTransform (trOut tr)) ∧
    proxyGet (AlignedData.mk (Ty.scalar dt) d s) tr off buf1 =
      proxyGet (AlignedData.mk (Ty.scalar dt) d s) tr off buf2 ∧
    (∀ buf : List ℕ, off + d + getDataTypeSize dt ≤ buf.length →
      proxyGet (AlignedData.mk (Ty.scalar dt) d s) tr off (reset buf) =
        .ok (applyTransform (trOut tr) (zeroVal dt))) ∧
    (∀ (sc : StructCtor) (own src2 : List ℕ) (o2 : ℕ), own.length = sc.size →
      o2 + sc.size ≤ src2.length →
      proxyGet (AlignedData.mk (Ty.scalar dt) d s) tr off (instCopy sc own src2 o2) =
        proxyGet (AlignedData.mk (Ty.scalar dt) d s) tr off
          (readBytes src2 o2 sc.size)) ∧
    (∀ (v : Val) (b2 : List ℕ),
      proxySet (AlignedData.mk (Ty.scalar dt) d s) tr off buf1 v = (b2, none) →
      proxySet (AlignedData.mk (Ty.scalar dt) d s) tr off buf1 v =
        write (AlignedData.mk (Ty.scalar dt) d s) buf1
          (applyTransform (trIn tr) v) off ∧
      b2 = writeBytes buf1 (off + d)
        (readBytes b2 (off + d) (getDataTypeSize dt))) ∧
    (∀ alen : ℕ,
      proxyGet (AlignedData.mk (Ty.arr (Ty.scalar dt) alen) d s) tr off buf1 =
        (readArray (AlignedData.mk (Ty.arr (Ty.scalar dt) alen) d s) buf1 off
          true).map (applyTransform (trOut tr))) ∧
    (∀ alen : ℕ,
      readBytes buf1 (off + d) (alen * sizeof (Ty.scalar dt)) =
        readBytes buf2 (off + d) (alen * sizeof (Ty.scalar dt)) →
      proxyGet (AlignedData.mk (Ty.arr (Ty.scalar dt) alen) d s) tr off buf1 =
        proxyGet (AlignedData.mk (Ty.arr (Ty.scalar dt) alen) d s) tr off buf2) ∧
    (∀ (alen : ℕ) (buf : List ℕ),
      off + d + alen * sizeof (Ty.scalar dt) ≤ buf.length →
      proxyGet (AlignedData.mk (Ty.arr (Ty.scalar dt) alen) d s) tr off (reset buf) =
        .ok (applyTransform (trOut tr) (.arrv (List.replicate alen (zeroVal dt))))) ∧
    (∀ (alen : ℕ) (sc : StructCtor) (own src2 : List ℕ) (o2 : ℕ),
      own.length = sc.size → o2 + sc.size ≤ src2.length →
      proxyGet (AlignedData.mk (Ty.arr (Ty.scalar dt) alen) d s) tr off
          (instCopy sc own src2 o2) =
        proxyGet (AlignedData.mk (Ty.arr (Ty.scalar dt) alen) d s) tr off
          (readBytes src2 o2 sc.size)) ∧
    ∀ (alen : ℕ) (v : Val),
      proxySet (AlignedData.mk (Ty.arr (Ty.scalar dt) alen) d s) tr off buf1 v =
        writeArray (AlignedData.mk (Ty.arr (Ty.scalar dt) alen) d s)
          (applyTransform (trIn tr) v) buf1 off := by
  refine ⟨?_, ?_, ?_, ?_, ?_, ?_, ?_, ?_, ?_, ?_⟩
  · simp only [proxyGet, AlignedData.type]
  · simp only [proxyGet, AlignedData.type]
    rw [read_bytes_congr dt d s off buf1 buf2 hb hl]
  · intro buf hfit
    simp only [proxyGet, AlignedData.type, reset]
    rw [read_zero dt d s off buf.length hfit]
    rfl
  · intro sc own src2 o2 hown hfit
    unfold instCopy
    rw [← hown] at hfit ⊢
    rw [bufCopy_full src2 own own.length o2 hfit rfl]
  · intro v b2 hset
    have hset2 : write (AlignedData.mk (Ty.scalar dt) d s) buf1
        (applyTransform (trIn tr) v) off = (b2, none) := by
      rw [← hset]
      simp only [proxySet, AlignedData.type]
    obtain ⟨bs, hbsl, hbnd, hb2, -⟩ := write_scalar_success dt d s buf1
      (applyTransform (trIn tr) v) off b2 hset2
    refine ⟨by simp only [proxySet, AlignedData.type], ?_⟩
    have hrb : readBytes b2 (off + d) (getDataTypeSize dt) = bs := by
      rw [hb2, ← hbsl]
      exact readBytes_writeBytes buf1 bs (off + d) (by omega)
    rw [hrb, hb2]
  · intro alen
    simp only [proxyGet, AlignedData.type]
  · intro alen hbarr
    simp only [proxyGet, AlignedData.type, readArray]
    rw [readArrayElems_scalar_congr dt true alen 0 buf1 buf2 (off + d)
      (by simpa using hbarr) hl]
  · intro alen buf hfit
    simp only [proxyGet, AlignedData.type, reset, readArray]
    rw [readArrayElems_scalar_zero dt true alen 0 buf.length (off + d)
      (by simpa using hfit)]
    rfl
  · intro alen sc own src2 o2 hown hfit
    unfold instCopy
    rw [← hown] at hfit ⊢
    rw [bufCopy_full src2 own own.length o2 hfit rfl]
  · intro alen v
    simp only [proxySet, AlignedData.type]

theorem c9_live_accessor_witness :
    proxyGet (AlignedData.mk (Ty.scalar DataType.UINT8) 0 1) none 0 [7] =
      (read (AlignedData.mk (Ty.scalar DataType.UINT8) 0 1) [7] 0).map
        (applyTransform (trOut none)) ∧
    proxyGet (AlignedData.mk (Ty.scalar DataType.UINT8) 0 1) none 0 [7] =
      proxyGet (AlignedData.mk (Ty.scalar DataType.UINT8) 0 1) none 0 [7] ∧
    (∀ buf : List ℕ, 0 + 0 + getDataTypeSize DataType.UINT8 ≤ buf.length →
      proxyGet (AlignedData.mk (Ty.scalar DataType.UINT8) 0 1) none 0 (reset buf) =
        .ok (applyTransform (trOut none) (zeroVal DataType.UINT8))) ∧
    (∀ (sc : StructCtor) (own src2 : List ℕ) (o2 : ℕ), own.length = sc.size →
      o2 + sc.size ≤ src2.length →
      proxyGet (AlignedData.mk (Ty.scalar DataType.UINT8) 0 1) none 0
          (instCopy sc own src2 o2) =
        proxyGet (AlignedData.mk (Ty.scalar DataType.UINT8) 0 1) none 0
          (readBytes src2 o2 sc.size)) ∧
    (∀ (v : Val) (b2 : List ℕ),
      proxySet (AlignedData.mk (Ty.scalar DataType.UINT8) 0 1) none 0 [7] v =
        (b2, none) →
      proxySet (AlignedData.mk (Ty.scalar DataType.UINT8) 0 1) none 0 [7] v =
        write (AlignedData.mk (Ty.scalar DataType.UINT8) 0 1) [7]
          (applyTransform (trIn none) v) 0 ∧
      b2 = writeBytes [7] (0 + 0)
        (readBytes b2 (0 + 0) (getDataTypeSize DataType.UINT8))) ∧
    (∀ alen : ℕ,
      proxyGet (AlignedData.mk (Ty.arr (Ty.scalar DataType.UINT8) alen) 0 1)
          none 0 [7] =
        (readArray (AlignedData.mk (Ty.arr (Ty.scalar DataType.UINT8) alen) 0 1)
          [7] 0 true).map (applyTransform (trOut none))) ∧
    (∀ alen : ℕ,
      readBytes [7] (0 + 0) (alen * sizeof (Ty.scalar DataType.UINT8)) =
        readBytes [7] (0 + 0) (alen * sizeof (Ty.scalar DataType.UINT8)) →
      proxyGet (AlignedData.mk (Ty.arr (Ty.scalar DataType.UINT8) alen) 0 1)
          none 0 [7] =
        proxyGet (AlignedData.mk (Ty.arr (Ty.scalar DataType.UINT8) alen) 0 1)
          none 0 [7]) ∧
    (∀ (alen : ℕ) (buf : List ℕ),
      0 + 0 + alen * sizeof (Ty.scalar DataType.UINT8) ≤ buf.length →
      proxyGet (AlignedData.mk (Ty.arr (Ty.scalar DataType.UINT8) alen) 0 1)
          none 0 (reset buf) =
        .ok (applyTransform (trOut none)
          (.arrv (List.replicate alen (zeroVal DataType.UINT8))))) ∧
    (∀ (alen : ℕ) (sc : StructCtor) (own src2 : List ℕ) (o2 : ℕ),
      own.length = sc.size → o2 + sc.size ≤ src2.length →
      proxyGet (AlignedData.mk (Ty.arr (Ty.scalar DataType.UINT8) alen) 0 1)
          none 0 (instCopy sc own src2 o2) =
        proxyGet (AlignedData.mk (Ty.arr (Ty.scalar DataType.UINT8) alen) 0 1)
          none 0 (readBytes src2 o2 sc.size)) ∧
    ∀ (alen : ℕ) (v : Val),
      proxySet (AlignedData.mk (Ty.arr (Ty.scalar DataType.UINT8) alen) 0 1)
          none 0 [7] v =
        writeArray (AlignedData.mk (Ty.arr (Ty.scalar DataType.UINT8) alen) 0 1)
          (applyTransform (trIn none) v) [7] 0 :=
  c9_live_accessor DataType.UINT8 0 1 0 none [7] [7] rfl rfl

end NBSP
